import Mathlib

/-!
# The R1CS solver of `internal/backend/bls12-377/cs/r1cs.go`

A shallow embedding of `R1CS.Solve`, `R1CS.solveConstraint`, `R1CS.instantiateR1C`,
`R1CS.mulByCoeff`, `R1CS.initHints` and `R1CS.ReadFrom`, followed by theorems about them.

Conventions of the embedding.

* `fr.Element` is a type `F` with `[Field F] [DecidableEq F]`: the field arithmetic is an
  external library.  The two divisions of `solveConstraint` are guarded by a zero test, so
  no division by zero is evaluated.
* Go slices are lists.  The caller's vectors `a`, `b`, `c` are three separate lists (they are
  assumed not to overlap in memory); the vectors after the call are part of the outcome.
* The wire and constraint counts of `compiled.R1CS` are mathematical integers (`Int`);
  machine overflow of these counts is not modelled.  Variable, coefficient and hint IDs are
  natural numbers.
* A Go `panic` is the outcome `fault`; a returned `error` is the outcome `error`.
* `compiled.LogEntry` is a type parameter `LE`; rendering a log entry is presentation and is
  not modelled, the unsatisfied-constraint error carries the entry that would be rendered.
* solution.go is not part of the sources at hand; what r1cs.go calls in it is modelled from
  the specification, each definition saying so.
* Two pieces of ghost state make temporal statements expressible: the list of events
  (`Event`) of a run, and the local `solution` at the moment `Solve` exits.
-/

namespace Gnark

set_option linter.unusedSectionVars false

/-! ## Outcomes -/

/-- The run-time panics on the paths of `Solve`. -/
inductive Fault
  /-- an index out of range, or `make` with a negative length -/
  | indexOutOfRange
  /-- `panic("found more than one wire to instantiate")` -/
  | moreThanOneWire
  /-- `panic("solver didn't instantiate all wires")` -/
  | notAllWires
  deriving DecidableEq, Repr

/-- The errors `Solve` returns. -/
inductive SolveError (LE : Type)
  /-- `invalid witness size, got %d, expected %d` -/
  | invalidWitnessSize (got expected : Int)
  /-- `invalid input size: len(a, b, c) == cs.NbConstraints` -/
  | invalidInputSize
  /-- the error of `newSolution` -/
  | newSolution (msg : String)
  /-- the error of `solution.solveHint` -/
  | hintResolutionFailed (msg : String)
  /-- `ErrUnsatisfiedConstraint`, wrapped with the debug entry at the cursor -/
  | unsatisfiedConstraint (debugInfo : LE)
  deriving DecidableEq, Repr

/-- Outcome of a call that can return a value, return an error, or panic. -/
inductive Res (E α : Type)
  | ok (v : α)
  | error (e : E)
  | fault (f : Fault)
  deriving DecidableEq, Repr

/-- An indexing operation that panics when out of range, seen as an outcome. -/
def Res.ofOption {E α : Type} : Option α → Res E α
  | some v => .ok v
  | none => .fault .indexOutOfRange

/-- Ghost events of a run of `Solve`. -/
inductive Event
  /-- the call `cs.solveConstraint(cs.Constraints[i], &solution)` -/
  | solveConstraint (i : Nat)
  /-- the deferred call `solution.printLogs(cs.loggerOut, cs.Logs)` -/
  | printLogs
  deriving DecidableEq, Repr

/-! ## Data model -/

/-- Modelled from the spec: `compiled.Term` is not in r1cs.go.  "Term: (Variable ID,
Coefficient Reference). Represents `coeff * wire_value`."  The fields are what the accessors
`t.CoeffID()` and `t.VariableID()` return. -/
structure Term where
  CoeffID : Nat
  VariableID : Nat
  deriving DecidableEq, Repr

/-- `compiled.LinearExpression`: an ordered sequence of terms. -/
abbrev LinearExpression := List Term

/-- Modelled from the spec: `compiled.R1C` is not in r1cs.go.  "Constraint (R1C): (L, R, O),
each a Linear Expression." -/
structure R1C where
  L : LinearExpression
  R : LinearExpression
  O : LinearExpression
  deriving DecidableEq, Repr

/-- Modelled from the spec: the inputs of a hint binding are not in r1cs.go.  "ordered list
of input Variable IDs/constants". -/
inductive HintInput (F : Type)
  | wire (vID : Nat)
  | const (v : F)
  deriving DecidableEq, Repr

/-- Modelled from the spec: `compiled.Hint` is not in r1cs.go.  "Hint Binding: (target
Variable ID, hint function identifier, ordered list of input Variable IDs/constants)."
r1cs.go reads the field `WireID`. -/
structure Hint (F : Type) where
  WireID : Nat
  ID : Nat
  Inputs : List (HintInput F)
  deriving DecidableEq, Repr

/-- Modelled from the spec: `hint.Function` is not in r1cs.go.  A hint function is an
"externally supplied computation function" known by its identifier; it is given the input
values and produces one output or an error. -/
structure HintFunction (F : Type) where
  ID : Nat
  run : List F → Except String F

/-- The declarations r1cs.go takes from other files whose values neither r1cs.go nor the
spec gives: the four reserved coefficient IDs of package `compiled`, and the condition under
which `newSolution` reports an error for a set of hint functions. -/
structure Env (F : Type) where
  CoeffIdZero : Nat
  CoeffIdOne : Nat
  CoeffIdTwo : Nat
  CoeffIdMinusOne : Nat
  newSolutionErr : List (HintFunction F) → Option String

/-- The reserved coefficient IDs are four different constants (they are the `case` labels of
one Go `switch`, which must differ). -/
def Env.Distinct {F : Type} (env : Env F) : Prop :=
  env.CoeffIdOne ≠ env.CoeffIdMinusOne ∧ env.CoeffIdOne ≠ env.CoeffIdZero ∧
  env.CoeffIdOne ≠ env.CoeffIdTwo ∧ env.CoeffIdMinusOne ≠ env.CoeffIdZero ∧
  env.CoeffIdMinusOne ≠ env.CoeffIdTwo ∧ env.CoeffIdZero ≠ env.CoeffIdTwo

/-- The struct `R1CS` of r1cs.go together with the fields of the embedded `compiled.R1CS`
that r1cs.go reads.  `mHints` is the Go map from hint wire ID to position in `Hints`, kept
as an association list in which the first entry for a key is the live one.  `loggerOut` is
left out. -/
structure R1CS (F LE : Type) where
  NbInternalVariables : Int
  NbPublicVariables : Int
  NbSecretVariables : Int
  NbConstraints : Int
  Constraints : List R1C
  Hints : List (Hint F)
  Logs : List LE
  DebugInfoComputation : List LE
  Coefficients : List F
  mHints : List (Nat × Nat)

/-- Modelled from the spec: the struct `solution` is not in r1cs.go.  "a parallel pair of
arrays, `values` and `solved`, both sized to the total wire count, plus a running count of
solved wires"; it also holds the coefficient table and the supplied hint functions, which
`newSolution` receives. -/
structure Solution (F : Type) where
  values : List F
  coefficients : List F
  solved : List Bool
  nbSolved : Nat
  mHintsFunctions : List (HintFunction F)

variable {F : Type} [Field F] [DecidableEq F] {LE : Type}

/-! ## The solution (solution.go, modelled from the spec) -/

/-- Modelled from the spec: the coefficient a reference stands for is not computed in
r1cs.go on the `computeTerm` path.  "Reserved IDs ... Any other ID multiplies by
`table[id]`"; "an out-of-range ID is a fatal indexing fault" (`none`).  The reserved IDs
are tried in the order of the `switch` of `mulByCoeff`. -/
def Solution.coeff (env : Env F) (s : Solution F) (cID : Nat) : Option F :=
  if cID = env.CoeffIdOne then some 1
  else if cID = env.CoeffIdMinusOne then some (-1)
  else if cID = env.CoeffIdZero then some 0
  else if cID = env.CoeffIdTwo then some 2
  else s.coefficients[cID]?

/-- Modelled from the spec: `solution.computeTerm` is not in r1cs.go.  A term "represents
`coeff * wire_value`"; `none` is the indexing fault of an out-of-range coefficient or wire. -/
def Solution.computeTerm (env : Env F) (s : Solution F) (t : Term) : Option F :=
  match s.coeff env t.CoeffID, s.values[t.VariableID]? with
  | some k, some v => some (k * v)
  | _, _ => none

/-- Modelled from the spec: `solution.set` is not in r1cs.go.  "Store `wire` into the
solution, mark solved, increment the solved counter."  `none` is the indexing fault. -/
def Solution.set (s : Solution F) (id : Nat) (value : F) : Option (Solution F) :=
  if id < s.values.length ∧ id < s.solved.length then
    some { s with
      values := s.values.set id value
      solved := s.solved.set id true
      nbSolved := s.nbSolved + 1 }
  else none

/-- Modelled from the spec: `solution.isValid` is not in r1cs.go.  "all wires solved
(checked via the running counter against total wire count)". -/
def Solution.isValid (s : Solution F) : Bool :=
  s.nbSolved == s.values.length

/-- Modelled from the spec: resolving one input of a hint binding is not in r1cs.go.  "each
input is itself resolved to a field value first; inputs must already be solved or be the
constant wire".  The stored value of the wire is read; `none` is the indexing fault. -/
def Solution.hintInput (s : Solution F) : HintInput F → Option F
  | .wire vID => s.values[vID]?
  | .const v => some v

/-- Modelled from the spec: resolving the inputs of a hint binding, in order. -/
def Solution.hintInputs (s : Solution F) : List (HintInput F) → Option (List F)
  | [] => some []
  | i :: is =>
    match s.hintInput i, s.hintInputs is with
    | some v, some vs => some (v :: vs)
    | _, _ => none

/-- Modelled from the spec: `solution.solveHint` is not in r1cs.go.  "invoke the hint
function immediately with its declared inputs ... The hint function's output is written into
the solution and the wire is marked solved."  "Failure to find a requested hint function
among those supplied by the caller, or the function returning an error, propagates as a
`HintResolutionFailed` error". -/
def Solution.solveHint (s : Solution F) (h : Hint F) (vID : Nat) :
    Res (SolveError LE) (Solution F) :=
  match s.mHintsFunctions.find? (fun f => f.ID == h.ID) with
  | none => .error (.hintResolutionFailed "missing hint function")
  | some f =>
    match s.hintInputs h.Inputs with
    | none => .fault .indexOutOfRange
    | some inputs =>
      match f.run inputs with
      | .error msg => .error (.hintResolutionFailed msg)
      | .ok v => Res.ofOption (s.set vID v)

/-- Modelled from the spec: `newSolution` is not in r1cs.go.  `values` and `solved` are
"both sized to the total wire count", nothing is solved yet, and the coefficient table and
the hint functions are stored.  A negative count is the fault of `make`; the error is the
one `env.newSolutionErr` gives. -/
def newSolution (env : Env F) (nbWires : Int) (hintFunctions : List (HintFunction F))
    (coefficients : List F) : Res (SolveError LE) (Solution F) :=
  if nbWires < 0 then .fault .indexOutOfRange
  else
    match env.newSolutionErr hintFunctions with
    | some msg => .error (.newSolution msg)
    | none =>
      .ok { values := List.replicate nbWires.toNat 0
            coefficients := coefficients
            solved := List.replicate nbWires.toNat false
            nbSolved := 0
            mHintsFunctions := hintFunctions }

/-! ## r1cs.go -/

/-- `initHints` (lines 153-160): a fresh map, then `mHints[Hints[i].WireID] = i` for
`i = 0, 1, ...`.  The accumulator is the map built so far; an insertion goes in front, so
that the latest entry for a key is the one a lookup finds. -/
def initHintsFrom : Nat → List (Hint F) → List (Nat × Nat) → List (Nat × Nat)
  | _, [], m => m
  | i, h :: hs, m => initHintsFrom (i + 1) hs ((h.WireID, i) :: m)

/-- `initHints` (lines 153-160): replaces `cs.mHints` by the map built from `cs.Hints`. -/
def R1CS.initHints (cs : R1CS F LE) : R1CS F LE :=
  { cs with mHints := initHintsFrom 0 cs.Hints [] }

/-- `mulByCoeff` (lines 162-177): sets `res = res * t.Coeff`; the result is the new value
of `res`, `none` is the indexing fault of `cs.Coefficients[cID]`. -/
def R1CS.mulByCoeff (env : Env F) (cs : R1CS F LE) (res : F) (t : Term) : Option F :=
  let cID := t.CoeffID
  if cID = env.CoeffIdOne then some res
  else if cID = env.CoeffIdMinusOne then some (-res)
  else if cID = env.CoeffIdZero then some 0
  else if cID = env.CoeffIdTwo then some (res + res)
  else
    match cs.Coefficients[cID]? with
    | some k => some (res * k)
    | none => none

/-- One of the three loops of `instantiateR1C`: `v = solution.computeTerm(t); a.Add(&a, &v)`
for each term, starting from `acc`. -/
def sumTerms (env : Env F) (s : Solution F) : LinearExpression → F → Option F
  | [], acc => some acc
  | t :: ts, acc =>
    match s.computeTerm env t with
    | some v => sumTerms env s ts (acc + v)
    | none => none

/-- `instantiateR1C` (lines 179-197): the values of L, R and O. -/
def R1CS.instantiateR1C (env : Env F) (r : R1C) (s : Solution F) : Option (F × F × F) :=
  match sumTerms env s r.L 0 with
  | none => none
  | some a =>
    match sumTerms env s r.R 0 with
    | none => none
    | some b =>
      match sumTerms env s r.O 0 with
      | none => none
      | some c => some (a, b, c)

/-- The pair `(val, locValue)` that `solveConstraint` passes to `processTerm`:
`(&a, 1)` for the terms of L, `(&b, 2)` for R, `(&c, 3)` for O. -/
inductive Side
  | L
  | R
  | O
  deriving DecidableEq, Repr

/-- The `locValue` of a side. -/
def Side.locValue : Side → Nat
  | .L => 1
  | .R => 2
  | .O => 3

/-- The variables of `solveConstraint` that the closure `processTerm` updates: the
solution, `loc`, `termToCompute`, and the accumulators `a`, `b`, `c`. -/
structure Walk (F : Type) where
  solution : Solution F
  loc : Nat
  termToCompute : Term
  a : F
  b : F
  c : F

/-- `val.Add(val, &v)` for the accumulator of a side. -/
def Walk.add (w : Walk F) (side : Side) (v : F) : Walk F :=
  match side with
  | .L => { w with a := w.a + v }
  | .R => { w with b := w.b + v }
  | .O => { w with c := w.c + v }

/-- The closure `processTerm` (lines 220-242).  The second component is the state when the
closure exits. -/
def R1CS.processTerm (env : Env F) (cs : R1CS F LE) (w : Walk F) (t : Term) (side : Side) :
    Res (SolveError LE) Unit × Walk F :=
  let vID := t.VariableID
  match w.solution.solved[vID]? with
  | none => (.fault .indexOutOfRange, w)
  | some true =>
    match w.solution.computeTerm env t with
    | some v => (.ok (), w.add side v)
    | none => (.fault .indexOutOfRange, w)
  | some false =>
    match cs.mHints.lookup vID with
    | some hID =>
      match cs.Hints[hID]? with
      | none => (.fault .indexOutOfRange, w)
      | some h =>
        match (w.solution.solveHint h vID : Res (SolveError LE) (Solution F)) with
        | .ok s => (.ok (), { w with solution := s })
        | .error e => (.error e, w)
        | .fault f => (.fault f, w)
    | none =>
      if w.loc ≠ 0 then (.fault .moreThanOneWire, w)
      else (.ok (), { w with termToCompute := t, loc := side.locValue })

/-- One of the three loops `for _, t := range r.X { if err := processTerm(...) ... }`
(lines 244-260): stops at the first error or fault. -/
def R1CS.walkTerms (env : Env F) (cs : R1CS F LE) (side : Side) :
    LinearExpression → Walk F → Res (SolveError LE) Unit × Walk F
  | [], w => (.ok (), w)
  | t :: ts, w =>
    match cs.processTerm env w t side with
    | (.ok _, w1) => R1CS.walkTerms env cs side ts w1
    | (.error e, w1) => (.error e, w1)
    | (.fault f, w1) => (.fault f, w1)

/-- The `switch loc` of `solveConstraint` (lines 273-294): the value of `wire` and of
`offset` after it; `none` is the indexing fault inside `mulByCoeff`. -/
def R1CS.solveWire (env : Env F) (cs : R1CS F LE) (w : Walk F) : Option (F × Nat) :=
  if w.loc = 1 then
    if w.b ≠ 0 then
      (cs.mulByCoeff env (w.c / w.b - w.a) w.termToCompute).map (fun wire => (wire, 1))
    else some (0, 0)
  else if w.loc = 2 then
    if w.a ≠ 0 then
      (cs.mulByCoeff env (w.c / w.a - w.b) w.termToCompute).map (fun wire => (wire, 1))
    else some (0, 0)
  else if w.loc = 3 then
    (cs.mulByCoeff env (w.a * w.b - w.c) w.termToCompute).map (fun wire => (wire, 0))
  else some (0, 0)

/-- The state in which `solveConstraint` starts walking the terms. -/
def Walk.init (solution : Solution F) : Walk F :=
  { solution := solution, loc := 0, termToCompute := ⟨0, 0⟩, a := 0, b := 0, c := 0 }

/-- The three loops of `solveConstraint` (lines 244-260), one after the other. -/
def R1CS.walkConstraint (env : Env F) (cs : R1CS F LE) (r : R1C) (w : Walk F) :
    Res (SolveError LE) Unit × Walk F :=
  match cs.walkTerms env .L r.L w with
  | (.ok _, w1) =>
    match cs.walkTerms env .R r.R w1 with
    | (.ok _, w2) => cs.walkTerms env .O r.O w2
    | other => other
  | other => other

/-- `solveConstraint` (lines 208-299).  The first component is what the function returns
(`offset`, an error, or a panic), the second the solution when it exits. -/
def R1CS.solveConstraint (env : Env F) (cs : R1CS F LE) (r : R1C) (solution : Solution F) :
    Res (SolveError LE) Nat × Solution F :=
  match cs.walkConstraint env r (Walk.init solution) with
  | (.error e, w) => (.error e, w.solution)
  | (.fault f, w) => (.fault f, w.solution)
  | (.ok _, w) =>
    if w.loc = 0 then (.ok 0, w.solution)
    else
      match cs.solveWire env w with
      | none => (.fault .indexOutOfRange, w.solution)
      | some (wire, offset) =>
        match w.solution.set w.termToCompute.VariableID wire with
        | none => (.fault .indexOutOfRange, w.solution)
        | some s => (.ok offset, s)

/-- Go's `copy(dst, src)`: the first `min (len dst) (len src)` entries of `dst` are
replaced by those of `src`. -/
def copySlice (dst src : List F) : List F :=
  src.take dst.length ++ dst.drop src.length

/-- The loop `for i := 0; i < len(witness); i++ { solution.solved[i+1] = true }` (lines
90-92): `markSolved n i solved` runs the `n` remaining iterations from index `i`; `none` is
the indexing fault. -/
def markSolved : Nat → Nat → List Bool → Option (List Bool)
  | 0, _, solved => some solved
  | n + 1, i, solved =>
    if i + 1 < solved.length then markSolved n (i + 1) (solved.set (i + 1) true) else none

/-- Lines 87-96 of `Solve`: the constant wire and the witness are stored and marked solved,
and the counter is advanced.  `none` is an indexing fault. -/
def initInputs (solution : Solution F) (witness : List F) : Option (Solution F) :=
  if 0 < solution.solved.length ∧ 0 < solution.values.length then
    let solved := solution.solved.set 0 true
    let values := solution.values.set 0 1
    let values := values.take 1 ++ copySlice (values.drop 1) witness
    match markSolved witness.length 0 solved with
    | none => none
    | some solved =>
      some { solution with
        values := values
        solved := solved
        nbSolved := solution.nbSolved + (witness.length + 1) }
  else none

/-- The variables of `Solve` that the loop over the constraints updates, with the ghost
trace of events. -/
structure LoopState (F : Type) where
  solution : Solution F
  a : List F
  b : List F
  c : List F
  debugInfoComputationOffset : Nat
  trace : List Event

/-- The body of the loop of `Solve` for index `i` (lines 116-132), `r` being
`cs.Constraints[i]`.  As `a`, `b`, `c` do not overlap, the check reads back the three values
just stored. -/
def R1CS.solveStep (env : Env F) (cs : R1CS F LE) (i : Nat) (r : R1C) (st : LoopState F) :
    Res (SolveError LE) Unit × LoopState F :=
  let st := { st with trace := st.trace ++ [Event.solveConstraint i] }
  match cs.solveConstraint env r st.solution with
  | (.error e, s) => (.error e, { st with solution := s })
  | (.fault f, s) => (.fault f, { st with solution := s })
  | (.ok offset, s) =>
    let st := { st with
      solution := s
      debugInfoComputationOffset := st.debugInfoComputationOffset + offset }
    match R1CS.instantiateR1C env r s with
    | none => (.fault .indexOutOfRange, st)
    | some (x, y, z) =>
      if i < st.a.length ∧ i < st.b.length ∧ i < st.c.length then
        let st := { st with a := st.a.set i x, b := st.b.set i y, c := st.c.set i z }
        if x * y = z then (.ok (), st)
        else
          match cs.DebugInfoComputation[st.debugInfoComputationOffset]? with
          | none => (.fault .indexOutOfRange, st)
          | some debugInfo => (.error (.unsatisfiedConstraint debugInfo), st)
      else (.fault .indexOutOfRange, st)

/-- The loop `for i := 0; i < len(cs.Constraints); i++` of `Solve` (lines 115-133), from
index `i` over the remaining constraints; it stops at the first error or fault. -/
def R1CS.solveLoop (env : Env F) (cs : R1CS F LE) :
    Nat → List R1C → LoopState F → Res (SolveError LE) Unit × LoopState F
  | _, [], st => (.ok (), st)
  | i, r :: rs, st =>
    match cs.solveStep env i r st with
    | (.ok _, st1) => R1CS.solveLoop env cs (i + 1) rs st1
    | (.error e, st1) => (.error e, st1)
    | (.fault f, st1) => (.fault f, st1)

/-- What a call of `Solve` leaves behind: the returned pair (or the panic), the caller's
vectors `a`, `b`, `c` after the call, and the ghost state: the local `solution` at exit
(`none` when it was not built) and the events of the run. -/
structure SolveOut (F LE : Type) where
  result : Res (SolveError LE) (List F)
  a : List F
  b : List F
  c : List F
  solution : Option (Solution F)
  trace : List Event

/-- Lines 70-96 of `Solve`: the two size checks, `newSolution`, and the storing of the
inputs, up to the point where the printing of the logs is deferred. -/
def R1CS.solveInit (env : Env F) (cs : R1CS F LE) (witness a b c : List F)
    (hintFunctions : List (HintFunction F)) : Res (SolveError LE) (Solution F) :=
  if (witness.length : Int) ≠ cs.NbPublicVariables - 1 + cs.NbSecretVariables then
    .error (.invalidWitnessSize witness.length
      (cs.NbPublicVariables - 1 + cs.NbSecretVariables))
  else
    let nbWires := cs.NbPublicVariables + cs.NbSecretVariables + cs.NbInternalVariables
    if (a.length : Int) ≠ cs.NbConstraints ∨ (b.length : Int) ≠ cs.NbConstraints ∨
        (c.length : Int) ≠ cs.NbConstraints then
      .error .invalidInputSize
    else
      match (newSolution env nbWires hintFunctions cs.Coefficients :
          Res (SolveError LE) (Solution F)) with
      | .error e => .error e
      | .fault f => .fault f
      | .ok solution => Res.ofOption (initInputs solution witness)

/-- Lines 102-140 of `Solve`, which run under the deferred `printLogs`: the loop, the
sanity check and the return; the deferred call is the last event. -/
def R1CS.solveBody (env : Env F) (cs : R1CS F LE) (a b c : List F) (solution : Solution F) :
    SolveOut F LE :=
  match cs.solveLoop env 0 cs.Constraints
      { solution := solution, a := a, b := b, c := c,
        debugInfoComputationOffset := 0, trace := [] } with
  | (.error e, st) =>
    { result := .error e, a := st.a, b := st.b, c := st.c, solution := some st.solution,
      trace := st.trace ++ [Event.printLogs] }
  | (.fault f, st) =>
    { result := .fault f, a := st.a, b := st.b, c := st.c, solution := some st.solution,
      trace := st.trace ++ [Event.printLogs] }
  | (.ok _, st) =>
    if st.solution.isValid then
      { result := .ok st.solution.values, a := st.a, b := st.b, c := st.c,
        solution := some st.solution, trace := st.trace ++ [Event.printLogs] }
    else
      { result := .fault .notAllWires, a := st.a, b := st.b, c := st.c,
        solution := some st.solution, trace := st.trace ++ [Event.printLogs] }

/-- `Solve` (lines 68-141). -/
def R1CS.Solve (env : Env F) (cs : R1CS F LE) (witness a b c : List F)
    (hintFunctions : List (HintFunction F)) : SolveOut F LE :=
  match cs.solveInit env witness a b c hintFunctions with
  | .error e => { result := .error e, a := a, b := b, c := c, solution := none, trace := [] }
  | .fault f => { result := .fault f, a := a, b := b, c := c, solution := none, trace := [] }
  | .ok solution => cs.solveBody env a b c solution

/-- The wire vector a caller of `Solve` receives: `nil` (here `none`) with an error. -/
def SolveOut.wires (out : SolveOut F LE) : Option (List F) :=
  match out.result with
  | .ok ws => some ws
  | _ => none

/-! ## A concrete system: `x * x = y` -/

/-- A prime field to run the definitions in. -/
instance fact_prime_thirteen : Fact (Nat.Prime 13) := ⟨by norm_num⟩

/-- Reserved coefficient IDs 0, 1, 2, 3 for zero, one, two, minus one; `newSolution`
accepts every hint set. -/
def env0 (F : Type) : Env F :=
  { CoeffIdZero := 0, CoeffIdOne := 1, CoeffIdTwo := 2, CoeffIdMinusOne := 3,
    newSolutionErr := fun _ => none }

/-- The system of the scenario: wires one (0), x (1, public), y (2, internal), the single
constraint `x * x = y` with coefficient one everywhere, no hints, coefficient table {1}. -/
def squareSystem (env : Env F) (LE : Type) : R1CS F LE :=
  { NbInternalVariables := 1, NbPublicVariables := 2, NbSecretVariables := 0,
    NbConstraints := 1,
    Constraints := [⟨[⟨env.CoeffIdOne, 1⟩], [⟨env.CoeffIdOne, 1⟩], [⟨env.CoeffIdOne, 2⟩]⟩],
    Hints := [], Logs := [], DebugInfoComputation := [], Coefficients := [1], mHints := [] }

/-! ## Predicates used in the statements -/

/-- The counter of a solution agrees with its flags, and the two arrays are parallel. -/
def Solution.Consistent (s : Solution F) : Prop :=
  s.values.length = s.solved.length ∧ s.nbSolved = s.solved.count true

/-- The solution `s1` comes from `s` by solving wires only: the sizes are the same, and a
wire solved in `s` is solved in `s1` and has the same value there. -/
def Solution.Extends (s s1 : Solution F) : Prop :=
  s1.values.length = s.values.length ∧ s1.solved.length = s.solved.length ∧
  ∀ i : Nat, s.solved[i]? = some true →
    s1.solved[i]? = some true ∧ s1.values[i]? = s.values[i]?

/-- Between `s` and `s1` no wire without a hint binding was solved. -/
def R1CS.Frozen (cs : R1CS F LE) (s s1 : Solution F) : Prop :=
  ∀ v : Nat, s.solved[v]? = some false → cs.mHints.lookup v = none →
    s1.solved[v]? = some false

/-- The first `k` entries of `a`, `b`, `c` exist and satisfy `a[j] * b[j] = c[j]`. -/
def Checked (va vb vc : List F) (k : Nat) : Prop :=
  ∀ j : Nat, j < k →
    ∃ x y z, va[j]? = some x ∧ vb[j]? = some y ∧ vc[j]? = some z ∧ x * y = z

/-- What holds of the state of a walk of `solveConstraint` that started in the solution
`s0`: the solution stays consistent, it extends `s0`, no wire without a hint binding was
solved, and the recorded unknown is an unsolved wire without a hint binding. -/
def R1CS.WalkInv (cs : R1CS F LE) (s0 : Solution F) (w : Walk F) : Prop :=
  (s0.Consistent → w.solution.Consistent) ∧ s0.Extends w.solution ∧
  cs.Frozen s0 w.solution ∧
  (w.loc ≠ 0 → w.solution.solved[w.termToCompute.VariableID]? = some false ∧
    cs.mHints.lookup w.termToCompute.VariableID = none)

/-- The terms of a constraint in the order in which `solveConstraint` walks them, each
with the side it is walked on. -/
def R1C.terms (r : R1C) : List (Term × Side) :=
  r.L.map (fun t => (t, Side.L)) ++ r.R.map (fun t => (t, Side.R)) ++
    r.O.map (fun t => (t, Side.O))

/-- The three loops of `solveConstraint` seen as one walk over `R1C.terms`: `processTerm`
on each term with its side, stopping at the first error or fault. -/
def R1CS.walkTagged (env : Env F) (cs : R1CS F LE) :
    List (Term × Side) → Walk F → Res (SolveError LE) Unit × Walk F
  | [], w => (.ok (), w)
  | (t, side) :: ts, w =>
    match cs.processTerm env w t side with
    | (.ok _, w1) => R1CS.walkTagged env cs ts w1
    | (.error e, w1) => (.error e, w1)
    | (.fault f, w1) => (.fault f, w1)

/-- The errors that come from the loop of `Solve`, as opposed to those returned before it
starts. -/
def SolveError.inLoop : SolveError LE → Bool
  | .hintResolutionFailed _ => true
  | .unsatisfiedConstraint _ => true
  | _ => false

/-- The scenario with an assertion: the constraint `x * x = y` followed by `1 * 10 = y`
(the constant 10 is entry 4 of the coefficient table, the reserved IDs being 0, 1, 2, 3),
over `ZMod 13`; `debug` is the table of debug entries. -/
def assertSystem (debug : List String) : R1CS (ZMod 13) String :=
  { NbInternalVariables := 1, NbPublicVariables := 2, NbSecretVariables := 0,
    NbConstraints := 2,
    Constraints := [⟨[⟨1, 1⟩], [⟨1, 1⟩], [⟨1, 2⟩]⟩, ⟨[⟨1, 0⟩], [⟨4, 0⟩], [⟨1, 2⟩]⟩],
    Hints := [], Logs := [], DebugInfoComputation := debug,
    Coefficients := [0, 1, 2, -1, 10], mHints := [] }

/-- The scenario with a hint: wires one (0), x (1, public), z (2, internal, bound to the
hint function 7 with input x), and the constraint `z * 1 = x`, over `ZMod 13`. -/
def hintSystem : R1CS (ZMod 13) String :=
  { NbInternalVariables := 1, NbPublicVariables := 2, NbSecretVariables := 0,
    NbConstraints := 1,
    Constraints := [⟨[⟨1, 2⟩], [⟨1, 0⟩], [⟨1, 1⟩]⟩],
    Hints := [⟨2, 7, [.wire 1]⟩], Logs := [], DebugInfoComputation := [],
    Coefficients := [0, 1, 2, -1], mHints := [(2, 0)] }

/-- The coefficient that the reference `cID` stands for over the table `table`: the four
reserved IDs stand for 1, -1, 0 and 2 (tried in the order of the `switch` of `mulByCoeff`),
any other ID for `table[cID]`; `none` when that index is out of range. -/
def coeffValue (env : Env F) (table : List F) (cID : Nat) : Option F :=
  if cID = env.CoeffIdOne then some 1
  else if cID = env.CoeffIdMinusOne then some (-1)
  else if cID = env.CoeffIdZero then some 0
  else if cID = env.CoeffIdTwo then some 2
  else table[cID]?

/-- The accumulator of a side: `a` for L, `b` for R, `c` for O. -/
def Walk.acc (w : Walk F) : Side → F
  | .L => w.a
  | .R => w.b
  | .O => w.c

/-- The state `w` with the accumulator of a side replaced by `v`. -/
def Walk.setAcc (w : Walk F) (side : Side) (v : F) : Walk F :=
  match side with
  | .L => { w with a := v }
  | .R => { w with b := v }
  | .O => { w with c := v }

/-- The solution `s` after `solution.set(id, value)` for an index in range. -/
def Solution.stored (s : Solution F) (id : Nat) (value : F) : Solution F :=
  { s with
    values := s.values.set id value
    solved := s.solved.set id true
    nbSolved := s.nbSolved + 1 }

/-- Every term of the list is on a wire that is solved in `s`. -/
def AllSolved (s : Solution F) (ts : List Term) : Prop :=
  ∀ u, u ∈ ts → s.solved[u.VariableID]? = some true

/-- A solution over `ZMod 13` in which the constant wire and the wire x = 3 are solved and
the wire 2 is not; the coefficient table is the one of `assertSystem`. -/
def partialSolution : Solution (ZMod 13) :=
  { values := [1, 3, 0], coefficients := [0, 1, 2, -1, 10],
    solved := [true, true, false], nbSolved := 2, mHintsFunctions := [] }

/-- Whether the `switch` of `solveConstraint` takes a branch that divides, in the state `w`
reached after the three loops: `loc` is 1 and `b` is not zero (`wire.Div(&c, &b)`), or `loc`
is 2 and `a` is not zero (`wire.Div(&c, &a)`). -/
def Walk.divides (w : Walk F) : Bool :=
  decide ((w.loc = 1 ∧ w.b ≠ 0) ∨ (w.loc = 2 ∧ w.a ≠ 0))

/-- Whether `solveConstraint`, called on `r` in the solution `s`, performs a division. -/
def R1CS.divided (env : Env F) (cs : R1CS F LE) (r : R1C) (s : Solution F) : Bool :=
  match cs.walkConstraint env r (Walk.init s) with
  | (.ok _, w) => w.divides
  | _ => false

/-- The number of calls of `solveConstraint` that perform a division in the run of the loop
of `Solve` from index `i` over the constraints `rs`, started in `st`. -/
def R1CS.divisions (env : Env F) (cs : R1CS F LE) : Nat → List R1C → LoopState F → Nat
  | _, [], _ => 0
  | i, r :: rs, st =>
    (if cs.divided env r st.solution then 1 else 0) +
      match cs.solveStep env i r st with
      | (.ok _, st1) => R1CS.divisions env cs (i + 1) rs st1
      | _ => 0

/-- The wire of the term is, in `s`, unsolved and without a hint binding. -/
def R1CS.isUnknown (cs : R1CS F LE) (s : Solution F) (t : Term) : Bool :=
  decide (s.solved[t.VariableID]? = some false) && (cs.mHints.lookup t.VariableID).isNone

/-- The terms of a walk that are, in `s`, on an unsolved wire without a hint binding. -/
def R1CS.unknownTerms (cs : R1CS F LE) (s : Solution F) (ts : List (Term × Side)) :
    List (Term × Side) :=
  ts.filter (fun p => cs.isUnknown s p.1)

/-- The scenario `y * y = x` over `ZMod 13`: wires one (0), x (1, public), y (2, internal);
the unsolved wire y is on two terms of the single constraint. -/
def twiceSystem : R1CS (ZMod 13) String :=
  { NbInternalVariables := 1, NbPublicVariables := 2, NbSecretVariables := 0,
    NbConstraints := 1,
    Constraints := [⟨[⟨1, 2⟩], [⟨1, 2⟩], [⟨1, 1⟩]⟩],
    Hints := [], Logs := [], DebugInfoComputation := [],
    Coefficients := [0, 1, 2, -1], mHints := [] }

/-- The scenario `z * u = v` over `ZMod 13`: wires one (0), x (1, public), z (2, bound to
the hint function 7 with input x), u (3) and v (4), both internal and without a hint
binding. -/
def twoUnknownSystem : R1CS (ZMod 13) String :=
  { NbInternalVariables := 3, NbPublicVariables := 2, NbSecretVariables := 0,
    NbConstraints := 1,
    Constraints := [⟨[⟨1, 2⟩], [⟨1, 3⟩], [⟨1, 4⟩]⟩],
    Hints := [⟨2, 7, [.wire 1]⟩], Logs := [], DebugInfoComputation := [],
    Coefficients := [0, 1, 2, -1], mHints := [(2, 0)] }

/-- A hint function with identifier 7 that returns its first input. -/
def firstInputHint : HintFunction (ZMod 13) :=
  { ID := 7, run := fun xs => .ok (xs.headD 0) }

/-- No hint and no indexing fault can be met on the terms `ts` in the solution `s`: every
term is on a solved wire and has a value, or is on an unsolved wire without a hint
binding. -/
def R1CS.Plain (env : Env F) (cs : R1CS F LE) (s : Solution F) (ts : List (Term × Side)) :
    Prop :=
  ∀ p, p ∈ ts →
    (s.solved[p.1.VariableID]? = some true ∧ (s.computeTerm env p.1).isSome = true) ∨
      cs.isUnknown s p.1 = true

/-- What a term contributes to the running sum of its expression when the walk reaches it
in state `w`: its value when its wire is already solved in `w`, nothing otherwise. -/
def Walk.contribution (env : Env F) (w : Walk F) (t : Term) : F :=
  if w.solution.solved[t.VariableID]? = some true then
    (w.solution.computeTerm env t).getD 0
  else 0

/-- The sum, over the terms of `ts` walked on the side `side`, of what each contributes in
the state in which the walk reaches it. -/
def R1CS.reachedSum (env : Env F) (cs : R1CS F LE) (side : Side) :
    List (Term × Side) → Walk F → F
  | [], _ => 0
  | (t, sd) :: ts, w =>
    (if sd = side then w.contribution env t else 0) +
      match cs.processTerm env w t sd with
      | (.ok _, w1) => R1CS.reachedSum env cs side ts w1
      | _ => 0

/-- `ReadFrom` (lines 421-436).  The cbor decoder is an external library: `decMode` is the
error of `DecMode()`, if any; `decode` is what `decoder.Decode(&cs)` does to the system,
with its error, if any; `numBytesRead` is `decoder.NumBytesRead()`.  The result is the
system after the call, the returned count and the returned error. -/
def R1CS.ReadFrom (cs : R1CS F LE) (decMode : Option String)
    (decode : R1CS F LE → R1CS F LE × Option String) (numBytesRead : Int) :
    R1CS F LE × Int × Option String :=
  match decMode with
  | some err => (cs, 0, some err)
  | none =>
    match decode cs with
    | (cs1, some err) => (cs1, numBytesRead, some err)
    | (cs1, none) => (cs1.initHints, numBytesRead, none)

/-- The values `coeff * wire_value` of the terms of a linear expression, in order; `none`
when one of them has an index out of range. -/
def termValues (env : Env F) (s : Solution F) : LinearExpression → Option (List F)
  | [] => some []
  | t :: ts =>
    match s.computeTerm env t, termValues env s ts with
    | some v, some vs => some (v :: vs)
    | _, _ => none

/-- A solution that holds the wire values `ws` and the coefficient table `table` and
nothing else: what is needed to evaluate a linear expression over returned values. -/
def Solution.ofValues (ws table : List F) : Solution F :=
  { values := ws, coefficients := table, solved := [], nbSolved := 0, mHintsFunctions := [] }

/-- The constraints `processed` (those with index below the current one, in order) are
sound in the loop state `st`: every wire they mention is solved, and for the `j`-th of them
the sums over the current solution are `a[j]`, `b[j]`, `c[j]` and satisfy
`a[j] * b[j] = c[j]`. -/
def R1CS.Sound (env : Env F) (processed : List R1C) (st : LoopState F) : Prop :=
  ∀ (j : Nat) (r : R1C), processed[j]? = some r →
    (∀ p, p ∈ r.terms → st.solution.solved[p.1.VariableID]? = some true) ∧
    ∃ x y z, R1CS.instantiateR1C env r st.solution = some (x, y, z) ∧ x * y = z ∧
      st.a[j]? = some x ∧ st.b[j]? = some y ∧ st.c[j]? = some z

/-! ## Lemmas on lists -/

theorem count_set_true (l : List Bool) (i : Nat) (h : l[i]? = some false) :
    (l.set i true).count true = l.count true + 1 := by
  induction l generalizing i with
  | nil => simp at h
  | cons x xs ih =>
    cases i with
    | zero =>
      simp at h
      subst h
      simp
    | succ n =>
      simp at h
      simp [List.count_cons, ih n h]
      omega

theorem all_true_of_count (l : List Bool) (h : l.count true = l.length) (i : Nat)
    (hi : i < l.length) : l[i]? = some true := by
  have h1 := List.count_eq_length.mp h
  have h2 : l[i] ∈ l := List.getElem_mem hi
  rw [List.getElem?_eq_getElem hi, ← h1 _ h2]

/-! ## Lemmas on the solution -/

theorem Solution.Extends.refl (s : Solution F) : s.Extends s :=
  ⟨rfl, rfl, fun _ h => ⟨h, rfl⟩⟩

theorem Solution.Extends.trans {s s1 s2 : Solution F} (h1 : s.Extends s1)
    (h2 : s1.Extends s2) : s.Extends s2 := by
  refine ⟨h2.1.trans h1.1, h2.2.1.trans h1.2.1, fun i hi => ?_⟩
  have a := h1.2.2 i hi
  have b := h2.2.2 i a.1
  exact ⟨b.1, b.2.trans a.2⟩

theorem Solution.set_spec {s s1 : Solution F} {id : Nat} {v : F}
    (h : s.set id v = some s1) (hu : s.solved[id]? = some false) :
    (s.Consistent → s1.Consistent) ∧ s.Extends s1 ∧ s1.solved[id]? = some true ∧
    s1.values[id]? = some v ∧
    (∀ j, j ≠ id → s1.solved[j]? = s.solved[j]?) := by
  unfold Solution.set at h
  split at h
  · rename_i hlt
    simp only [Option.some.injEq] at h
    subst h
    refine ⟨?_, ⟨by simp, by simp, ?_⟩, ?_, ?_, ?_⟩
    · intro hc
      refine ⟨by simpa using hc.1, ?_⟩
      simp only
      rw [count_set_true _ _ hu, hc.2]
    · intro i hi
      have hne : id ≠ i := by
        intro e
        subst e
        rw [hu] at hi
        simp at hi
      simp [List.getElem?_set_ne hne, hi]
    · simp [hlt.2]
    · simp [hlt.1]
    · intro j hj
      simp [List.getElem?_set_ne (Ne.symm hj)]
  · simp at h

theorem Solution.solveHint_ok {s s1 : Solution F} {h : Hint F} {vID : Nat}
    (hs : (s.solveHint h vID : Res (SolveError LE) (Solution F)) = .ok s1) :
    ∃ v, s.set vID v = some s1 := by
  unfold Solution.solveHint at hs
  split at hs
  · simp at hs
  · split at hs
    · simp at hs
    · split at hs
      · simp at hs
      · rename_i v _
        refine ⟨v, ?_⟩
        cases hset : s.set vID v with
        | none => simp [hset, Res.ofOption] at hs
        | some s2 =>
          simp [hset, Res.ofOption] at hs
          rw [hs]

/-! ## Lemmas on `solveConstraint` -/

theorem Walk.add_solution (w : Walk F) (side : Side) (v : F) :
    (w.add side v).solution = w.solution ∧ (w.add side v).loc = w.loc ∧
    (w.add side v).termToCompute = w.termToCompute := by
  cases side <;> simp [Walk.add]

theorem R1CS.WalkInv.init (cs : R1CS F LE) (s : Solution F) : cs.WalkInv s (Walk.init s) :=
  ⟨fun h => h, Solution.Extends.refl s, fun _ h _ => h, fun h => absurd rfl h⟩

theorem R1CS.processTerm_inv {env : Env F} {cs : R1CS F LE} {s0 : Solution F} {w w1 : Walk F}
    {t : Term} {side : Side} {res : Res (SolveError LE) Unit}
    (h : cs.processTerm env w t side = (res, w1)) (hw : cs.WalkInv s0 w) :
    cs.WalkInv s0 w1 := by
  unfold R1CS.processTerm at h
  simp only at h
  split at h
  · simp only [Prod.mk.injEq] at h
    rw [← h.2]; exact hw
  · split at h
    · simp only [Prod.mk.injEq] at h
      rw [← h.2]
      obtain ⟨e1, e2, e3⟩ := Walk.add_solution w side ‹F›
      unfold R1CS.WalkInv
      rw [e1, e2, e3]
      exact hw
    · simp only [Prod.mk.injEq] at h
      rw [← h.2]; exact hw
  · rename_i hsolved
    split at h
    · rename_i hID hlook
      split at h
      · simp only [Prod.mk.injEq] at h
        rw [← h.2]; exact hw
      · split at h
        · rename_i hh s hsol
          simp only [Prod.mk.injEq] at h
          rw [← h.2]
          obtain ⟨v, hset⟩ := Solution.solveHint_ok hsol
          obtain ⟨p1, p2, _, _, p5⟩ := Solution.set_spec hset hsolved
          refine ⟨fun hc => p1 (hw.1 hc), hw.2.1.trans p2, ?_, ?_⟩
          · intro u hu hl
            have hne : u ≠ t.VariableID := by
              intro e
              rw [e, hlook] at hl
              simp at hl
            simp only
            rw [p5 u hne]
            exact hw.2.2.1 u hu hl
          · intro hloc
            have q := hw.2.2.2 hloc
            have hne : w.termToCompute.VariableID ≠ t.VariableID := by
              intro e
              rw [e, hlook] at q
              simp at q
            simp only
            rw [p5 _ hne]
            exact q
        · simp only [Prod.mk.injEq] at h
          rw [← h.2]; exact hw
        · simp only [Prod.mk.injEq] at h
          rw [← h.2]; exact hw
    · rename_i hlook
      split at h
      · simp only [Prod.mk.injEq] at h
        rw [← h.2]; exact hw
      · simp only [Prod.mk.injEq] at h
        rw [← h.2]
        exact ⟨hw.1, hw.2.1, hw.2.2.1, fun _ => ⟨hsolved, hlook⟩⟩

theorem R1CS.walkTerms_inv {env : Env F} {cs : R1CS F LE} {s0 : Solution F} {side : Side}
    (ts : LinearExpression) {w w1 : Walk F} {res : Res (SolveError LE) Unit}
    (h : cs.walkTerms env side ts w = (res, w1)) (hw : cs.WalkInv s0 w) :
    cs.WalkInv s0 w1 := by
  induction ts generalizing w with
  | nil =>
    simp only [R1CS.walkTerms, Prod.mk.injEq] at h
    rw [← h.2]; exact hw
  | cons t ts ih =>
    unfold R1CS.walkTerms at h
    split at h
    · rename_i hp
      exact ih h (R1CS.processTerm_inv hp hw)
    · rename_i hp
      simp only [Prod.mk.injEq] at h
      rw [← h.2]; exact R1CS.processTerm_inv hp hw
    · rename_i hp
      simp only [Prod.mk.injEq] at h
      rw [← h.2]; exact R1CS.processTerm_inv hp hw

theorem R1CS.walkConstraint_inv {env : Env F} {cs : R1CS F LE} {s0 : Solution F} {r : R1C}
    {w w1 : Walk F} {res : Res (SolveError LE) Unit}
    (h : cs.walkConstraint env r w = (res, w1)) (hw : cs.WalkInv s0 w) :
    cs.WalkInv s0 w1 := by
  unfold R1CS.walkConstraint at h
  cases h1 : cs.walkTerms env Side.L r.L w with
  | mk r1 wa =>
    have i1 := R1CS.walkTerms_inv _ h1 hw
    rw [h1] at h
    cases r1 with
    | ok u =>
      simp only at h
      cases h2 : cs.walkTerms env Side.R r.R wa with
      | mk r2 wb =>
        have i2 := R1CS.walkTerms_inv _ h2 i1
        rw [h2] at h
        cases r2 with
        | ok u2 => exact R1CS.walkTerms_inv _ h i2
        | error e =>
          simp only [Prod.mk.injEq] at h
          rw [← h.2]; exact i2
        | fault f =>
          simp only [Prod.mk.injEq] at h
          rw [← h.2]; exact i2
    | error e =>
      simp only [Prod.mk.injEq] at h
      rw [← h.2]; exact i1
    | fault f =>
      simp only [Prod.mk.injEq] at h
      rw [← h.2]; exact i1

/-- What `solveConstraint` does to the solution, whatever it returns: a consistent solution
stays consistent and is extended; when the call does not return `ok`, no wire without a hint
binding was solved. -/
theorem R1CS.solveConstraint_inv {env : Env F} {cs : R1CS F LE} {r : R1C}
    {s s1 : Solution F} {res : Res (SolveError LE) Nat}
    (h : cs.solveConstraint env r s = (res, s1)) :
    (s.Consistent → s1.Consistent) ∧ s.Extends s1 ∧
    ((∀ n, res ≠ .ok n) → cs.Frozen s s1) := by
  unfold R1CS.solveConstraint at h
  cases hwc : cs.walkConstraint env r (Walk.init s) with
  | mk rw w =>
    have inv := R1CS.walkConstraint_inv hwc (R1CS.WalkInv.init cs s)
    rw [hwc] at h
    cases rw with
    | error e =>
      simp only [Prod.mk.injEq] at h
      rw [← h.2]; exact ⟨inv.1, inv.2.1, fun _ => inv.2.2.1⟩
    | fault f =>
      simp only [Prod.mk.injEq] at h
      rw [← h.2]; exact ⟨inv.1, inv.2.1, fun _ => inv.2.2.1⟩
    | ok u =>
      simp only at h
      split at h
      · simp only [Prod.mk.injEq] at h
        rw [← h.2]; exact ⟨inv.1, inv.2.1, fun _ => inv.2.2.1⟩
      · rename_i hloc
        split at h
        · simp only [Prod.mk.injEq] at h
          rw [← h.2]; exact ⟨inv.1, inv.2.1, fun _ => inv.2.2.1⟩
        · split at h
          · simp only [Prod.mk.injEq] at h
            rw [← h.2]; exact ⟨inv.1, inv.2.1, fun _ => inv.2.2.1⟩
          · rename_i s2 hset
            simp only [Prod.mk.injEq] at h
            rw [← h.2, ← h.1]
            obtain ⟨p1, p2, _⟩ := Solution.set_spec hset (inv.2.2.2 hloc).1
            exact ⟨fun hc => p1 (inv.1 hc), inv.2.1.trans p2, fun hn => absurd rfl (hn _)⟩

/-! ## Lemmas on the loop of `Solve` -/

/-- What one iteration of the loop does, whatever its outcome. -/
theorem R1CS.solveStep_inv {env : Env F} {cs : R1CS F LE} {i : Nat} {r : R1C}
    {st st1 : LoopState F} {res : Res (SolveError LE) Unit}
    (h : cs.solveStep env i r st = (res, st1)) :
    (st.solution.Consistent → st1.solution.Consistent) ∧
    st.solution.Extends st1.solution ∧
    st1.trace = st.trace ++ [Event.solveConstraint i] ∧
    (res = .ok () → Checked st.a st.b st.c i → Checked st1.a st1.b st1.c (i + 1)) := by
  unfold R1CS.solveStep at h
  simp only at h
  cases hsc : cs.solveConstraint env r st.solution with
  | mk rc s =>
    obtain ⟨q1, q2, _⟩ := R1CS.solveConstraint_inv hsc
    rw [hsc] at h
    cases rc with
    | error e =>
      simp only [Prod.mk.injEq] at h
      obtain ⟨h1, h2⟩ := h
      subst h2 h1
      exact ⟨q1, q2, rfl, fun hh => by simp at hh⟩
    | fault f =>
      simp only [Prod.mk.injEq] at h
      obtain ⟨h1, h2⟩ := h
      subst h2 h1
      exact ⟨q1, q2, rfl, fun hh => by simp at hh⟩
    | ok offset =>
      simp only at h
      split at h
      · simp only [Prod.mk.injEq] at h
        obtain ⟨h1, h2⟩ := h
        subst h2 h1
        exact ⟨q1, q2, rfl, fun hh => by simp at hh⟩
      · rename_i x y z hinst
        split at h
        · rename_i hlen
          split at h
          · rename_i hxy
            simp only [Prod.mk.injEq] at h
            obtain ⟨h1, h2⟩ := h
            subst h2 h1
            refine ⟨q1, q2, rfl, fun _ hck => ?_⟩
            intro j hj
            simp only
            by_cases hji : j = i
            · subst hji
              exact ⟨x, y, z, by simp [hlen.1], by simp [hlen.2.1], by simp [hlen.2.2], hxy⟩
            · have hlt : j < i := by omega
              obtain ⟨x1, y1, z1, e1, e2, e3, e4⟩ := hck j hlt
              refine ⟨x1, y1, z1, ?_, ?_, ?_, e4⟩
              · rw [List.getElem?_set_ne (Ne.symm hji)]; exact e1
              · rw [List.getElem?_set_ne (Ne.symm hji)]; exact e2
              · rw [List.getElem?_set_ne (Ne.symm hji)]; exact e3
          · split at h
            · simp only [Prod.mk.injEq] at h
              obtain ⟨h1, h2⟩ := h
              subst h2 h1
              exact ⟨q1, q2, rfl, fun hh => by simp at hh⟩
            · simp only [Prod.mk.injEq] at h
              obtain ⟨h1, h2⟩ := h
              subst h2 h1
              exact ⟨q1, q2, rfl, fun hh => by simp at hh⟩
        · simp only [Prod.mk.injEq] at h
          obtain ⟨h1, h2⟩ := h
          subst h2 h1
          exact ⟨q1, q2, rfl, fun hh => by simp at hh⟩

/-- What the loop does from index `i` over the constraints `rs`, whatever its outcome. -/
theorem R1CS.solveLoop_inv {env : Env F} {cs : R1CS F LE} (rs : List R1C) {i : Nat}
    {st st1 : LoopState F} {res : Res (SolveError LE) Unit}
    (h : cs.solveLoop env i rs st = (res, st1)) :
    (st.solution.Consistent → st1.solution.Consistent) ∧
    st.solution.Extends st1.solution ∧
    st1.trace.count Event.printLogs = st.trace.count Event.printLogs ∧
    (res = .ok () →
      st1.trace = st.trace ++ (List.range' i rs.length).map Event.solveConstraint ∧
      (Checked st.a st.b st.c i → Checked st1.a st1.b st1.c (i + rs.length))) := by
  induction rs generalizing i st with
  | nil =>
    simp only [R1CS.solveLoop, Prod.mk.injEq] at h
    obtain ⟨h1, h2⟩ := h
    subst h2
    exact ⟨fun hc => hc, Solution.Extends.refl _, rfl, fun _ => ⟨by simp, fun hc => hc⟩⟩
  | cons r rs ih =>
    unfold R1CS.solveLoop at h
    cases hst : cs.solveStep env i r st with
    | mk r1 st2 =>
      obtain ⟨p1, p2, p3, p4⟩ := R1CS.solveStep_inv hst
      have hcount : st2.trace.count Event.printLogs = st.trace.count Event.printLogs := by
        rw [p3]; simp [List.count_cons]
      rw [hst] at h
      cases r1 with
      | ok u =>
        simp only at h
        obtain ⟨o1, o2, o3, o4⟩ := ih h
        refine ⟨fun hc => o1 (p1 hc), p2.trans o2, o3.trans hcount, fun hr => ?_⟩
        obtain ⟨t1, t2⟩ := o4 hr
        refine ⟨?_, fun hc => ?_⟩
        · rw [t1, p3]
          simp [List.range'_succ]
        · have := t2 (p4 rfl hc)
          simpa [Nat.add_assoc, Nat.add_comm 1] using this
      | error e =>
        simp only [Prod.mk.injEq] at h
        obtain ⟨h1, h2⟩ := h
        subst h2 h1
        exact ⟨p1, p2, hcount, fun hh => by simp at hh⟩
      | fault f =>
        simp only [Prod.mk.injEq] at h
        obtain ⟨h1, h2⟩ := h
        subst h2 h1
        exact ⟨p1, p2, hcount, fun hh => by simp at hh⟩

/-! ## Lemmas on the initialisation of `Solve` -/

theorem markSolved_spec (n : Nat) : ∀ (i : Nat) (solved l : List Bool),
    markSolved n i solved = some l →
    l.length = solved.length ∧ (n ≠ 0 → i + n < solved.length) ∧
    (∀ j : Nat, solved[j]? = some true → l[j]? = some true) ∧
    (∀ j : Nat, i < j → j ≤ i + n → l[j]? = some true) ∧
    ((∀ j : Nat, i < j → j < solved.length → solved[j]? = some false) →
      l.count true = solved.count true + n) := by
  induction n with
  | zero =>
    intro i solved l h
    simp only [markSolved, Option.some.injEq] at h
    subst h
    exact ⟨rfl, fun h => absurd rfl h, fun _ h => h, fun j h1 h2 => by omega, fun _ => rfl⟩
  | succ n ih =>
    intro i solved l h
    unfold markSolved at h
    split at h
    · rename_i hlt
      obtain ⟨q1, q2, q3, q4, q5⟩ := ih _ _ _ h
      have hset : ∀ j : Nat, solved[j]? = some true →
          (solved.set (i + 1) true)[j]? = some true := by
        intro j hj
        by_cases e : i + 1 = j
        · subst e; simp [hlt]
        · rw [List.getElem?_set_ne e]; exact hj
      refine ⟨by simpa using q1, fun _ => ?_, fun j hj => q3 j (hset j hj), ?_, ?_⟩
      · by_cases hn : n = 0
        · subst hn; omega
        · have := q2 hn
          simp only [List.length_set] at this
          omega
      · intro j h1 h2
        by_cases e : j = i + 1
        · subst e
          exact q3 _ (by simp [hlt])
        · exact q4 j (by omega) (by omega)
      · intro hall
        have hc := count_set_true solved (i + 1) (hall (i + 1) (by omega) hlt)
        have := q5 (by
          intro j h1 h2
          simp only [List.length_set] at h2
          rw [List.getElem?_set_ne (by omega)]
          exact hall j (by omega) h2)
        rw [this, hc]
        omega
    · simp at h

theorem copySlice_length (dst src : List F) : (copySlice dst src).length = dst.length := by
  simp [copySlice]
  omega

theorem copySlice_getElem (dst src : List F) (j : Nat) (h1 : j < src.length)
    (h2 : j < dst.length) : (copySlice dst src)[j]? = src[j]? := by
  unfold copySlice
  rw [List.getElem?_append_left (by simp; omega)]
  rw [List.getElem?_take_of_lt h2]

/-- What the initialisation (lines 87-96) produces from a fresh solution with `n` wires. -/
theorem initInputs_spec {n : Nat} {coefficients : List F} {hf : List (HintFunction F)}
    {witness : List F} {s : Solution F}
    (h : initInputs { values := List.replicate n 0, coefficients := coefficients,
                      solved := List.replicate n false, nbSolved := 0,
                      mHintsFunctions := hf } witness = some s) :
    s.Consistent ∧ s.values.length = n ∧ witness.length + 1 ≤ n ∧
    s.values[0]? = some 1 ∧
    (∀ j : Nat, j < witness.length → s.values[j + 1]? = witness[j]?) ∧
    (∀ j : Nat, j ≤ witness.length → s.solved[j]? = some true) := by
  unfold initInputs at h
  simp only [List.length_replicate] at h
  split at h
  · rename_i hpos
    have hn : 0 < n := hpos.1
    split at h
    · simp at h
    · rename_i l hms
      simp only [Option.some.injEq] at h
      subst h
      obtain ⟨q1, q2, q3, q4, q5⟩ := markSolved_spec _ _ _ _ hms
      simp only [List.length_set, List.length_replicate] at q1 q2
      have hwn : witness.length + 1 ≤ n := by
        by_cases hz : witness.length = 0
        · omega
        · have := q2 hz
          omega
      have hlen : ((List.replicate n (0 : F)).set 0 1).length = n := by simp
      have hcount : l.count true = witness.length + 1 := by
        have h0 : ((List.replicate n false).set 0 true).count true =
            (List.replicate n false).count true + 1 :=
          count_set_true _ 0 (by simp [hn])
        rw [q5 (by
          intro j h1 h2
          rw [List.getElem?_set_ne (by omega)]
          simp only [List.length_set, List.length_replicate] at h2
          simp [h2]), h0]
        simp [List.count_replicate]
        omega
      refine ⟨⟨?_, ?_⟩, ?_, hwn, ?_, ?_, ?_⟩
      · simp only [List.length_append, List.length_take, copySlice_length, List.length_drop,
          hlen, q1]
        omega
      · simp only [hcount, Nat.zero_add]
      · simp only [List.length_append, List.length_take, copySlice_length, List.length_drop,
          hlen]
        omega
      · simp only
        rw [List.getElem?_append_left (by simp; omega)]
        simp [List.getElem?_take, hn]
      · intro j hj
        simp only
        rw [List.getElem?_append_right (by simp)]
        have e : j + 1 - (List.take 1 ((List.replicate n (0 : F)).set 0 1)).length = j := by
          simp only [List.length_take, hlen]
          have : min 1 n = 1 := by omega
          omega
        rw [e]
        exact copySlice_getElem _ _ j hj (by simp; omega)
      · intro j hj
        simp only
        by_cases hz : j = 0
        · subst hz
          exact q3 0 (by simp [hn])
        · exact q4 j (by omega) (by omega)
  · simp at h

/-! ## Lemmas on `Solve` -/

theorem newSolution_ok {env : Env F} {n : Int} {hf : List (HintFunction F)}
    {coefficients : List F} {s : Solution F}
    (h : (newSolution env n hf coefficients : Res (SolveError LE) (Solution F)) = .ok s) :
    0 ≤ n ∧ env.newSolutionErr hf = none ∧
    s = { values := List.replicate n.toNat 0, coefficients := coefficients,
          solved := List.replicate n.toNat false, nbSolved := 0, mHintsFunctions := hf } := by
  unfold newSolution at h
  split at h
  · simp at h
  · rename_i hneg
    cases he : env.newSolutionErr hf with
    | some msg => simp [he] at h
    | none =>
      simp only [he, Res.ok.injEq] at h
      exact ⟨by omega, rfl, h.symm⟩

/-- What is known when the part of `Solve` before the loop succeeds. -/
theorem R1CS.solveInit_ok {env : Env F} {cs : R1CS F LE} {witness a b c : List F}
    {hf : List (HintFunction F)} {s0 : Solution F}
    (h : cs.solveInit env witness a b c hf = .ok s0) :
    (witness.length : Int) = cs.NbPublicVariables - 1 + cs.NbSecretVariables ∧
    s0.Consistent ∧
    (s0.values.length : Int) =
      cs.NbPublicVariables + cs.NbSecretVariables + cs.NbInternalVariables ∧
    s0.values[0]? = some 1 ∧
    (∀ j : Nat, j < witness.length → s0.values[j + 1]? = witness[j]?) ∧
    (∀ j : Nat, j ≤ witness.length → s0.solved[j]? = some true) := by
  unfold R1CS.solveInit at h
  split at h
  · simp at h
  · rename_i hw
    simp only at h
    split at h
    · simp at h
    · cases hns : (newSolution env (cs.NbPublicVariables + cs.NbSecretVariables +
          cs.NbInternalVariables) hf cs.Coefficients : Res (SolveError LE) (Solution F)) with
      | error e => simp [hns] at h
      | fault f => simp [hns] at h
      | ok s =>
        simp only [hns] at h
        obtain ⟨n0, _, hs⟩ := newSolution_ok hns
        subst hs
        cases hi : initInputs
            { values := List.replicate (cs.NbPublicVariables + cs.NbSecretVariables +
                cs.NbInternalVariables).toNat (0 : F),
              coefficients := cs.Coefficients,
              solved := List.replicate (cs.NbPublicVariables + cs.NbSecretVariables +
                cs.NbInternalVariables).toNat false,
              nbSolved := 0, mHintsFunctions := hf } witness with
        | none => simp [hi, Res.ofOption] at h
        | some s =>
          simp only [hi, Res.ofOption, Res.ok.injEq] at h
          subst h
          obtain ⟨q1, q2, _, q4, q5, q6⟩ := initInputs_spec hi
          refine ⟨by simpa using hw, q1, ?_, q4, q5, q6⟩
          rw [q2]
          omega

/-- The shape of a run of `Solve` that returns without error. -/
theorem R1CS.Solve_ok {env : Env F} {cs : R1CS F LE} {witness a b c : List F}
    {hf : List (HintFunction F)} {ws : List F}
    (h : (cs.Solve env witness a b c hf).result = .ok ws) :
    ∃ s0 st, cs.solveInit env witness a b c hf = .ok s0 ∧
      cs.solveLoop env 0 cs.Constraints
        { solution := s0, a := a, b := b, c := c, debugInfoComputationOffset := 0,
          trace := [] } = (.ok (), st) ∧
      st.solution.isValid = true ∧
      cs.Solve env witness a b c hf =
        { result := .ok st.solution.values, a := st.a, b := st.b, c := st.c,
          solution := some st.solution, trace := st.trace ++ [Event.printLogs] } := by
  unfold R1CS.Solve at h ⊢
  cases hi : cs.solveInit env witness a b c hf with
  | error e => simp [hi] at h
  | fault f => simp [hi] at h
  | ok s0 =>
    simp only [hi] at h ⊢
    unfold R1CS.solveBody at h ⊢
    cases hl : cs.solveLoop env 0 cs.Constraints
        { solution := s0, a := a, b := b, c := c, debugInfoComputationOffset := 0,
          trace := [] } with
    | mk r st =>
      simp only [hl] at h ⊢
      cases r with
      | error e => simp at h
      | fault f => simp at h
      | ok u =>
        simp only at h ⊢
        by_cases hv : st.solution.isValid = true
        · simp only [hv, if_true] at h ⊢
          exact ⟨s0, st, rfl, hl, hv, rfl⟩
        · simp [hv] at h

/-! ## The loop, cut at an index -/

theorem R1CS.solveStep_length {env : Env F} {cs : R1CS F LE} {i : Nat} {r : R1C}
    {st st1 : LoopState F} {res : Res (SolveError LE) Unit}
    (h : cs.solveStep env i r st = (res, st1)) :
    st1.a.length = st.a.length ∧ st1.b.length = st.b.length ∧
    st1.c.length = st.c.length := by
  unfold R1CS.solveStep at h
  simp only at h
  cases hsc : cs.solveConstraint env r st.solution with
  | mk rc s =>
    rw [hsc] at h
    cases rc <;> simp only at h <;> (repeat' split at h) <;>
      (simp only [Prod.mk.injEq] at h
       obtain ⟨_, h2⟩ := h
       subst h2
       simp)

theorem R1CS.solveLoop_length {env : Env F} {cs : R1CS F LE} (rs : List R1C) {i : Nat}
    {st st1 : LoopState F} {res : Res (SolveError LE) Unit}
    (h : cs.solveLoop env i rs st = (res, st1)) :
    st1.a.length = st.a.length ∧ st1.b.length = st.b.length ∧
    st1.c.length = st.c.length := by
  induction rs generalizing i st with
  | nil =>
    simp only [R1CS.solveLoop, Prod.mk.injEq] at h
    rw [← h.2]
    exact ⟨rfl, rfl, rfl⟩
  | cons r rs ih =>
    unfold R1CS.solveLoop at h
    cases hst : cs.solveStep env i r st with
    | mk r1 st2 =>
      obtain ⟨p1, p2, p3⟩ := R1CS.solveStep_length hst
      rw [hst] at h
      cases r1 with
      | ok u =>
        obtain ⟨o1, o2, o3⟩ := ih h
        exact ⟨o1.trans p1, o2.trans p2, o3.trans p3⟩
      | error e =>
        simp only [Prod.mk.injEq] at h
        rw [← h.2]; exact ⟨p1, p2, p3⟩
      | fault f =>
        simp only [Prod.mk.injEq] at h
        rw [← h.2]; exact ⟨p1, p2, p3⟩

/-- The loop over `pre ++ post` is the loop over `pre` followed, when that succeeds, by the
loop over `post`. -/
theorem R1CS.solveLoop_append {env : Env F} {cs : R1CS F LE} (pre post : List R1C) {i : Nat}
    {st st1 : LoopState F}
    (h : cs.solveLoop env i pre st = (.ok (), st1)) :
    cs.solveLoop env i (pre ++ post) st = cs.solveLoop env (i + pre.length) post st1 := by
  induction pre generalizing i st with
  | nil =>
    simp only [R1CS.solveLoop, Prod.mk.injEq] at h
    rw [← h.2]
    simp
  | cons r rs ih =>
    unfold R1CS.solveLoop at h
    simp only [List.cons_append, List.length_cons]
    rw [R1CS.solveLoop]
    cases hst : cs.solveStep env i r st with
    | mk r1 st2 =>
      rw [hst] at h
      cases r1 with
      | ok u =>
        simp only at h ⊢
        rw [ih h]
        congr 1
        omega
      | error e => simp at h
      | fault f => simp at h

/-- The run of `Solve` when the part before the loop succeeds, the first `i` constraints
pass, and the iteration for constraint `i` ends with an error. -/
theorem R1CS.Solve_error_at {env : Env F} {cs : R1CS F LE} {witness a b c : List F}
    {hf : List (HintFunction F)} {s0 : Solution F} {i : Nat} {r : R1C}
    {st st1 : LoopState F} {e : SolveError LE}
    (hi : cs.solveInit env witness a b c hf = .ok s0)
    (hpre : cs.solveLoop env 0 (cs.Constraints.take i)
      { solution := s0, a := a, b := b, c := c, debugInfoComputationOffset := 0,
        trace := [] } = (.ok (), st))
    (hr : cs.Constraints[i]? = some r)
    (hstep : cs.solveStep env i r st = (.error e, st1)) :
    cs.Solve env witness a b c hf =
      { result := .error e, a := st1.a, b := st1.b, c := st1.c,
        solution := some st1.solution,
        trace := (List.range (i + 1)).map Event.solveConstraint ++ [Event.printLogs] } := by
  have hlt : i < cs.Constraints.length := by
    rcases Nat.lt_or_ge i cs.Constraints.length with h | h
    · exact h
    · rw [List.getElem?_eq_none h] at hr
      simp at hr
  have hsplit : cs.Constraints = cs.Constraints.take i ++ r :: cs.Constraints.drop (i + 1) := by
    have hget : cs.Constraints[i] = r := by
      rw [List.getElem?_eq_getElem hlt] at hr
      simpa using hr
    rw [← hget, ← List.drop_eq_getElem_cons hlt, List.take_append_drop]
  have htl : (cs.Constraints.take i).length = i := by
    rw [List.length_take]; omega
  have htr : st.trace = (List.range i).map Event.solveConstraint := by
    have := ((R1CS.solveLoop_inv _ hpre).2.2.2 rfl).1
    rw [this, htl, List.range_eq_range']
    simp
  have hloop : cs.solveLoop env 0 cs.Constraints
      { solution := s0, a := a, b := b, c := c, debugInfoComputationOffset := 0,
        trace := [] } = (.error e, st1) := by
    rw [hsplit, R1CS.solveLoop_append _ _ hpre, htl, R1CS.solveLoop]
    simp [hstep]
  have ht1 : st1.trace = (List.range (i + 1)).map Event.solveConstraint := by
    rw [(R1CS.solveStep_inv hstep).2.2.1, htr, List.range_succ]
    simp
  unfold R1CS.Solve
  simp only [hi]
  unfold R1CS.solveBody
  simp only [hloop, ht1]

theorem R1CS.solveInit_sizes {env : Env F} {cs : R1CS F LE} {witness a b c : List F}
    {hf : List (HintFunction F)} {s0 : Solution F}
    (h : cs.solveInit env witness a b c hf = .ok s0) :
    (a.length : Int) = cs.NbConstraints ∧ (b.length : Int) = cs.NbConstraints ∧
    (c.length : Int) = cs.NbConstraints := by
  unfold R1CS.solveInit at h
  split at h
  · simp at h
  · simp only at h
    split at h
    · simp at h
    · rename_i hs
      simp only [not_or, not_not] at hs
      exact hs

/-! ## The walk of `solveConstraint` as one walk over tagged terms -/

theorem R1CS.walkTagged_map {env : Env F} {cs : R1CS F LE} (side : Side)
    (ts : LinearExpression) (w : Walk F) :
    cs.walkTagged env (ts.map (fun t => (t, side))) w = cs.walkTerms env side ts w := by
  induction ts generalizing w with
  | nil => rfl
  | cons t ts ih =>
    simp only [List.map_cons, R1CS.walkTagged, R1CS.walkTerms]
    cases hp : cs.processTerm env w t side with
    | mk r1 w1 =>
      cases r1 with
      | ok u => simp only; exact ih w1
      | error e => rfl
      | fault f => rfl

theorem R1CS.walkTagged_append {env : Env F} {cs : R1CS F LE} (pre post : List (Term × Side))
    {w w1 : Walk F} (h : cs.walkTagged env pre w = (.ok (), w1)) :
    cs.walkTagged env (pre ++ post) w = cs.walkTagged env post w1 := by
  induction pre generalizing w with
  | nil =>
    simp only [R1CS.walkTagged, Prod.mk.injEq] at h
    rw [← h.2]
    rfl
  | cons p ps ih =>
    obtain ⟨t, side⟩ := p
    simp only [List.cons_append, R1CS.walkTagged] at h ⊢
    cases hp : cs.processTerm env w t side with
    | mk r1 w2 =>
      rw [hp] at h
      cases r1 with
      | ok u => exact ih h
      | error e => simp at h
      | fault f => simp at h

theorem R1CS.walkTagged_append_stop {env : Env F} {cs : R1CS F LE}
    (pre post : List (Term × Side)) {w w1 : Walk F} {res : Res (SolveError LE) Unit}
    (hres : res ≠ .ok ()) (h : cs.walkTagged env pre w = (res, w1)) :
    cs.walkTagged env (pre ++ post) w = (res, w1) := by
  induction pre generalizing w with
  | nil =>
    simp only [R1CS.walkTagged, Prod.mk.injEq] at h
    exact absurd h.1.symm hres
  | cons p ps ih =>
    obtain ⟨t, side⟩ := p
    simp only [List.cons_append, R1CS.walkTagged] at h ⊢
    cases hp : cs.processTerm env w t side with
    | mk r1 w2 =>
      rw [hp] at h
      cases r1 with
      | ok u => exact ih h
      | error e => exact h
      | fault f => exact h

theorem R1CS.walkConstraint_eq_walkTagged {env : Env F} {cs : R1CS F LE} (r : R1C)
    (w : Walk F) : cs.walkConstraint env r w = cs.walkTagged env r.terms w := by
  unfold R1CS.walkConstraint R1C.terms
  simp only [← R1CS.walkTagged_map]
  cases h1 : cs.walkTagged env (List.map (fun t => (t, Side.L)) r.L) w with
  | mk r1 w1 =>
    cases r1 with
    | ok u =>
      rw [List.append_assoc, R1CS.walkTagged_append _ _ h1]
      simp only
      cases h2 : cs.walkTagged env (List.map (fun t => (t, Side.R)) r.R) w1 with
      | mk r2 w2 =>
        cases r2 with
        | ok u2 => rw [R1CS.walkTagged_append _ _ h2]
        | error e => rw [R1CS.walkTagged_append_stop _ _ (by simp) h2]
        | fault f => rw [R1CS.walkTagged_append_stop _ _ (by simp) h2]
    | error e =>
      rw [List.append_assoc, R1CS.walkTagged_append_stop _ _ (by simp) h1]
    | fault f =>
      rw [List.append_assoc, R1CS.walkTagged_append_stop _ _ (by simp) h1]

theorem R1CS.walkTagged_inv {env : Env F} {cs : R1CS F LE} {s0 : Solution F}
    (ts : List (Term × Side)) {w w1 : Walk F} {res : Res (SolveError LE) Unit}
    (h : cs.walkTagged env ts w = (res, w1)) (hw : cs.WalkInv s0 w) :
    cs.WalkInv s0 w1 := by
  induction ts generalizing w with
  | nil =>
    simp only [R1CS.walkTagged, Prod.mk.injEq] at h
    rw [← h.2]; exact hw
  | cons p ps ih =>
    obtain ⟨t, side⟩ := p
    simp only [R1CS.walkTagged] at h
    cases hp : cs.processTerm env w t side with
    | mk r1 w2 =>
      have i1 := R1CS.processTerm_inv hp hw
      rw [hp] at h
      cases r1 with
      | ok u => exact ih h i1
      | error e =>
        simp only [Prod.mk.injEq] at h
        rw [← h.2]; exact i1
      | fault f =>
        simp only [Prod.mk.injEq] at h
        rw [← h.2]; exact i1

/-! ## Which errors come from where -/

theorem Solution.solveHint_error {s : Solution F} {h : Hint F} {vID : Nat}
    {e : SolveError LE}
    (hs : (s.solveHint h vID : Res (SolveError LE) (Solution F)) = .error e) :
    e.inLoop = true := by
  unfold Solution.solveHint at hs
  split at hs
  · simp only [Res.error.injEq] at hs
    rw [← hs]; rfl
  · split at hs
    · simp at hs
    · split at hs
      · simp only [Res.error.injEq] at hs
        rw [← hs]; rfl
      · rename_i v _
        cases hset : s.set vID v <;> simp [hset, Res.ofOption] at hs

theorem R1CS.processTerm_error {env : Env F} {cs : R1CS F LE} {w w1 : Walk F} {t : Term}
    {side : Side} {e : SolveError LE}
    (h : cs.processTerm env w t side = (.error e, w1)) : e.inLoop = true := by
  unfold R1CS.processTerm at h
  simp only at h
  split at h
  · simp at h
  · split at h <;> simp at h
  · split at h
    · split at h
      · simp at h
      · split at h
        · simp at h
        · rename_i hsol
          simp only [Prod.mk.injEq, Res.error.injEq] at h
          rw [← h.1]
          exact Solution.solveHint_error hsol
        · simp at h
    · split at h <;> simp at h

theorem R1CS.walkTagged_error {env : Env F} {cs : R1CS F LE} (ts : List (Term × Side))
    {w w1 : Walk F} {e : SolveError LE}
    (h : cs.walkTagged env ts w = (.error e, w1)) : e.inLoop = true := by
  induction ts generalizing w with
  | nil => simp [R1CS.walkTagged] at h
  | cons p ps ih =>
    obtain ⟨t, side⟩ := p
    simp only [R1CS.walkTagged] at h
    cases hp : cs.processTerm env w t side with
    | mk r1 w2 =>
      rw [hp] at h
      cases r1 with
      | ok u => exact ih h
      | error e1 =>
        simp only [Prod.mk.injEq, Res.error.injEq] at h
        rw [← h.1]
        exact R1CS.processTerm_error hp
      | fault f => simp at h

theorem R1CS.solveConstraint_error {env : Env F} {cs : R1CS F LE} {r : R1C}
    {s s1 : Solution F} {e : SolveError LE}
    (h : cs.solveConstraint env r s = (.error e, s1)) : e.inLoop = true := by
  unfold R1CS.solveConstraint at h
  rw [R1CS.walkConstraint_eq_walkTagged] at h
  cases hwc : cs.walkTagged env r.terms (Walk.init s) with
  | mk rw w =>
    rw [hwc] at h
    cases rw with
    | error e1 =>
      simp only [Prod.mk.injEq, Res.error.injEq] at h
      rw [← h.1]
      exact R1CS.walkTagged_error _ hwc
    | fault f => simp at h
    | ok u =>
      simp only at h
      (repeat' split at h) <;> simp at h

theorem R1CS.solveStep_error {env : Env F} {cs : R1CS F LE} {i : Nat} {r : R1C}
    {st st1 : LoopState F} {e : SolveError LE}
    (h : cs.solveStep env i r st = (.error e, st1)) : e.inLoop = true := by
  unfold R1CS.solveStep at h
  simp only at h
  cases hsc : cs.solveConstraint env r st.solution with
  | mk rc s =>
    rw [hsc] at h
    cases rc with
    | error e1 =>
      simp only [Prod.mk.injEq, Res.error.injEq] at h
      rw [← h.1]
      exact R1CS.solveConstraint_error hsc
    | fault f => simp at h
    | ok offset =>
      simp only at h
      (repeat' split at h) <;>
        first
          | (simp only [Prod.mk.injEq, Res.error.injEq] at h
             rw [← h.1]
             rfl)
          | simp at h

theorem R1CS.solveLoop_error {env : Env F} {cs : R1CS F LE} (rs : List R1C) {i : Nat}
    {st st1 : LoopState F} {e : SolveError LE}
    (h : cs.solveLoop env i rs st = (.error e, st1)) : e.inLoop = true := by
  induction rs generalizing i st with
  | nil => simp [R1CS.solveLoop] at h
  | cons r rs ih =>
    unfold R1CS.solveLoop at h
    cases hst : cs.solveStep env i r st with
    | mk r1 st2 =>
      rw [hst] at h
      cases r1 with
      | ok u => exact ih h
      | error e1 =>
        simp only [Prod.mk.injEq, Res.error.injEq] at h
        rw [← h.1]
        exact R1CS.solveStep_error hst
      | fault f => simp at h

theorem newSolution_error {env : Env F} {n : Int} {hf : List (HintFunction F)}
    {coefficients : List F} {e : SolveError LE}
    (h : (newSolution env n hf coefficients : Res (SolveError LE) (Solution F)) = .error e) :
    e.inLoop = false := by
  unfold newSolution at h
  split at h
  · simp at h
  · cases he : env.newSolutionErr hf with
    | some msg =>
      simp only [he, Res.error.injEq] at h
      rw [← h]; rfl
    | none => simp [he] at h

theorem R1CS.solveInit_error {env : Env F} {cs : R1CS F LE} {witness a b c : List F}
    {hf : List (HintFunction F)} {e : SolveError LE}
    (h : cs.solveInit env witness a b c hf = .error e) : e.inLoop = false := by
  unfold R1CS.solveInit at h
  split at h
  · simp only [Res.error.injEq] at h
    rw [← h]; rfl
  · simp only at h
    split at h
    · simp only [Res.error.injEq] at h
      rw [← h]; rfl
    · cases hns : (newSolution env (cs.NbPublicVariables + cs.NbSecretVariables +
          cs.NbInternalVariables) hf cs.Coefficients : Res (SolveError LE) (Solution F)) with
      | error e1 =>
        simp only [hns, Res.error.injEq] at h
        rw [← h]
        exact newSolution_error hns
      | fault f => simp [hns] at h
      | ok s =>
        simp only [hns] at h
        cases hi : initInputs s witness <;> simp [hi, Res.ofOption] at h

/-- The number of renderings of the logs in a run of `Solve`: one when the part before the
loop succeeds, none otherwise. -/
theorem R1CS.Solve_printLogs {env : Env F} {cs : R1CS F LE} {witness a b c : List F}
    {hf : List (HintFunction F)} :
    (cs.Solve env witness a b c hf).trace.count Event.printLogs =
      match cs.solveInit env witness a b c hf with
      | .ok _ => 1
      | _ => 0 := by
  unfold R1CS.Solve
  cases hi : cs.solveInit env witness a b c hf with
  | error e => rfl
  | fault f => rfl
  | ok s0 =>
    simp only
    unfold R1CS.solveBody
    cases hl : cs.solveLoop env 0 cs.Constraints
        { solution := s0, a := a, b := b, c := c, debugInfoComputationOffset := 0,
          trace := [] } with
    | mk r st =>
      have hc := (R1CS.solveLoop_inv _ hl).2.2.1
      simp only [List.count_nil] at hc
      cases r with
      | error e => simp [hc]
      | fault f => simp [hc]
      | ok u =>
        simp only
        split <;> simp [hc]

/-- An error returned by `Solve` comes from the loop exactly when the part before the loop
succeeded. -/
theorem R1CS.Solve_error_kind {env : Env F} {cs : R1CS F LE} {witness a b c : List F}
    {hf : List (HintFunction F)} {e : SolveError LE}
    (h : (cs.Solve env witness a b c hf).result = .error e) :
    e.inLoop = true ↔ ∃ s0, cs.solveInit env witness a b c hf = .ok s0 := by
  unfold R1CS.Solve at h
  cases hi : cs.solveInit env witness a b c hf with
  | error e1 =>
    simp only [hi, Res.error.injEq] at h
    have := R1CS.solveInit_error hi
    rw [h] at this
    simp [this]
  | fault f => simp [hi] at h
  | ok s0 =>
    simp only [hi] at h
    unfold R1CS.solveBody at h
    cases hl : cs.solveLoop env 0 cs.Constraints
        { solution := s0, a := a, b := b, c := c, debugInfoComputationOffset := 0,
          trace := [] } with
    | mk r st =>
      rw [hl] at h
      cases r with
      | error e1 =>
        simp only [Res.error.injEq] at h
        have := R1CS.solveLoop_error _ hl
        rw [h] at this
        simp [this]
      | fault f => simp at h
      | ok u =>
        simp only at h
        split at h <;> simp at h

/-! ## A constraint with one unknown term -/

theorem Solution.coeff_eq (env : Env F) (s : Solution F) (cID : Nat) :
    s.coeff env cID = coeffValue env s.coefficients cID := rfl

theorem R1CS.mulByCoeff_eq {env : Env F} {cs : R1CS F LE} {t : Term} {k : F} (v : F)
    (hk : coeffValue env cs.Coefficients t.CoeffID = some k) :
    cs.mulByCoeff env v t = some (k * v) := by
  unfold coeffValue at hk
  unfold R1CS.mulByCoeff
  simp only
  split_ifs at hk ⊢ with h1 h2 h3 h4
  · simp only [Option.some.injEq] at hk; rw [← hk]; simp
  · simp only [Option.some.injEq] at hk; rw [← hk]; simp
  · simp only [Option.some.injEq] at hk; rw [← hk]; simp
  · simp only [Option.some.injEq] at hk; rw [← hk]; ring_nf
  · rw [hk]; simp [mul_comm]

theorem Solution.set_eq_stored {s : Solution F} {id : Nat} (v : F)
    (h1 : id < s.values.length) (h2 : id < s.solved.length) :
    s.set id v = some (s.stored id v) := by
  simp [Solution.set, Solution.stored, h1, h2]

theorem Walk.setAcc_acc (w : Walk F) (side : Side) : w.setAcc side (w.acc side) = w := by
  cases side <;> rfl

theorem Walk.add_eq_setAcc (w : Walk F) (side : Side) (v : F) :
    w.add side v = w.setAcc side (w.acc side + v) := by
  cases side <;> rfl

theorem Walk.setAcc_setAcc (w : Walk F) (side : Side) (u v : F) :
    (w.setAcc side u).setAcc side v = w.setAcc side v := by
  cases side <;> rfl

theorem Walk.setAcc_fields (w : Walk F) (side : Side) (v : F) :
    (w.setAcc side v).solution = w.solution ∧ (w.setAcc side v).loc = w.loc ∧
    (w.setAcc side v).termToCompute = w.termToCompute ∧ (w.setAcc side v).acc side = v := by
  cases side <;> simp [Walk.setAcc, Walk.acc]

theorem R1CS.walkTerms_append {env : Env F} {cs : R1CS F LE} {side : Side}
    (l1 l2 : LinearExpression) {w w1 : Walk F}
    (h : cs.walkTerms env side l1 w = (.ok (), w1)) :
    cs.walkTerms env side (l1 ++ l2) w = cs.walkTerms env side l2 w1 := by
  rw [← R1CS.walkTagged_map, ← R1CS.walkTagged_map, List.map_append]
  rw [← R1CS.walkTagged_map] at h
  exact R1CS.walkTagged_append _ _ h

/-- Walking terms whose wires are all solved adds their values to the accumulator of the
side and changes nothing else. -/
theorem R1CS.walkTerms_solved {env : Env F} {cs : R1CS F LE} {side : Side}
    (ts : LinearExpression) {w : Walk F} {A : F}
    (hs : AllSolved w.solution ts)
    (hsum : sumTerms env w.solution ts (w.acc side) = some A) :
    cs.walkTerms env side ts w = (.ok (), w.setAcc side A) := by
  induction ts generalizing w with
  | nil =>
    simp only [sumTerms, Option.some.injEq] at hsum
    rw [← hsum, Walk.setAcc_acc]
    rfl
  | cons t ts ih =>
    have ht := hs t (List.mem_cons_self _ _)
    unfold sumTerms at hsum
    cases hc : w.solution.computeTerm env t with
    | none => simp [hc] at hsum
    | some v =>
      simp only [hc] at hsum
      have hp : cs.processTerm env w t side = (.ok (), w.add side v) := by
        simp [R1CS.processTerm, ht, hc]
      unfold R1CS.walkTerms
      rw [hp]
      simp only
      rw [Walk.add_eq_setAcc]
      obtain ⟨e1, _, _, e4⟩ := Walk.setAcc_fields w side (w.acc side + v)
      have := @ih (w.setAcc side (w.acc side + v))
        (by rw [e1]; exact fun u hu => hs u (List.mem_cons_of_mem _ hu))
        (by rw [e1, e4]; exact hsum)
      rw [this, Walk.setAcc_setAcc]

theorem sumTerms_append {env : Env F} {s : Solution F} (l1 l2 : LinearExpression)
    (acc : F) :
    sumTerms env s (l1 ++ l2) acc =
      match sumTerms env s l1 acc with
      | some A1 => sumTerms env s l2 A1
      | none => none := by
  induction l1 generalizing acc with
  | nil => rfl
  | cons t ts ih =>
    simp only [List.cons_append, sumTerms]
    cases hc : s.computeTerm env t with
    | none => rfl
    | some v => exact ih _

/-- Walking a side whose only unknown term is `t`: the other terms are added to the
accumulator, and `t` is recorded with the `locValue` of the side. -/
theorem R1CS.walkTerms_unknown {env : Env F} {cs : R1CS F LE} {side : Side}
    (l1 l2 : LinearExpression) {t : Term} {w : Walk F} {A : F}
    (hloc : w.loc = 0)
    (hun : w.solution.solved[t.VariableID]? = some false)
    (hnh : cs.mHints.lookup t.VariableID = none)
    (hs : AllSolved w.solution (l1 ++ l2))
    (hsum : sumTerms env w.solution (l1 ++ l2) (w.acc side) = some A) :
    cs.walkTerms env side (l1 ++ t :: l2) w =
      (.ok (), { (w.setAcc side A) with termToCompute := t, loc := side.locValue }) := by
  rw [sumTerms_append] at hsum
  cases h1 : sumTerms env w.solution l1 (w.acc side) with
  | none => simp [h1] at hsum
  | some A1 =>
    simp only [h1] at hsum
    have hs1 : AllSolved w.solution l1 := fun u hu => hs u (List.mem_append_left _ hu)
    have hs2 : AllSolved w.solution l2 := fun u hu => hs u (List.mem_append_right _ hu)
    rw [R1CS.walkTerms_append _ _ (R1CS.walkTerms_solved l1 hs1 h1)]
    obtain ⟨e1, e2, _, e4⟩ := Walk.setAcc_fields w side A1
    have hp : cs.processTerm env (w.setAcc side A1) t side =
        (.ok (), { (w.setAcc side A1) with termToCompute := t, loc := side.locValue }) := by
      simp [R1CS.processTerm, e1, e2, hun, hnh, hloc]
    unfold R1CS.walkTerms
    rw [hp]
    simp only
    have key := @R1CS.walkTerms_solved F _ _ LE env cs side l2
      { (w.setAcc side A1) with termToCompute := t, loc := side.locValue } A
      (by
        show AllSolved (w.setAcc side A1).solution l2
        rw [e1]; exact hs2)
      (by
        have ha2 : ({ (w.setAcc side A1) with termToCompute := t, loc := side.locValue } :
            Walk F).acc side = A1 := by
          cases side <;> rfl
        show sumTerms env (w.setAcc side A1).solution l2 _ = some A
        rw [ha2, e1]; exact hsum)
    rw [key]
    cases side <;> rfl

/-- The walk of a constraint whose only unknown term `t` is in L: the state after the three
loops. -/
theorem R1CS.walkConstraint_unknown_L {env : Env F} {cs : R1CS F LE} {s : Solution F}
    {t : Term} {l1 l2 R O : LinearExpression} {A B C : F}
    (hun : s.solved[t.VariableID]? = some false)
    (hnh : cs.mHints.lookup t.VariableID = none)
    (hL : AllSolved s (l1 ++ l2)) (hR : AllSolved s R) (hO : AllSolved s O)
    (hA : sumTerms env s (l1 ++ l2) 0 = some A) (hB : sumTerms env s R 0 = some B)
    (hC : sumTerms env s O 0 = some C) :
    cs.walkConstraint env ⟨l1 ++ t :: l2, R, O⟩ (Walk.init s) =
      (.ok (), { solution := s, loc := 1, termToCompute := t, a := A, b := B, c := C }) := by
  unfold R1CS.walkConstraint
  simp only
  rw [@R1CS.walkTerms_unknown F _ _ LE env cs Side.L l1 l2 t (Walk.init s) A rfl hun hnh hL hA]
  simp only
  rw [@R1CS.walkTerms_solved F _ _ LE env cs Side.R R _ B hR hB]
  simp only
  rw [@R1CS.walkTerms_solved F _ _ LE env cs Side.O O _ C hO hC]
  rfl

/-- The same for an unknown term in R. -/
theorem R1CS.walkConstraint_unknown_R {env : Env F} {cs : R1CS F LE} {s : Solution F}
    {t : Term} {L r1 r2 O : LinearExpression} {A B C : F}
    (hun : s.solved[t.VariableID]? = some false)
    (hnh : cs.mHints.lookup t.VariableID = none)
    (hL : AllSolved s L) (hR : AllSolved s (r1 ++ r2)) (hO : AllSolved s O)
    (hA : sumTerms env s L 0 = some A) (hB : sumTerms env s (r1 ++ r2) 0 = some B)
    (hC : sumTerms env s O 0 = some C) :
    cs.walkConstraint env ⟨L, r1 ++ t :: r2, O⟩ (Walk.init s) =
      (.ok (), { solution := s, loc := 2, termToCompute := t, a := A, b := B, c := C }) := by
  unfold R1CS.walkConstraint
  simp only
  rw [@R1CS.walkTerms_solved F _ _ LE env cs Side.L L (Walk.init s) A hL hA]
  simp only
  rw [@R1CS.walkTerms_unknown F _ _ LE env cs Side.R r1 r2 t _ B rfl hun hnh hR hB]
  simp only
  rw [@R1CS.walkTerms_solved F _ _ LE env cs Side.O O _ C hO hC]
  rfl

/-- The same for an unknown term in O. -/
theorem R1CS.walkConstraint_unknown_O {env : Env F} {cs : R1CS F LE} {s : Solution F}
    {t : Term} {L R o1 o2 : LinearExpression} {A B C : F}
    (hun : s.solved[t.VariableID]? = some false)
    (hnh : cs.mHints.lookup t.VariableID = none)
    (hL : AllSolved s L) (hR : AllSolved s R) (hO : AllSolved s (o1 ++ o2))
    (hA : sumTerms env s L 0 = some A) (hB : sumTerms env s R 0 = some B)
    (hC : sumTerms env s (o1 ++ o2) 0 = some C) :
    cs.walkConstraint env ⟨L, R, o1 ++ t :: o2⟩ (Walk.init s) =
      (.ok (), { solution := s, loc := 3, termToCompute := t, a := A, b := B, c := C }) := by
  unfold R1CS.walkConstraint
  simp only
  rw [@R1CS.walkTerms_solved F _ _ LE env cs Side.L L (Walk.init s) A hL hA]
  simp only
  rw [@R1CS.walkTerms_solved F _ _ LE env cs Side.R R _ B hR hB]
  simp only
  rw [@R1CS.walkTerms_unknown F _ _ LE env cs Side.O o1 o2 t _ C rfl hun hnh hO hC]
  rfl

/-! ## Re-evaluation after the unknown is stored -/

theorem Solution.computeTerm_stored_ne {env : Env F} {s : Solution F} {id : Nat} {v : F}
    {u : Term} (h : u.VariableID ≠ id) :
    (s.stored id v).computeTerm env u = s.computeTerm env u := by
  simp [Solution.computeTerm, Solution.stored, Solution.coeff,
    List.getElem?_set_ne (Ne.symm h)]

theorem Solution.computeTerm_stored_eq {env : Env F} {s : Solution F} {t : Term} {k : F}
    (v : F) (h1 : t.VariableID < s.values.length)
    (hk : coeffValue env s.coefficients t.CoeffID = some k) :
    (s.stored t.VariableID v).computeTerm env t = some (k * v) := by
  have hc : (s.stored t.VariableID v).coeff env t.CoeffID = some k := by
    rw [Solution.coeff_eq]; exact hk
  have hv : (s.stored t.VariableID v).values[t.VariableID]? = some v := by
    simp [Solution.stored, h1]
  unfold Solution.computeTerm
  rw [hc, hv]

theorem sumTerms_stored {env : Env F} {s : Solution F} {id : Nat} (v : F)
    (ts : LinearExpression) (acc : F) (hs : AllSolved s ts)
    (hun : s.solved[id]? = some false) :
    sumTerms env (s.stored id v) ts acc = sumTerms env s ts acc := by
  induction ts generalizing acc with
  | nil => rfl
  | cons u us ih =>
    have hne : u.VariableID ≠ id := by
      intro e
      have := hs u (List.mem_cons_self _ _)
      rw [e, hun] at this
      simp at this
    simp only [sumTerms, Solution.computeTerm_stored_ne hne]
    cases s.computeTerm env u with
    | none => rfl
    | some x => exact ih _ (fun w hw => hs w (List.mem_cons_of_mem _ hw))

theorem sumTerms_shift {env : Env F} {s : Solution F} (ts : LinearExpression) (acc d : F) :
    sumTerms env s ts (acc + d) = (sumTerms env s ts acc).map (fun x => x + d) := by
  induction ts generalizing acc with
  | nil => rfl
  | cons u us ih =>
    simp only [sumTerms]
    cases s.computeTerm env u with
    | none => rfl
    | some x =>
      simp only
      rw [add_right_comm]
      exact ih _

theorem sumTerms_insert {env : Env F} {s : Solution F} (l1 l2 : LinearExpression)
    {t : Term} {acc A v : F} (hA : sumTerms env s (l1 ++ l2) acc = some A)
    (hv : s.computeTerm env t = some v) :
    sumTerms env s (l1 ++ t :: l2) acc = some (A + v) := by
  rw [sumTerms_append] at hA ⊢
  cases h1 : sumTerms env s l1 acc with
  | none => simp [h1] at hA
  | some A1 =>
    simp only [h1] at hA ⊢
    simp only [sumTerms, hv]
    rw [sumTerms_shift, hA]
    rfl

/-- The sums of a constraint re-evaluated after its only unknown term `t` got the value
`v`: the side of `t` gains `k * v`, the other sums are unchanged. -/
theorem sumTerms_after_store {env : Env F} {s : Solution F} {t : Term} {k : F} (v : F)
    (l1 l2 : LinearExpression) {A : F}
    (hlen : s.values.length = s.solved.length)
    (hun : s.solved[t.VariableID]? = some false)
    (hk : coeffValue env s.coefficients t.CoeffID = some k)
    (hs : AllSolved s (l1 ++ l2))
    (hA : sumTerms env s (l1 ++ l2) 0 = some A) :
    sumTerms env (s.stored t.VariableID v) (l1 ++ t :: l2) 0 = some (A + k * v) := by
  have h2 : t.VariableID < s.solved.length := by
    rcases Nat.lt_or_ge t.VariableID s.solved.length with h | h
    · exact h
    · rw [List.getElem?_eq_none h] at hun
      simp at hun
  apply sumTerms_insert
  · rw [sumTerms_stored v _ _ hs hun]; exact hA
  · exact Solution.computeTerm_stored_eq v (by rw [hlen]; exact h2) hk

/-! ## The debug cursor -/

/-- The offset `solveConstraint` returns is 1 when it divided and 0 otherwise. -/
theorem R1CS.solveConstraint_offset {env : Env F} {cs : R1CS F LE} {r : R1C}
    {s s1 : Solution F} {offset : Nat}
    (h : cs.solveConstraint env r s = (.ok offset, s1)) :
    offset = if cs.divided env r s then 1 else 0 := by
  unfold R1CS.solveConstraint at h
  unfold R1CS.divided
  cases hwc : cs.walkConstraint env r (Walk.init s) with
  | mk rw w =>
    rw [hwc] at h
    cases rw with
    | error e => simp at h
    | fault f => simp at h
    | ok u =>
      simp only at h ⊢
      split at h
      · rename_i hloc
        simp only [Prod.mk.injEq, Res.ok.injEq] at h
        simp [Walk.divides, hloc, ← h.1]
      · rename_i hloc
        cases hsw : cs.solveWire env w with
        | none => simp [hsw] at h
        | some p =>
          obtain ⟨wire, off⟩ := p
          simp only [hsw] at h
          cases hset : w.solution.set w.termToCompute.VariableID wire with
          | none => simp [hset] at h
          | some s2 =>
            simp only [hset, Prod.mk.injEq, Res.ok.injEq] at h
            rw [← h.1]
            unfold R1CS.solveWire at hsw
            unfold Walk.divides
            split_ifs at hsw with c1 c2 c3 c4 c5
            · cases hm : cs.mulByCoeff env (w.c / w.b - w.a) w.termToCompute with
              | none => simp [hm] at hsw
              | some x =>
                simp only [hm, Option.map_some', Option.some.injEq, Prod.mk.injEq] at hsw
                simp [c1, c2, ← hsw.2]
            · simp only [Option.some.injEq, Prod.mk.injEq] at hsw
              simp [c1, c2, ← hsw.2]
            · cases hm : cs.mulByCoeff env (w.c / w.a - w.b) w.termToCompute with
              | none => simp [hm] at hsw
              | some x =>
                simp only [hm, Option.map_some', Option.some.injEq, Prod.mk.injEq] at hsw
                simp [c3, c4, ← hsw.2]
            · simp only [Option.some.injEq, Prod.mk.injEq] at hsw
              simp [c3, c4, ← hsw.2]
            · cases hm : cs.mulByCoeff env (w.a * w.b - w.c) w.termToCompute with
              | none => simp [hm] at hsw
              | some x =>
                simp only [hm, Option.map_some', Option.some.injEq, Prod.mk.injEq] at hsw
                simp [c1, c3, ← hsw.2]
            · simp only [Option.some.injEq, Prod.mk.injEq] at hsw
              simp [c1, c3, ← hsw.2]

/-- The cursor after one iteration: advanced by the returned offset when `solveConstraint`
returns one, unchanged otherwise; and the entry of an unsatisfied-constraint error is the
one at the cursor. -/
theorem R1CS.solveStep_cursor {env : Env F} {cs : R1CS F LE} {i : Nat} {r : R1C}
    {st st1 : LoopState F} {res : Res (SolveError LE) Unit}
    (h : cs.solveStep env i r st = (res, st1)) :
    (∀ offset s1, cs.solveConstraint env r st.solution = (.ok offset, s1) →
      st1.debugInfoComputationOffset = st.debugInfoComputationOffset + offset) ∧
    st.debugInfoComputationOffset ≤ st1.debugInfoComputationOffset ∧
    (∀ d, res = .error (.unsatisfiedConstraint d) →
      cs.DebugInfoComputation[st1.debugInfoComputationOffset]? = some d) ∧
    (res = .ok () → ∃ offset s1, cs.solveConstraint env r st.solution = (.ok offset, s1)) := by
  unfold R1CS.solveStep at h
  simp only at h
  cases hsc : cs.solveConstraint env r st.solution with
  | mk rc s =>
    rw [hsc] at h
    cases rc with
    | error e =>
      simp only [Prod.mk.injEq] at h
      obtain ⟨h1, h2⟩ := h
      subst h2 h1
      have he := R1CS.solveConstraint_error hsc
      refine ⟨fun o s1 hh => by simp at hh, le_refl _, fun d hd => ?_, fun hh => by simp at hh⟩
      simp only [Res.error.injEq] at hd
      subst hd
      exfalso
      unfold R1CS.solveConstraint at hsc
      cases hwc : cs.walkConstraint env r (Walk.init st.solution) with
      | mk rw w =>
        rw [hwc] at hsc
        cases rw with
        | error e1 =>
          simp only [Prod.mk.injEq, Res.error.injEq] at hsc
          rw [R1CS.walkConstraint_eq_walkTagged] at hwc
          have hwt := hwc
          clear hwc
          have : ∀ (ts : List (Term × Side)) (w0 w1 : Walk F),
              cs.walkTagged env ts w0 = (.error (.unsatisfiedConstraint d), w1) → False := by
            intro ts
            induction ts with
            | nil => intro w0 w1 hh; simp [R1CS.walkTagged] at hh
            | cons p ps ih =>
              intro w0 w1 hh
              obtain ⟨t, side⟩ := p
              simp only [R1CS.walkTagged] at hh
              cases hp : cs.processTerm env w0 t side with
              | mk r1 w2 =>
                rw [hp] at hh
                cases r1 with
                | ok u => exact ih _ _ hh
                | fault f => simp at hh
                | error e2 =>
                  simp only [Prod.mk.injEq, Res.error.injEq] at hh
                  rw [hh.1] at hp
                  unfold R1CS.processTerm at hp
                  simp only at hp
                  (repeat' split at hp) <;> try (simp at hp; done)
                  rename_i hsol
                  simp only [Prod.mk.injEq, Res.error.injEq] at hp
                  rw [hp.1] at hsol
                  unfold Solution.solveHint at hsol
                  (repeat' split at hsol) <;> try (simp at hsol)
                  rename_i v _
                  cases hset : w0.solution.set t.VariableID v <;>
                    simp [hset, Res.ofOption] at hsol
          rw [hsc.1] at hwt
          exact this _ _ _ hwt
        | fault f => simp at hsc
        | ok u =>
          simp only at hsc
          (repeat' split at hsc) <;> simp at hsc
    | fault f =>
      simp only [Prod.mk.injEq] at h
      obtain ⟨h1, h2⟩ := h
      subst h2 h1
      exact ⟨fun o s1 hh => by simp at hh, le_refl _, fun d hd => by simp at hd,
        fun hh => by simp at hh⟩
    | ok offset =>
      simp only at h
      have hoff : ∀ o s1, (Res.ok offset, s) = ((Res.ok o : Res (SolveError LE) Nat), s1) →
          st.debugInfoComputationOffset + offset = st.debugInfoComputationOffset + o := by
        intro o s1 hh
        simp only [Prod.mk.injEq, Res.ok.injEq] at hh
        rw [hh.1]
      (repeat' split at h) <;>
        (simp only [Prod.mk.injEq] at h
         obtain ⟨h1, h2⟩ := h
         subst h2 h1
         refine ⟨hoff, Nat.le_add_right _ _, fun d hd => ?_, fun _ => ⟨offset, s, rfl⟩⟩
         first
           | (simp at hd; done)
           | (simp only [Res.error.injEq, SolveError.unsatisfiedConstraint.injEq] at hd
              subst hd
              assumption))

theorem R1CS.divisions_append {env : Env F} {cs : R1CS F LE} (pre post : List R1C) {i : Nat}
    {st st1 : LoopState F}
    (h : cs.solveLoop env i pre st = (.ok (), st1)) :
    cs.divisions env i (pre ++ post) st =
      cs.divisions env i pre st + cs.divisions env (i + pre.length) post st1 := by
  induction pre generalizing i st with
  | nil =>
    simp only [R1CS.solveLoop, Prod.mk.injEq] at h
    rw [← h.2]
    simp [R1CS.divisions]
  | cons r rs ih =>
    unfold R1CS.solveLoop at h
    simp only [List.cons_append, List.length_cons, R1CS.divisions]
    cases hst : cs.solveStep env i r st with
    | mk r1 st2 =>
      rw [hst] at h
      cases r1 with
      | ok u =>
        simp only at h ⊢
        have e : i + 1 + rs.length = i + (rs.length + 1) := by omega
        have key := @ih (i + 1) st2 h
        rw [e] at key
        change _ + cs.divisions env (i + 1) (rs ++ post) st2 = _
        rw [key]
        omega
      | error e => simp at h
      | fault f => simp at h

/-- After a run of the loop that passes, the cursor has advanced by the number of calls
that divided. -/
theorem R1CS.solveLoop_cursor {env : Env F} {cs : R1CS F LE} (rs : List R1C) {i : Nat}
    {st st1 : LoopState F}
    (h : cs.solveLoop env i rs st = (.ok (), st1)) :
    st1.debugInfoComputationOffset =
      st.debugInfoComputationOffset + cs.divisions env i rs st := by
  induction rs generalizing i st with
  | nil =>
    simp only [R1CS.solveLoop, Prod.mk.injEq] at h
    rw [← h.2]
    simp [R1CS.divisions]
  | cons r rs ih =>
    unfold R1CS.solveLoop at h
    unfold R1CS.divisions
    cases hst : cs.solveStep env i r st with
    | mk r1 st2 =>
      rw [hst] at h
      cases r1 with
      | ok u =>
        simp only at h ⊢
        obtain ⟨q1, _, _, q4⟩ := R1CS.solveStep_cursor hst
        obtain ⟨offset, s1, hsc⟩ := q4 rfl
        rw [ih h, q1 _ _ hsc, R1CS.solveConstraint_offset hsc]
        omega
      | error e => simp at h
      | fault f => simp at h

/-! ## More than one unknown -/

theorem R1CS.isUnknown_iff {cs : R1CS F LE} {s : Solution F} {t : Term} :
    cs.isUnknown s t = true ↔
      s.solved[t.VariableID]? = some false ∧ cs.mHints.lookup t.VariableID = none := by
  simp [R1CS.isUnknown]

/-- What `processTerm` does to `loc`: the fault of a second unknown needs a term that was
unknown when the walk started and a `loc` already set; a successful call leaves `loc` as it
is or sets it, from zero, on such a term. -/
theorem R1CS.processTerm_loc {env : Env F} {cs : R1CS F LE} {s0 : Solution F}
    {w w1 : Walk F} {t : Term} {side : Side} {res : Res (SolveError LE) Unit}
    (h : cs.processTerm env w t side = (res, w1)) (hw : cs.WalkInv s0 w) :
    (res = .fault .moreThanOneWire → w.loc ≠ 0 ∧ cs.isUnknown s0 t = true) ∧
    (res = .ok () → w1.loc = w.loc ∨ (w.loc = 0 ∧ w1.loc ≠ 0 ∧ cs.isUnknown s0 t = true)) := by
  have hunk : w.solution.solved[t.VariableID]? = some false →
      cs.mHints.lookup t.VariableID = none → cs.isUnknown s0 t = true := by
    intro h1 h2
    rw [R1CS.isUnknown_iff]
    refine ⟨?_, h2⟩
    have hlt : t.VariableID < w.solution.solved.length := by
      rcases Nat.lt_or_ge t.VariableID w.solution.solved.length with h | h
      · exact h
      · rw [List.getElem?_eq_none h] at h1
        simp at h1
    rw [hw.2.1.2.1] at hlt
    cases hb : s0.solved[t.VariableID]? with
    | none =>
      rw [List.getElem?_eq_none_iff] at hb
      omega
    | some b =>
      cases b with
      | false => rfl
      | true =>
        have := (hw.2.1.2.2 _ hb).1
        rw [h1] at this
        simp at this
  unfold R1CS.processTerm at h
  simp only at h
  split at h
  · simp only [Prod.mk.injEq] at h
    rw [← h.1, ← h.2]
    exact ⟨fun hh => by simp at hh, fun hh => by simp at hh⟩
  · split at h
    · simp only [Prod.mk.injEq] at h
      rw [← h.1, ← h.2]
      exact ⟨fun hh => by simp at hh, fun _ => Or.inl (Walk.add_solution w side _).2.1⟩
    · simp only [Prod.mk.injEq] at h
      rw [← h.1, ← h.2]
      exact ⟨fun hh => by simp at hh, fun hh => by simp at hh⟩
  · rename_i hsolved
    split at h
    · rename_i hID hlook
      split at h
      · simp only [Prod.mk.injEq] at h
        rw [← h.1, ← h.2]
        exact ⟨fun hh => by simp at hh, fun hh => by simp at hh⟩
      · rename_i hh0 _
        cases hsol : (w.solution.solveHint hh0 t.VariableID :
            Res (SolveError LE) (Solution F)) with
        | ok s =>
          simp only [hsol, Prod.mk.injEq] at h
          rw [← h.1, ← h.2]
          exact ⟨fun hh => by simp at hh, fun _ => Or.inl rfl⟩
        | error e =>
          simp only [hsol, Prod.mk.injEq] at h
          rw [← h.1, ← h.2]
          exact ⟨fun hh => by simp at hh, fun hh => by simp at hh⟩
        | fault f =>
          simp only [hsol, Prod.mk.injEq] at h
          rw [← h.1, ← h.2]
          refine ⟨fun hh => ?_, fun hh => by simp at hh⟩
          exfalso
          simp only [Res.fault.injEq] at hh
          subst hh
          unfold Solution.solveHint at hsol
          (repeat' split at hsol) <;> try (simp at hsol)
          rename_i v _
          cases hset : w.solution.set t.VariableID v <;>
            simp [hset, Res.ofOption] at hsol
    · rename_i hlook
      split at h
      · rename_i hloc
        simp only [Prod.mk.injEq] at h
        rw [← h.1, ← h.2]
        exact ⟨fun _ => ⟨hloc, hunk hsolved hlook⟩, fun hh => by simp at hh⟩
      · rename_i hloc
        simp only [Prod.mk.injEq] at h
        rw [← h.1, ← h.2]
        refine ⟨fun hh => by simp at hh, fun _ => Or.inr ⟨by simpa using hloc, ?_,
          hunk hsolved hlook⟩⟩
        cases side <;> simp [Side.locValue]

/-- On a term that was unknown when the walk started, `processTerm` raises the fault of a
second unknown when `loc` is set, and records the term otherwise. -/
theorem R1CS.processTerm_unknown {env : Env F} {cs : R1CS F LE} {s0 : Solution F}
    {w : Walk F} {t : Term} {side : Side}
    (hw : cs.WalkInv s0 w) (hu : cs.isUnknown s0 t = true) :
    cs.processTerm env w t side =
      if w.loc ≠ 0 then (.fault .moreThanOneWire, w)
      else (.ok (), { w with termToCompute := t, loc := side.locValue }) := by
  rw [R1CS.isUnknown_iff] at hu
  have h1 := hw.2.2.1 _ hu.1 hu.2
  simp [R1CS.processTerm, h1, hu.2]

/-- A walk that succeeds has met at most one term that was unknown when it started, none
if `loc` was already set. -/
theorem R1CS.walkTagged_ok_unknowns {env : Env F} {cs : R1CS F LE} {s0 : Solution F}
    (ts : List (Term × Side)) {w w1 : Walk F}
    (h : cs.walkTagged env ts w = (.ok (), w1)) (hw : cs.WalkInv s0 w) :
    (cs.unknownTerms s0 ts).length + (if w.loc ≠ 0 then 1 else 0) ≤ 1 := by
  induction ts generalizing w with
  | nil =>
    simp only [R1CS.unknownTerms, List.filter_nil, List.length_nil, Nat.zero_add]
    split <;> omega
  | cons p ps ih =>
    obtain ⟨t, side⟩ := p
    simp only [R1CS.walkTagged] at h
    cases hp : cs.processTerm env w t side with
    | mk r1 w2 =>
      rw [hp] at h
      cases r1 with
      | error e => simp at h
      | fault f => simp at h
      | ok u =>
        have i1 := R1CS.processTerm_inv hp hw
        have hrec := ih h i1
        have hl := (R1CS.processTerm_loc hp hw).2 rfl
        by_cases hu : cs.isUnknown s0 t = true
        · have hp2 := @R1CS.processTerm_unknown F _ _ LE env cs s0 w t side hw hu
          rw [hp] at hp2
          by_cases hloc : w.loc ≠ 0
          · simp [hloc] at hp2
          · simp only [hloc, if_false, Prod.mk.injEq] at hp2
            have hw2 : w2.loc ≠ 0 := by
              rw [hp2.2]
              cases side <;> simp [Side.locValue]
            simp only [R1CS.unknownTerms, List.filter_cons, hu, if_true, List.length_cons,
              hloc, if_false] at hrec ⊢
            simp only [hw2, ne_eq, not_false_eq_true, if_true] at hrec
            omega
        · simp only [R1CS.unknownTerms, List.filter_cons, hu] at hrec ⊢
          rcases hl with hl | hl
          · rw [hl] at hrec
            simpa using hrec
          · exact absurd hl.2.2 hu

/-- A walk that has at most one term unknown at its start, none if `loc` is set, does not
raise the fault of a second unknown. -/
theorem R1CS.walkTagged_no_second {env : Env F} {cs : R1CS F LE} {s0 : Solution F}
    (ts : List (Term × Side)) {w w1 : Walk F} {res : Res (SolveError LE) Unit}
    (h : cs.walkTagged env ts w = (res, w1)) (hw : cs.WalkInv s0 w)
    (hc : (cs.unknownTerms s0 ts).length + (if w.loc ≠ 0 then 1 else 0) ≤ 1) :
    res ≠ .fault .moreThanOneWire := by
  induction ts generalizing w with
  | nil =>
    simp only [R1CS.walkTagged, Prod.mk.injEq] at h
    rw [← h.1]; simp
  | cons p ps ih =>
    obtain ⟨t, side⟩ := p
    simp only [R1CS.walkTagged] at h
    cases hp : cs.processTerm env w t side with
    | mk r1 w2 =>
      rw [hp] at h
      have hl := R1CS.processTerm_loc hp hw
      cases r1 with
      | error e =>
        simp only [Prod.mk.injEq] at h
        rw [← h.1]; simp
      | fault f =>
        simp only [Prod.mk.injEq] at h
        rw [← h.1]
        intro hf
        simp only [Res.fault.injEq] at hf
        subst hf
        obtain ⟨hloc, hu⟩ := hl.1 rfl
        simp only [R1CS.unknownTerms, List.filter_cons, hu, if_true, List.length_cons, hloc,
          ne_eq, not_false_eq_true] at hc
        omega
      | ok u =>
        have i1 := R1CS.processTerm_inv hp hw
        apply ih h i1
        rcases hl.2 rfl with hl | hl
        · rw [hl]
          simp only [R1CS.unknownTerms, List.filter_cons] at hc ⊢
          split at hc
          · simp only [List.length_cons] at hc
            omega
          · exact hc
        · simp only [R1CS.unknownTerms, List.filter_cons, hl.2.2, if_true, List.length_cons,
            hl.1, ne_eq, not_true_eq_false, if_false] at hc
          simp only [R1CS.unknownTerms, hl.2.1, ne_eq, not_false_eq_true, if_true]
          omega

theorem two_le_length_of_mem {α : Type} {l : List α} {x y : α} (hx : x ∈ l) (hy : y ∈ l)
    (hne : x ≠ y) : 2 ≤ l.length := by
  match l, hx, hy with
  | [], hx, _ => simp at hx
  | [z], hx, hy =>
    simp only [List.mem_singleton] at hx hy
    exact absurd (hx.trans hy.symm) hne
  | _ :: _ :: _, _, _ => simp

theorem Solution.solveHint_kind {s : Solution F} {h : Hint F} {vID : Nat}
    {r : Res (SolveError LE) (Solution F)}
    (hs : (s.solveHint h vID : Res (SolveError LE) (Solution F)) = r) :
    (∃ s1, r = .ok s1) ∨ r = .fault .indexOutOfRange ∨
      ∃ msg, r = .error (.hintResolutionFailed msg) := by
  unfold Solution.solveHint at hs
  split at hs
  · exact Or.inr (Or.inr ⟨_, hs.symm⟩)
  · split at hs
    · exact Or.inr (Or.inl hs.symm)
    · split at hs
      · exact Or.inr (Or.inr ⟨_, hs.symm⟩)
      · rename_i v _
        cases hset : s.set vID v with
        | none =>
          simp only [hset, Res.ofOption] at hs
          exact Or.inr (Or.inl hs.symm)
        | some s2 =>
          simp only [hset, Res.ofOption] at hs
          exact Or.inl ⟨_, hs.symm⟩

theorem R1CS.processTerm_kind {env : Env F} {cs : R1CS F LE} {w w1 : Walk F} {t : Term}
    {side : Side} {res : Res (SolveError LE) Unit}
    (h : cs.processTerm env w t side = (res, w1)) :
    res = .ok () ∨ res = .fault .indexOutOfRange ∨ res = .fault .moreThanOneWire ∨
      ∃ msg, res = .error (.hintResolutionFailed msg) := by
  unfold R1CS.processTerm at h
  simp only at h
  split at h
  · simp only [Prod.mk.injEq] at h
    exact Or.inr (Or.inl h.1.symm)
  · split at h <;> simp only [Prod.mk.injEq] at h
    · exact Or.inl h.1.symm
    · exact Or.inr (Or.inl h.1.symm)
  · split at h
    · split at h
      · simp only [Prod.mk.injEq] at h
        exact Or.inr (Or.inl h.1.symm)
      · rename_i hh0 _
        cases hsol : (w.solution.solveHint hh0 t.VariableID :
            Res (SolveError LE) (Solution F)) with
        | ok s =>
          simp only [hsol, Prod.mk.injEq] at h
          exact Or.inl h.1.symm
        | error e =>
          simp only [hsol, Prod.mk.injEq] at h
          rcases Solution.solveHint_kind hsol with ⟨_, hk⟩ | hk | ⟨msg, hk⟩
          · simp at hk
          · simp at hk
          · simp only [Res.error.injEq] at hk
            rw [← h.1, hk]
            exact Or.inr (Or.inr (Or.inr ⟨msg, rfl⟩))
        | fault f =>
          simp only [hsol, Prod.mk.injEq] at h
          rcases Solution.solveHint_kind hsol with ⟨_, hk⟩ | hk | ⟨msg, hk⟩
          · simp at hk
          · simp only [Res.fault.injEq] at hk
            rw [← h.1, hk]
            exact Or.inr (Or.inl rfl)
          · simp at hk
    · split at h <;> simp only [Prod.mk.injEq] at h
      · exact Or.inr (Or.inr (Or.inl h.1.symm))
      · exact Or.inl h.1.symm

theorem R1CS.walkTagged_kind {env : Env F} {cs : R1CS F LE} (ts : List (Term × Side))
    {w w1 : Walk F} {res : Res (SolveError LE) Unit}
    (h : cs.walkTagged env ts w = (res, w1)) :
    res = .ok () ∨ res = .fault .indexOutOfRange ∨ res = .fault .moreThanOneWire ∨
      ∃ msg, res = .error (.hintResolutionFailed msg) := by
  induction ts generalizing w with
  | nil =>
    simp only [R1CS.walkTagged, Prod.mk.injEq] at h
    exact Or.inl h.1.symm
  | cons p ps ih =>
    obtain ⟨t, side⟩ := p
    simp only [R1CS.walkTagged] at h
    cases hp : cs.processTerm env w t side with
    | mk r1 w2 =>
      rw [hp] at h
      have hk := R1CS.processTerm_kind hp
      cases r1 with
      | ok u => exact ih h
      | error e =>
        simp only [Prod.mk.injEq] at h
        rw [← h.1]; exact hk
      | fault f =>
        simp only [Prod.mk.injEq] at h
        rw [← h.1]; exact hk

/-- A walk that meets no hint and no indexing fault leaves the solution as it is, and ends
well or with the fault of a second unknown. -/
theorem R1CS.walkTagged_plain {env : Env F} {cs : R1CS F LE} {s : Solution F}
    (ts : List (Term × Side)) {w w1 : Walk F} {res : Res (SolveError LE) Unit}
    (h : cs.walkTagged env ts w = (res, w1)) (hs : w.solution = s)
    (hp : cs.Plain env s ts) :
    w1.solution = s ∧ (res = .ok () ∨ res = .fault .moreThanOneWire) := by
  induction ts generalizing w with
  | nil =>
    simp only [R1CS.walkTagged, Prod.mk.injEq] at h
    rw [← h.1, ← h.2]
    exact ⟨hs, Or.inl rfl⟩
  | cons p ps ih =>
    obtain ⟨t, side⟩ := p
    have hp1 := hp (t, side) (List.mem_cons_self _ _)
    have hp2 : cs.Plain env s ps := fun q hq => hp q (List.mem_cons_of_mem _ hq)
    simp only [R1CS.walkTagged] at h
    have hstep : ∃ w2, w2.solution = s ∧
        (cs.processTerm env w t side = (.ok (), w2) ∨
          cs.processTerm env w t side = (.fault .moreThanOneWire, w2)) := by
      rcases hp1 with ⟨h1, h2⟩ | h1
      · cases hc : s.computeTerm env t with
        | none => simp [hc] at h2
        | some v =>
          refine ⟨w.add side v, by rw [(Walk.add_solution w side v).1, hs], Or.inl ?_⟩
          simp [R1CS.processTerm, hs, h1, hc]
      · rw [R1CS.isUnknown_iff] at h1
        by_cases hloc : w.loc = 0
        · refine ⟨{ w with termToCompute := t, loc := side.locValue }, hs, Or.inl ?_⟩
          simp [R1CS.processTerm, hs, h1.1, h1.2, hloc]
        · refine ⟨w, hs, Or.inr ?_⟩
          simp [R1CS.processTerm, hs, h1.1, h1.2, hloc]
    obtain ⟨w2, hw2, hpt | hpt⟩ := hstep
    · rw [hpt] at h
      exact ih h hw2 hp2
    · rw [hpt] at h
      simp only [Prod.mk.injEq] at h
      rw [← h.1, ← h.2]
      exact ⟨hw2, Or.inr rfl⟩

/-! ## The running sums -/

theorem Walk.add_acc (w : Walk F) (sd side : Side) (v : F) :
    (w.add sd v).acc side = w.acc side + (if sd = side then v else 0) := by
  cases sd <;> cases side <;> simp [Walk.add, Walk.acc]

/-- What a successful `processTerm` adds to an accumulator. -/
theorem R1CS.processTerm_acc {env : Env F} {cs : R1CS F LE} {w w1 : Walk F} {t : Term}
    {sd : Side} (side : Side)
    (h : cs.processTerm env w t sd = (.ok (), w1)) :
    w1.acc side = w.acc side + (if sd = side then w.contribution env t else 0) := by
  unfold R1CS.processTerm at h
  simp only at h
  split at h
  · simp at h
  · rename_i hsolved
    split at h
    · rename_i v hc
      simp only [Prod.mk.injEq, true_and] at h
      rw [← h, Walk.add_acc]
      simp [Walk.contribution, hsolved, hc]
    · simp at h
  · rename_i hsolved
    have hz : w.contribution env t = 0 := by simp [Walk.contribution, hsolved]
    split at h
    · split at h
      · simp at h
      · split at h
        · simp only [Prod.mk.injEq, true_and] at h
          rw [← h, hz]
          cases side <;> simp [Walk.acc]
        · simp at h
        · simp at h
    · split at h
      · simp at h
      · simp only [Prod.mk.injEq, true_and] at h
        rw [← h, hz]
        cases side <;> simp [Walk.acc]

/-- After a successful walk, each accumulator has grown by the contributions of the terms
of its side, each taken in the state in which it was reached. -/
theorem R1CS.walkTagged_acc {env : Env F} {cs : R1CS F LE} (side : Side)
    (ts : List (Term × Side)) {w w1 : Walk F}
    (h : cs.walkTagged env ts w = (.ok (), w1)) :
    w1.acc side = w.acc side + cs.reachedSum env side ts w := by
  induction ts generalizing w with
  | nil =>
    simp only [R1CS.walkTagged, Prod.mk.injEq, true_and] at h
    rw [← h]
    simp [R1CS.reachedSum]
  | cons p ps ih =>
    obtain ⟨t, sd⟩ := p
    simp only [R1CS.walkTagged] at h
    simp only [R1CS.reachedSum]
    cases hp : cs.processTerm env w t sd with
    | mk r1 w2 =>
      rw [hp] at h
      cases r1 with
      | error e => simp at h
      | fault f => simp at h
      | ok u =>
        simp only
        rw [ih h, R1CS.processTerm_acc side hp, add_assoc]

/-! ## The index of the hints -/

theorem initHintsFrom_lookup_not_mem (hs : List (Hint F)) (i : Nat) (m : List (Nat × Nat))
    (k : Nat) (hk : k ∉ hs.map (fun h => h.WireID)) :
    (initHintsFrom i hs m).lookup k = m.lookup k := by
  induction hs generalizing i m with
  | nil => rfl
  | cons h hs ih =>
    simp only [List.map_cons, List.mem_cons, not_or] at hk
    rw [initHintsFrom, ih _ _ hk.2, List.lookup_cons]
    have : (k == h.WireID) = false := by simpa using hk.1
    rw [this]

theorem initHintsFrom_lookup_isSome (hs : List (Hint F)) (i : Nat) (m : List (Nat × Nat))
    (k : Nat) :
    ((initHintsFrom i hs m).lookup k).isSome = true ↔
      (∃ h, h ∈ hs ∧ h.WireID = k) ∨ (m.lookup k).isSome = true := by
  induction hs generalizing i m with
  | nil => simp [initHintsFrom]
  | cons h hs ih =>
    rw [initHintsFrom, ih, List.lookup_cons]
    by_cases e : k = h.WireID
    · subst e
      simp
    · have : (k == h.WireID) = false := by simpa using e
      rw [this]
      simp only [List.mem_cons, exists_eq_or_imp]
      constructor
      · rintro (h1 | h1)
        · exact Or.inl (Or.inr h1)
        · exact Or.inr h1
      · rintro ((h1 | h1) | h1)
        · exact absurd h1.symm e
        · exact Or.inl h1
        · exact Or.inr h1

theorem initHintsFrom_lookup_get (hs : List (Hint F)) (i : Nat) (m : List (Nat × Nat))
    (hd : (hs.map (fun h => h.WireID)).Nodup) (j : Nat) (h : Hint F)
    (hj : hs[j]? = some h) :
    (initHintsFrom i hs m).lookup h.WireID = some (i + j) := by
  induction hs generalizing i m j with
  | nil => simp at hj
  | cons h0 hs ih =>
    simp only [List.map_cons, List.nodup_cons] at hd
    rw [initHintsFrom]
    cases j with
    | zero =>
      simp only [List.getElem?_cons_zero, Option.some.injEq] at hj
      subst hj
      rw [initHintsFrom_lookup_not_mem _ _ _ _ hd.1]
      simp
    | succ j =>
      simp only [List.getElem?_cons_succ] at hj
      rw [ih _ _ hd.2 j hj]
      congr 1
      omega

/-! ## The sums of `instantiateR1C` -/

theorem sumTerms_eq_sum {env : Env F} {s : Solution F} (ts : LinearExpression) (acc : F) :
    sumTerms env s ts acc = (termValues env s ts).map (fun vs => acc + vs.sum) := by
  induction ts generalizing acc with
  | nil => simp [sumTerms, termValues]
  | cons t ts ih =>
    simp only [sumTerms, termValues]
    cases hc : s.computeTerm env t with
    | none => rfl
    | some v =>
      simp only
      rw [ih]
      cases termValues env s ts with
      | none => rfl
      | some vs => simp [add_assoc]

theorem sumTerms_perm {env : Env F} {s : Solution F} {l1 l2 : LinearExpression}
    (h : l1.Perm l2) : ∀ acc : F, sumTerms env s l1 acc = sumTerms env s l2 acc := by
  induction h with
  | nil => intro acc; rfl
  | cons t _ ih =>
    intro acc
    simp only [sumTerms]
    cases s.computeTerm env t with
    | none => rfl
    | some v => exact ih _
  | swap x y l =>
    intro acc
    simp only [sumTerms]
    cases s.computeTerm env x with
    | none =>
      cases s.computeTerm env y <;> rfl
    | some vx =>
      cases s.computeTerm env y with
      | none => rfl
      | some vy =>
        simp only
        rw [add_right_comm]
  | trans _ _ ih1 ih2 =>
    intro acc
    rw [ih1, ih2]

/-! ## Soundness of the returned assignment -/

theorem Solution.set_coefficients {s s1 : Solution F} {id : Nat} {v : F}
    (h : s.set id v = some s1) : s1.coefficients = s.coefficients := by
  unfold Solution.set at h
  split at h
  · simp only [Option.some.injEq] at h
    rw [← h]
  · simp at h

theorem R1CS.processTerm_coefficients {env : Env F} {cs : R1CS F LE} {w w1 : Walk F}
    {t : Term} {side : Side} {res : Res (SolveError LE) Unit}
    (h : cs.processTerm env w t side = (res, w1)) :
    w1.solution.coefficients = w.solution.coefficients := by
  unfold R1CS.processTerm at h
  simp only at h
  split at h
  · simp only [Prod.mk.injEq] at h
    rw [← h.2]
  · split at h <;> simp only [Prod.mk.injEq] at h <;> rw [← h.2]
    rw [(Walk.add_solution w side _).1]
  · split at h
    · split at h
      · simp only [Prod.mk.injEq] at h
        rw [← h.2]
      · rename_i hh0 _
        cases hsol : (w.solution.solveHint hh0 t.VariableID :
            Res (SolveError LE) (Solution F)) with
        | ok s =>
          simp only [hsol, Prod.mk.injEq] at h
          rw [← h.2]
          obtain ⟨v, hset⟩ := Solution.solveHint_ok hsol
          exact Solution.set_coefficients hset
        | error e =>
          simp only [hsol, Prod.mk.injEq] at h
          rw [← h.2]
        | fault f =>
          simp only [hsol, Prod.mk.injEq] at h
          rw [← h.2]
    · split at h <;> simp only [Prod.mk.injEq] at h <;> rw [← h.2]

theorem R1CS.walkTagged_coefficients {env : Env F} {cs : R1CS F LE}
    (ts : List (Term × Side)) {w w1 : Walk F} {res : Res (SolveError LE) Unit}
    (h : cs.walkTagged env ts w = (res, w1)) :
    w1.solution.coefficients = w.solution.coefficients := by
  induction ts generalizing w with
  | nil =>
    simp only [R1CS.walkTagged, Prod.mk.injEq] at h
    rw [← h.2]
  | cons p ps ih =>
    obtain ⟨t, side⟩ := p
    simp only [R1CS.walkTagged] at h
    cases hp : cs.processTerm env w t side with
    | mk r1 w2 =>
      have c1 := R1CS.processTerm_coefficients hp
      rw [hp] at h
      cases r1 with
      | ok u => exact (ih h).trans c1
      | error e =>
        simp only [Prod.mk.injEq] at h
        rw [← h.2]; exact c1
      | fault f =>
        simp only [Prod.mk.injEq] at h
        rw [← h.2]; exact c1

theorem R1CS.solveConstraint_coefficients {env : Env F} {cs : R1CS F LE} {r : R1C}
    {s s1 : Solution F} {res : Res (SolveError LE) Nat}
    (h : cs.solveConstraint env r s = (res, s1)) : s1.coefficients = s.coefficients := by
  unfold R1CS.solveConstraint at h
  rw [R1CS.walkConstraint_eq_walkTagged] at h
  cases hwc : cs.walkTagged env r.terms (Walk.init s) with
  | mk rw w =>
    have c1 : w.solution.coefficients = s.coefficients := R1CS.walkTagged_coefficients _ hwc
    rw [hwc] at h
    cases rw with
    | error e =>
      simp only [Prod.mk.injEq] at h
      rw [← h.2]; exact c1
    | fault f =>
      simp only [Prod.mk.injEq] at h
      rw [← h.2]; exact c1
    | ok u =>
      simp only at h
      split at h
      · simp only [Prod.mk.injEq] at h
        rw [← h.2]; exact c1
      · split at h
        · simp only [Prod.mk.injEq] at h
          rw [← h.2]; exact c1
        · split at h
          · simp only [Prod.mk.injEq] at h
            rw [← h.2]; exact c1
          · rename_i s2 hset
            simp only [Prod.mk.injEq] at h
            rw [← h.2]
            exact (Solution.set_coefficients hset).trans c1

/-- A successful `processTerm` leaves the term on a solved wire, or records it as the
unknown, which it can do only when no unknown was recorded before. -/
theorem R1CS.processTerm_ok_cases {env : Env F} {cs : R1CS F LE} {w w1 : Walk F} {t : Term}
    {side : Side} (h : cs.processTerm env w t side = (.ok (), w1)) :
    (w1.solution.solved[t.VariableID]? = some true ∧ w1.loc = w.loc ∧
      w1.termToCompute = w.termToCompute) ∨
    (w.loc = 0 ∧ w1.loc ≠ 0 ∧ w1.termToCompute = t ∧ w1.solution = w.solution) := by
  unfold R1CS.processTerm at h
  simp only at h
  split at h
  · simp at h
  · rename_i hsolved
    split at h
    · simp only [Prod.mk.injEq, true_and] at h
      rw [← h]
      obtain ⟨e1, e2, e3⟩ := Walk.add_solution w side ‹F›
      exact Or.inl ⟨by rw [e1]; exact hsolved, e2, e3⟩
    · simp at h
  · rename_i hsolved
    split at h
    · split at h
      · simp at h
      · rename_i hh0 _
        cases hsol : (w.solution.solveHint hh0 t.VariableID :
            Res (SolveError LE) (Solution F)) with
        | ok s =>
          simp only [hsol, Prod.mk.injEq, true_and] at h
          rw [← h]
          obtain ⟨v, hset⟩ := Solution.solveHint_ok hsol
          exact Or.inl ⟨(Solution.set_spec hset hsolved).2.2.1, rfl, rfl⟩
        | error e => simp [hsol] at h
        | fault f => simp [hsol] at h
    · split at h
      · simp at h
      · rename_i hloc
        simp only [Prod.mk.injEq, true_and] at h
        rw [← h]
        refine Or.inr ⟨by simpa using hloc, ?_, rfl, rfl⟩
        cases side <;> simp [Side.locValue]

/-- After a successful walk every term walked is on a solved wire or on the wire of the
recorded unknown; an unknown recorded before the walk is still the recorded one. -/
theorem R1CS.walkTagged_ok_solved {env : Env F} {cs : R1CS F LE} {s0 : Solution F}
    (ts : List (Term × Side)) {w w1 : Walk F}
    (h : cs.walkTagged env ts w = (.ok (), w1)) (hw : cs.WalkInv s0 w) :
    (∀ p, p ∈ ts → w1.solution.solved[p.1.VariableID]? = some true ∨
      (w1.loc ≠ 0 ∧ p.1.VariableID = w1.termToCompute.VariableID)) ∧
    (w.loc ≠ 0 → w1.loc ≠ 0 ∧ w1.termToCompute = w.termToCompute) ∧
    (∀ v : Nat, w.solution.solved[v]? = some true → w1.solution.solved[v]? = some true) := by
  induction ts generalizing w s0 with
  | nil =>
    simp only [R1CS.walkTagged, Prod.mk.injEq, true_and] at h
    rw [← h]
    exact ⟨fun p hp => by simp at hp, fun hl => ⟨hl, rfl⟩, fun v hv => hv⟩
  | cons p ps ih =>
    obtain ⟨t, side⟩ := p
    simp only [R1CS.walkTagged] at h
    cases hp : cs.processTerm env w t side with
    | mk r1 w2 =>
      rw [hp] at h
      cases r1 with
      | error e => simp at h
      | fault f => simp at h
      | ok u =>
        have i1 := R1CS.processTerm_inv hp hw
        have i2 : cs.WalkInv w.solution w2 :=
          R1CS.processTerm_inv hp
            ⟨fun hc => hc, Solution.Extends.refl _, fun _ hv _ => hv, hw.2.2.2⟩
        obtain ⟨q1, q2, q3⟩ := ih h i1
        have hcases := R1CS.processTerm_ok_cases hp
        refine ⟨?_, ?_, ?_⟩
        · intro p hpm
          rcases List.mem_cons.mp hpm with e | hps
          · subst e
            rcases hcases with ⟨c1, _, _⟩ | ⟨_, c2, c3, _⟩
            · exact Or.inl (q3 _ c1)
            · obtain ⟨k1, k2⟩ := q2 c2
              exact Or.inr ⟨k1, by rw [k2, c3]⟩
          · exact q1 p hps
        · intro hl
          rcases hcases with ⟨_, c2, c3⟩ | ⟨c1, _⟩
          · obtain ⟨k1, k2⟩ := q2 (by rw [c2]; exact hl)
            exact ⟨k1, by rw [k2, c3]⟩
          · exact absurd c1 hl
        · intro v hv
          exact q3 v (i2.2.1.2.2 v hv).1

/-- After `solveConstraint` returns a value, every wire the constraint mentions is solved. -/
theorem R1CS.solveConstraint_ok_solved {env : Env F} {cs : R1CS F LE} {r : R1C}
    {s s1 : Solution F} {offset : Nat}
    (h : cs.solveConstraint env r s = (.ok offset, s1)) :
    ∀ p, p ∈ r.terms → s1.solved[p.1.VariableID]? = some true := by
  unfold R1CS.solveConstraint at h
  rw [R1CS.walkConstraint_eq_walkTagged] at h
  cases hwc : cs.walkTagged env r.terms (Walk.init s) with
  | mk rw w =>
    rw [hwc] at h
    cases rw with
    | error e => simp at h
    | fault f => simp at h
    | ok u =>
      have inv := R1CS.walkTagged_inv _ hwc (R1CS.WalkInv.init cs s)
      obtain ⟨q1, _, _⟩ := R1CS.walkTagged_ok_solved _ hwc (R1CS.WalkInv.init cs s)
      simp only at h
      split at h
      · rename_i hloc
        simp only [Prod.mk.injEq] at h
        rw [← h.2]
        intro p hp
        rcases q1 p hp with c | c
        · exact c
        · exact absurd hloc c.1
      · rename_i hloc
        split at h
        · simp at h
        · split at h
          · simp at h
          · rename_i s2 hset
            simp only [Prod.mk.injEq] at h
            rw [← h.2]
            obtain ⟨_, p2, p3, _⟩ := Solution.set_spec hset (inv.2.2.2 hloc).1
            intro p hp
            rcases q1 p hp with c | c
            · exact (p2.2.2 _ c).1
            · rw [c.2]; exact p3

theorem Solution.computeTerm_extends {env : Env F} {s s1 : Solution F} {t : Term}
    (he : s.Extends s1) (hc : s1.coefficients = s.coefficients)
    (hs : s.solved[t.VariableID]? = some true) :
    s1.computeTerm env t = s.computeTerm env t := by
  unfold Solution.computeTerm Solution.coeff
  rw [hc, (he.2.2 _ hs).2]

theorem sumTerms_extends {env : Env F} {s s1 : Solution F} (ts : LinearExpression)
    (acc : F) (he : s.Extends s1) (hc : s1.coefficients = s.coefficients)
    (hs : AllSolved s ts) :
    sumTerms env s1 ts acc = sumTerms env s ts acc := by
  induction ts generalizing acc with
  | nil => rfl
  | cons t ts ih =>
    simp only [sumTerms,
      Solution.computeTerm_extends he hc (hs t (List.mem_cons_self _ _))]
    cases s.computeTerm env t with
    | none => rfl
    | some v => exact ih _ (fun u hu => hs u (List.mem_cons_of_mem _ hu))

/-- The sums of a constraint whose wires are all solved do not change when the solution is
extended. -/
theorem R1CS.instantiateR1C_extends {env : Env F} {s s1 : Solution F} (r : R1C)
    (he : s.Extends s1) (hc : s1.coefficients = s.coefficients)
    (hs : ∀ p, p ∈ r.terms → s.solved[p.1.VariableID]? = some true) :
    R1CS.instantiateR1C env r s1 = R1CS.instantiateR1C env r s := by
  have hL : AllSolved s r.L := fun u hu => hs (u, Side.L) (by
    simp only [R1C.terms, List.mem_append, List.mem_map]
    exact Or.inl (Or.inl ⟨u, hu, rfl⟩))
  have hR : AllSolved s r.R := fun u hu => hs (u, Side.R) (by
    simp only [R1C.terms, List.mem_append, List.mem_map]
    exact Or.inl (Or.inr ⟨u, hu, rfl⟩))
  have hO : AllSolved s r.O := fun u hu => hs (u, Side.O) (by
    simp only [R1C.terms, List.mem_append, List.mem_map]
    exact Or.inr ⟨u, hu, rfl⟩)
  unfold R1CS.instantiateR1C
  rw [sumTerms_extends _ _ he hc hL, sumTerms_extends _ _ he hc hR,
    sumTerms_extends _ _ he hc hO]

/-- What an iteration that passes has done. -/
theorem R1CS.solveStep_ok {env : Env F} {cs : R1CS F LE} {i : Nat} {r : R1C}
    {st st1 : LoopState F}
    (h : cs.solveStep env i r st = (.ok (), st1)) :
    ∃ offset x y z,
      cs.solveConstraint env r st.solution = (.ok offset, st1.solution) ∧
      R1CS.instantiateR1C env r st1.solution = some (x, y, z) ∧ x * y = z ∧
      i < st.a.length ∧ i < st.b.length ∧ i < st.c.length ∧
      st1.a = st.a.set i x ∧ st1.b = st.b.set i y ∧ st1.c = st.c.set i z := by
  unfold R1CS.solveStep at h
  simp only at h
  cases hsc : cs.solveConstraint env r st.solution with
  | mk rc s =>
    rw [hsc] at h
    cases rc with
    | error e => simp at h
    | fault f => simp at h
    | ok offset =>
      simp only at h
      split at h
      · simp at h
      · rename_i x y z hinst
        split at h
        · rename_i hlen
          split at h
          · rename_i hxy
            simp only [Prod.mk.injEq, true_and] at h
            subst h
            exact ⟨offset, x, y, z, rfl, hinst, hxy, hlen.1, hlen.2.1, hlen.2.2, rfl, rfl,
              rfl⟩
          · split at h <;> simp at h
        · simp at h

theorem R1CS.Sound.step {env : Env F} {cs : R1CS F LE} {i : Nat} {r : R1C}
    {st st1 : LoopState F} {processed : List R1C}
    (h : cs.solveStep env i r st = (.ok (), st1)) (hlen : processed.length = i)
    (hs : R1CS.Sound env processed st) : R1CS.Sound env (processed ++ [r]) st1 := by
  obtain ⟨offset, x, y, z, hsc, hinst, hxy, la, lb, lc, ea, eb, ec⟩ := R1CS.solveStep_ok h
  have hext := (R1CS.solveConstraint_inv hsc).2.1
  have hco := R1CS.solveConstraint_coefficients hsc
  intro j r0 hj
  by_cases hji : j < processed.length
  · rw [List.getElem?_append_left hji] at hj
    obtain ⟨q1, x0, y0, z0, q2, q3, q4, q5, q6⟩ := hs j r0 hj
    have hne : i ≠ j := by omega
    refine ⟨fun p hp => (hext.2.2 _ (q1 p hp)).1, x0, y0, z0, ?_, q3, ?_, ?_, ?_⟩
    · rw [R1CS.instantiateR1C_extends r0 hext hco q1]; exact q2
    · rw [ea, List.getElem?_set_ne hne]; exact q4
    · rw [eb, List.getElem?_set_ne hne]; exact q5
    · rw [ec, List.getElem?_set_ne hne]; exact q6
  · have hje : j = i := by
      have hlt : j < (processed ++ [r]).length := by
        rcases Nat.lt_or_ge j (processed ++ [r]).length with h1 | h1
        · exact h1
        · rw [List.getElem?_eq_none h1] at hj
          simp at hj
      simp only [List.length_append, List.length_singleton] at hlt
      omega
    subst hje
    rw [List.getElem?_append_right (by omega)] at hj
    have hz : j - processed.length = 0 := by omega
    rw [hz] at hj
    simp only [List.getElem?_cons_zero, Option.some.injEq] at hj
    subst hj
    refine ⟨R1CS.solveConstraint_ok_solved hsc, x, y, z, hinst, hxy, ?_, ?_, ?_⟩
    · rw [ea]; simp [la]
    · rw [eb]; simp [lb]
    · rw [ec]; simp [lc]

theorem R1CS.Sound.loop {env : Env F} {cs : R1CS F LE} (rs : List R1C) {i : Nat}
    {st st1 : LoopState F} {processed : List R1C}
    (h : cs.solveLoop env i rs st = (.ok (), st1)) (hlen : processed.length = i)
    (hs : R1CS.Sound env processed st) : R1CS.Sound env (processed ++ rs) st1 := by
  induction rs generalizing i st processed with
  | nil =>
    simp only [R1CS.solveLoop, Prod.mk.injEq, true_and] at h
    rw [← h, List.append_nil]
    exact hs
  | cons r rs ih =>
    unfold R1CS.solveLoop at h
    cases hst : cs.solveStep env i r st with
    | mk r1 st2 =>
      rw [hst] at h
      cases r1 with
      | error e => simp at h
      | fault f => simp at h
      | ok u =>
        have := ih h (by simp [hlen]) (R1CS.Sound.step hst hlen hs)
        simpa using this

theorem R1CS.solveLoop_coefficients {env : Env F} {cs : R1CS F LE} (rs : List R1C)
    {i : Nat} {st st1 : LoopState F} {res : Res (SolveError LE) Unit}
    (h : cs.solveLoop env i rs st = (res, st1)) :
    st1.solution.coefficients = st.solution.coefficients := by
  induction rs generalizing i st with
  | nil =>
    simp only [R1CS.solveLoop, Prod.mk.injEq] at h
    rw [← h.2]
  | cons r rs ih =>
    unfold R1CS.solveLoop at h
    cases hst : cs.solveStep env i r st with
    | mk r1 st2 =>
      have c1 : st2.solution.coefficients = st.solution.coefficients := by
        unfold R1CS.solveStep at hst
        simp only at hst
        cases hsc : cs.solveConstraint env r st.solution with
        | mk rc s =>
          have c0 := R1CS.solveConstraint_coefficients hsc
          rw [hsc] at hst
          cases rc <;> simp only at hst <;> (repeat' split at hst) <;>
            (simp only [Prod.mk.injEq] at hst
             obtain ⟨_, h2⟩ := hst
             subst h2
             exact c0)
      rw [hst] at h
      cases r1 with
      | ok u => exact (ih h).trans c1
      | error e =>
        simp only [Prod.mk.injEq] at h
        rw [← h.2]; exact c1
      | fault f =>
        simp only [Prod.mk.injEq] at h
        rw [← h.2]; exact c1

theorem initInputs_coefficients {s s1 : Solution F} {witness : List F}
    (h : initInputs s witness = some s1) : s1.coefficients = s.coefficients := by
  unfold initInputs at h
  split at h
  · simp only at h
    cases hm : markSolved witness.length 0 (s.solved.set 0 true) with
    | none => simp [hm] at h
    | some l =>
      simp only [hm, Option.some.injEq] at h
      rw [← h]
  · simp at h

theorem R1CS.solveInit_coefficients {env : Env F} {cs : R1CS F LE} {witness a b c : List F}
    {hf : List (HintFunction F)} {s0 : Solution F}
    (h : cs.solveInit env witness a b c hf = .ok s0) :
    s0.coefficients = cs.Coefficients := by
  unfold R1CS.solveInit at h
  split at h
  · simp at h
  · simp only at h
    split at h
    · simp at h
    · cases hns : (newSolution env (cs.NbPublicVariables + cs.NbSecretVariables +
          cs.NbInternalVariables) hf cs.Coefficients : Res (SolveError LE) (Solution F)) with
      | error e => simp [hns] at h
      | fault f => simp [hns] at h
      | ok s =>
        simp only [hns] at h
        obtain ⟨_, _, hs⟩ := newSolution_ok hns
        cases hi : initInputs s witness with
        | none => simp [hi, Res.ofOption] at h
        | some s1 =>
          simp only [hi, Res.ofOption, Res.ok.injEq] at h
          rw [← h, initInputs_coefficients hi, hs]

theorem R1CS.instantiateR1C_ofValues {env : Env F} (r : R1C) (s : Solution F) :
    R1CS.instantiateR1C env r (Solution.ofValues s.values s.coefficients) =
      R1CS.instantiateR1C env r s := by
  have hc : ∀ t, (Solution.ofValues s.values s.coefficients).computeTerm env t =
      s.computeTerm env t := fun t => rfl
  have hsum : ∀ (ts : LinearExpression) (acc : F),
      sumTerms env (Solution.ofValues s.values s.coefficients) ts acc =
        sumTerms env s ts acc := by
    intro ts
    induction ts with
    | nil => intro acc; rfl
    | cons t ts ih =>
      intro acc
      simp only [sumTerms, hc]
      cases s.computeTerm env t with
      | none => rfl
      | some v => exact ih _
  unfold R1CS.instantiateR1C
  simp only [hsum]

/-! ## Properties of the solver -/

/-- C1: whenever `Solve` returns without error, for every constraint index `i` the output
vectors hold values with `a[i] * b[i] = c[i]` in the field, for every constraint system,
witness and hint set. -/
theorem C1_solve_products (env : Env F) (cs : R1CS F LE) (witness a b c : List F)
    (hintFunctions : List (HintFunction F)) (ws : List F)
    (h : (cs.Solve env witness a b c hintFunctions).result = .ok ws) :
    ∀ i : Nat, i < cs.Constraints.length →
      ∃ x y z, (cs.Solve env witness a b c hintFunctions).a[i]? = some x ∧
        (cs.Solve env witness a b c hintFunctions).b[i]? = some y ∧
        (cs.Solve env witness a b c hintFunctions).c[i]? = some z ∧ x * y = z := by
  obtain ⟨s0, st, _, hl, _, hout⟩ := R1CS.Solve_ok h
  obtain ⟨_, _, _, q⟩ := R1CS.solveLoop_inv _ hl
  have hc := (q rfl).2 (fun j hj => absurd hj (Nat.not_lt_zero j))
  rw [hout]
  intro i hi
  exact hc i (by omega)

/-- C1, at the system `x * x = y` over `ZMod 13` with witness `x = 3`. -/
theorem C1_solve_products_witness :
    ((squareSystem (env0 (ZMod 13)) Unit).Solve (env0 (ZMod 13)) [3] [0] [0] [0] []).result =
      .ok [1, 3, 9] ∧
    ∀ i : Nat, i < (squareSystem (env0 (ZMod 13)) Unit).Constraints.length →
      ∃ x y z,
        ((squareSystem (env0 (ZMod 13)) Unit).Solve (env0 (ZMod 13)) [3] [0] [0] [0] []).a[i]?
          = some x ∧
        ((squareSystem (env0 (ZMod 13)) Unit).Solve (env0 (ZMod 13)) [3] [0] [0] [0] []).b[i]?
          = some y ∧
        ((squareSystem (env0 (ZMod 13)) Unit).Solve (env0 (ZMod 13)) [3] [0] [0] [0] []).c[i]?
          = some z ∧ x * y = z :=
  ⟨by decide, C1_solve_products (env0 (ZMod 13)) (squareSystem (env0 (ZMod 13)) Unit)
    [3] [0] [0] [0] [] [1, 3, 9] (by decide)⟩

/-- C2: for a witness whose length differs from `NbPublicVariables - 1 + NbSecretVariables`,
`Solve` returns the invalid-witness-size error and no wire vector, before any constraint is
processed: the trace of the run is empty, no solution was built, and `a`, `b`, `c` are the
caller's vectors unchanged, whatever the constraints, hints and lengths of `a`, `b`, `c`. -/
theorem C2_wrong_witness_size (env : Env F) (cs : R1CS F LE) (witness a b c : List F)
    (hintFunctions : List (HintFunction F))
    (h : (witness.length : Int) ≠ cs.NbPublicVariables - 1 + cs.NbSecretVariables) :
    cs.Solve env witness a b c hintFunctions =
      { result := .error (.invalidWitnessSize witness.length
          (cs.NbPublicVariables - 1 + cs.NbSecretVariables)),
        a := a, b := b, c := c, solution := none, trace := [] } ∧
    (cs.Solve env witness a b c hintFunctions).wires = none := by
  have h1 : cs.Solve env witness a b c hintFunctions =
      { result := .error (.invalidWitnessSize witness.length
          (cs.NbPublicVariables - 1 + cs.NbSecretVariables)),
        a := a, b := b, c := c, solution := none, trace := [] } := by
    simp [R1CS.Solve, R1CS.solveInit, h]
  exact ⟨h1, by rw [h1]; rfl⟩

/-- C2, at the system `x * x = y` over `ZMod 13` with an empty witness (one value is
expected) and vectors `a`, `b`, `c` of length one. -/
theorem C2_wrong_witness_size_witness :
    ((([] : List (ZMod 13)).length : Int) ≠
        (squareSystem (env0 (ZMod 13)) Unit).NbPublicVariables - 1 +
          (squareSystem (env0 (ZMod 13)) Unit).NbSecretVariables) ∧
    (squareSystem (env0 (ZMod 13)) Unit).Solve (env0 (ZMod 13)) [] [5] [6] [7] [] =
      { result := .error (.invalidWitnessSize 0 1),
        a := [5], b := [6], c := [7], solution := none, trace := [] } :=
  ⟨by decide, (C2_wrong_witness_size (env0 (ZMod 13)) (squareSystem (env0 (ZMod 13)) Unit)
    [] [5] [6] [7] [] (by decide)).1⟩

/-- C3, refuted as stated: in the system `x * x = y`, `1 * 10 = y` over `ZMod 13` with an
empty table of debug entries, witness `[3]` and vectors of the right length, constraint 1 is
the first at which the re-evaluated sums give `a[1] * b[1] = 1 * 10 ≠ 9 = c[1]`; `Solve`
does not return an error wrapping `ErrUnsatisfiedConstraint` but panics on
`cs.DebugInfoComputation[0]`. -/
theorem C3_unsatisfied_counterexample :
    ((assertSystem []).Solve (env0 (ZMod 13)) [3] [0, 0] [0, 0] [0, 0] []).result =
      .fault .indexOutOfRange ∧
    ((assertSystem []).Solve (env0 (ZMod 13)) [3] [0, 0] [0, 0] [0, 0] []).a = [3, 1] ∧
    ((assertSystem []).Solve (env0 (ZMod 13)) [3] [0, 0] [0, 0] [0, 0] []).b = [3, 10] ∧
    ((assertSystem []).Solve (env0 (ZMod 13)) [3] [0, 0] [0, 0] [0, 0] []).c = [9, 9] ∧
    (3 : ZMod 13) * 3 = 9 ∧ (1 : ZMod 13) * 10 ≠ 9 := by
  decide

/-- C3, amended: for a correctly sized input, if the first `i` constraints pass, constraint
`i` is solved without error or fault, its re-evaluated sums `x`, `y`, `z` are stored at an
existing index `i` and `x * y ≠ z`, and the debug cursor points at an entry `d` of
`DebugInfoComputation`, then `Solve` fails with the unsatisfied-constraint error carrying
`d` and returns no wire vector, and the constraints after `i` are not processed: the calls
of `solveConstraint` in the run are those for `0 .. i`, and `a`, `b`, `c` are what the first
`i` iterations left with `x`, `y`, `z` stored at `i`. -/
theorem C3_unsatisfied (env : Env F) (cs : R1CS F LE) (witness a b c : List F)
    (hintFunctions : List (HintFunction F)) (s0 : Solution F) (i : Nat) (r : R1C)
    (st : LoopState F) (offset : Nat) (s1 : Solution F) (x y z : F) (d : LE)
    (hinit : cs.solveInit env witness a b c hintFunctions = .ok s0)
    (hpre : cs.solveLoop env 0 (cs.Constraints.take i)
      { solution := s0, a := a, b := b, c := c, debugInfoComputationOffset := 0,
        trace := [] } = (.ok (), st))
    (hr : cs.Constraints[i]? = some r)
    (hsolve : cs.solveConstraint env r st.solution = (.ok offset, s1))
    (hsums : R1CS.instantiateR1C env r s1 = some (x, y, z))
    (hlen : i < a.length)
    (hne : x * y ≠ z)
    (hdebug : cs.DebugInfoComputation[st.debugInfoComputationOffset + offset]? = some d) :
    cs.Solve env witness a b c hintFunctions =
      { result := .error (.unsatisfiedConstraint d),
        a := st.a.set i x, b := st.b.set i y, c := st.c.set i z,
        solution := some s1,
        trace := (List.range (i + 1)).map Event.solveConstraint ++ [Event.printLogs] } ∧
    (cs.Solve env witness a b c hintFunctions).wires = none := by
  obtain ⟨l1, l2, l3⟩ := R1CS.solveLoop_length _ hpre
  obtain ⟨z1, z2, z3⟩ := R1CS.solveInit_sizes hinit
  simp only at l1 l2 l3
  have hla : i < st.a.length := by rw [l1]; exact hlen
  have hlb : i < st.b.length := by rw [l2]; omega
  have hlc : i < st.c.length := by rw [l3]; omega
  have hstep : cs.solveStep env i r st =
      (.error (.unsatisfiedConstraint d),
       { solution := s1, a := st.a.set i x, b := st.b.set i y, c := st.c.set i z,
         debugInfoComputationOffset := st.debugInfoComputationOffset + offset,
         trace := st.trace ++ [Event.solveConstraint i] }) := by
    simp [R1CS.solveStep, hsolve, hsums, hla, hlb, hlc, hne, hdebug]
  have h1 := R1CS.Solve_error_at hinit hpre hr hstep
  exact ⟨h1, by rw [h1]; rfl⟩

/-- C3 amended, at the system `x * x = y`, `1 * 10 = y` over `ZMod 13` with one debug
entry and witness `[3]`: the run fails at constraint 1 with that entry. -/
theorem C3_unsatisfied_witness :
    (assertSystem ["d0"]).Solve (env0 (ZMod 13)) [3] [0, 0] [0, 0] [0, 0] [] =
      { result := .error (.unsatisfiedConstraint "d0"),
        a := [3, 1], b := [3, 10], c := [9, 9],
        solution := some { values := [1, 3, 9], coefficients := [0, 1, 2, -1, 10],
                           solved := [true, true, true], nbSolved := 3,
                           mHintsFunctions := [] },
        trace := [Event.solveConstraint 0, Event.solveConstraint 1, Event.printLogs] } :=
  (C3_unsatisfied (env0 (ZMod 13)) (assertSystem ["d0"]) [3] [0, 0] [0, 0] [0, 0] []
    { values := [1, 3, 0], coefficients := [0, 1, 2, -1, 10],
      solved := [true, true, false], nbSolved := 2, mHintsFunctions := [] }
    1 ⟨[⟨1, 0⟩], [⟨4, 0⟩], [⟨1, 2⟩]⟩
    { solution := { values := [1, 3, 9], coefficients := [0, 1, 2, -1, 10],
                    solved := [true, true, true], nbSolved := 3, mHintsFunctions := [] },
      a := [3, 0], b := [3, 0], c := [9, 0], debugInfoComputationOffset := 0,
      trace := [Event.solveConstraint 0] }
    0 { values := [1, 3, 9], coefficients := [0, 1, 2, -1, 10],
        solved := [true, true, true], nbSolved := 3, mHintsFunctions := [] }
    1 10 9 "d0" (by rfl) (by rfl) (by rfl) (by rfl) (by rfl) (by decide) (by decide)
    (by rfl)).1

/-- C4: the scenario `x * x = y`: wires one (0), x (1, public), y (2, internal),
`NbPublic = 2`, `NbSecret = 0`, `NbInternal = 1`, the constraint `L = [1*x]`, `R = [1*x]`,
`O = [1*y]` with the reserved coefficient one, no hints, witness `[3]`.  In every field, for
every value of the reserved IDs and whatever `a`, `b`, `c` of length one hold before,
`Solve` succeeds, the wire y is solved to 9, and `a = [3]`, `b = [3]`, `c = [9]`. -/
theorem C4_square_scenario (env : Env F) (LE : Type) (a0 b0 c0 : F)
    (h : env.newSolutionErr [] = none) :
    (squareSystem env LE).Solve env [3] [a0] [b0] [c0] [] =
      { result := .ok [1, 3, 9], a := [3], b := [3], c := [9],
        solution := some { values := [1, 3, 9], coefficients := [1],
                           solved := [true, true, true], nbSolved := 3,
                           mHintsFunctions := [] },
        trace := [Event.solveConstraint 0, Event.printLogs] } := by
  have e9 : (3 : F) * 3 = 9 := by norm_num
  simp [R1CS.Solve, R1CS.solveInit, squareSystem, newSolution, h, Res.ofOption, initInputs,
    markSolved, copySlice, R1CS.solveBody, R1CS.solveLoop, R1CS.solveStep,
    R1CS.solveConstraint, R1CS.walkConstraint, R1CS.walkTerms, R1CS.processTerm, Walk.init,
    Solution.computeTerm, Solution.coeff, Walk.add, R1CS.solveWire, R1CS.mulByCoeff,
    Solution.set, R1CS.instantiateR1C, sumTerms, Side.locValue, Solution.isValid, e9,
    List.replicate]

/-- C4, over `ZMod 13` with the reserved IDs 0, 1, 2, 3. -/
theorem C4_square_scenario_witness :
    (env0 (ZMod 13)).newSolutionErr [] = none ∧
    (squareSystem (env0 (ZMod 13)) Unit).Solve (env0 (ZMod 13)) [3] [0] [0] [0] [] =
      { result := .ok [1, 3, 9], a := [3], b := [3], c := [9],
        solution := some { values := [1, 3, 9], coefficients := [1],
                           solved := [true, true, true], nbSolved := 3,
                           mHintsFunctions := [] },
        trace := [Event.solveConstraint 0, Event.printLogs] } :=
  ⟨rfl, C4_square_scenario (env0 (ZMod 13)) Unit 0 0 0 rfl⟩

/-- C5: whenever `Solve` returns without error, `solved[i]` is true for every wire index
`i` below `NbPublic + NbSecret + NbInternal`.  The counter `nbSolved` equals the number of
true flags after the initialisation and after each iteration of the loop that starts with
that equality, so the final check of the counter against the wire count gives every flag. -/
theorem C5_all_wires_solved (env : Env F) (cs : R1CS F LE) (witness a b c : List F)
    (hintFunctions : List (HintFunction F)) (ws : List F)
    (h : (cs.Solve env witness a b c hintFunctions).result = .ok ws) :
    (∀ s0, cs.solveInit env witness a b c hintFunctions = .ok s0 →
      s0.nbSolved = s0.solved.count true) ∧
    (∀ (i : Nat) (r : R1C) (st st1 : LoopState F) (res : Res (SolveError LE) Unit),
      cs.solveStep env i r st = (res, st1) →
      st.solution.values.length = st.solution.solved.length →
      st.solution.nbSolved = st.solution.solved.count true →
      st1.solution.nbSolved = st1.solution.solved.count true) ∧
    ∃ s, (cs.Solve env witness a b c hintFunctions).solution = some s ∧
      s.nbSolved = s.solved.count true ∧
      (s.solved.length : Int) =
        cs.NbPublicVariables + cs.NbSecretVariables + cs.NbInternalVariables ∧
      ∀ i : Nat, (i : Int) <
          cs.NbPublicVariables + cs.NbSecretVariables + cs.NbInternalVariables →
        s.solved[i]? = some true := by
  refine ⟨fun s0 h0 => (R1CS.solveInit_ok h0).2.1.2, ?_, ?_⟩
  · intro i r st st1 res hs h1 h2
    exact ((R1CS.solveStep_inv hs).1 ⟨h1, h2⟩).2
  · obtain ⟨s0, st, hi, hl, hv, hout⟩ := R1CS.Solve_ok h
    obtain ⟨_, c0, l0, _⟩ := R1CS.solveInit_ok hi
    obtain ⟨p1, p2, _⟩ := R1CS.solveLoop_inv _ hl
    have hc := p1 c0
    simp only at hc p2
    have hv1 : st.solution.nbSolved = st.solution.values.length := by
      simpa [Solution.isValid] using hv
    have hlen : (st.solution.solved.length : Int) =
        cs.NbPublicVariables + cs.NbSecretVariables + cs.NbInternalVariables := by
      rw [← l0, ← p2.1, hc.1]
    refine ⟨st.solution, by rw [hout], hc.2, hlen, fun i hi => ?_⟩
    apply all_true_of_count
    · rw [← hc.2, hv1, hc.1]
    · omega

/-- C5, at the system `x * x = y` over `ZMod 13` with witness `x = 3`. -/
theorem C5_all_wires_solved_witness :
    ((squareSystem (env0 (ZMod 13)) Unit).Solve (env0 (ZMod 13)) [3] [0] [0] [0] []).result =
      .ok [1, 3, 9] ∧
    ∃ s, ((squareSystem (env0 (ZMod 13)) Unit).Solve (env0 (ZMod 13))
        [3] [0] [0] [0] []).solution = some s ∧
      s.nbSolved = s.solved.count true ∧
      (s.solved.length : Int) = 2 + 0 + 1 ∧
      ∀ i : Nat, (i : Int) < 2 + 0 + 1 → s.solved[i]? = some true :=
  ⟨by decide, (C5_all_wires_solved (env0 (ZMod 13)) (squareSystem (env0 (ZMod 13)) Unit)
    [3] [0] [0] [0] [] [1, 3, 9] (by decide)).2.2⟩

/-- C6: if the first `i` constraints pass and, while the terms of constraint `i` are walked,
a term `t` is reached (after the terms `pre`, walked without error, in state `w`) whose wire
is unsolved and bound to a hint, and the resolution of that hint fails with `e` (the function
is missing from the supplied set, or it returns an error), then `Solve` returns `e` and no
wire vector; no wire without a hint binding was solved by that call of `solveConstraint`, in
particular not the unknown recorded so far; and no later constraint is processed: the calls
of `solveConstraint` in the run are those for `0 .. i`. -/
theorem C6_hint_failure (env : Env F) (cs : R1CS F LE) (witness a b c : List F)
    (hintFunctions : List (HintFunction F)) (s0 : Solution F) (i : Nat) (r : R1C)
    (st : LoopState F) (pre post : List (Term × Side)) (t : Term) (side : Side)
    (w : Walk F) (hID : Nat) (hint : Hint F) (e : SolveError LE)
    (hinit : cs.solveInit env witness a b c hintFunctions = .ok s0)
    (hpre : cs.solveLoop env 0 (cs.Constraints.take i)
      { solution := s0, a := a, b := b, c := c, debugInfoComputationOffset := 0,
        trace := [] } = (.ok (), st))
    (hr : cs.Constraints[i]? = some r)
    (hterms : r.terms = pre ++ (t, side) :: post)
    (hwalk : cs.walkTagged env pre (Walk.init st.solution) = (.ok (), w))
    (hunsolved : w.solution.solved[t.VariableID]? = some false)
    (hbound : cs.mHints.lookup t.VariableID = some hID)
    (hhint : cs.Hints[hID]? = some hint)
    (hfail : (w.solution.solveHint hint t.VariableID : Res (SolveError LE) (Solution F)) =
      .error e) :
    cs.Solve env witness a b c hintFunctions =
      { result := .error e, a := st.a, b := st.b, c := st.c,
        solution := some w.solution,
        trace := (List.range (i + 1)).map Event.solveConstraint ++ [Event.printLogs] } ∧
    (cs.Solve env witness a b c hintFunctions).wires = none ∧
    (∀ v : Nat, st.solution.solved[v]? = some false → cs.mHints.lookup v = none →
      w.solution.solved[v]? = some false) ∧
    (w.loc ≠ 0 → w.solution.solved[w.termToCompute.VariableID]? = some false) := by
  have hp : cs.processTerm env w t side = (.error e, w) := by
    simp [R1CS.processTerm, hunsolved, hbound, hhint, hfail]
  have hwt : cs.walkTagged env r.terms (Walk.init st.solution) = (.error e, w) := by
    rw [hterms, R1CS.walkTagged_append _ _ hwalk, R1CS.walkTagged, hp]
  have hsc : cs.solveConstraint env r st.solution = (.error e, w.solution) := by
    unfold R1CS.solveConstraint
    rw [R1CS.walkConstraint_eq_walkTagged, hwt]
  have hstep : cs.solveStep env i r st =
      (.error e, { st with trace := st.trace ++ [Event.solveConstraint i],
                           solution := w.solution }) := by
    simp [R1CS.solveStep, hsc]
  have h1 := R1CS.Solve_error_at hinit hpre hr hstep
  have inv := R1CS.walkTagged_inv _ hwalk (R1CS.WalkInv.init cs st.solution)
  exact ⟨h1, by rw [h1]; rfl, inv.2.2.1, fun hl => (inv.2.2.2 hl).1⟩

/-- C6, at the system `z * 1 = x` over `ZMod 13` in which the wire z is bound to the hint
function 7, with witness `[3]` and no hint function supplied: the first term reached is the
one on z, and the run fails with the error of the missing function. -/
theorem C6_hint_failure_witness :
    hintSystem.Solve (env0 (ZMod 13)) [3] [0] [0] [0] [] =
      { result := .error (.hintResolutionFailed "missing hint function"),
        a := [0], b := [0], c := [0],
        solution := some { values := [1, 3, 0], coefficients := [0, 1, 2, -1],
                           solved := [true, true, false], nbSolved := 2,
                           mHintsFunctions := [] },
        trace := [Event.solveConstraint 0, Event.printLogs] } :=
  (C6_hint_failure (env0 (ZMod 13)) hintSystem [3] [0] [0] [0] []
    { values := [1, 3, 0], coefficients := [0, 1, 2, -1],
      solved := [true, true, false], nbSolved := 2, mHintsFunctions := [] }
    0 ⟨[⟨1, 2⟩], [⟨1, 0⟩], [⟨1, 1⟩]⟩
    { solution := { values := [1, 3, 0], coefficients := [0, 1, 2, -1],
                    solved := [true, true, false], nbSolved := 2, mHintsFunctions := [] },
      a := [0], b := [0], c := [0], debugInfoComputationOffset := 0, trace := [] }
    [] [(⟨1, 0⟩, Side.R), (⟨1, 1⟩, Side.O)] ⟨1, 2⟩ Side.L
    (Walk.init { values := [1, 3, 0], coefficients := [0, 1, 2, -1],
                 solved := [true, true, false], nbSolved := 2, mHintsFunctions := [] })
    0 ⟨2, 7, [.wire 1]⟩ (.hintResolutionFailed "missing hint function")
    (by rfl) (by rfl) (by rfl) (by rfl) (by rfl) (by rfl) (by rfl) (by rfl) (by rfl)).1

/-- C7, refuted as stated: in the scenario `x * x = y` over `ZMod 13` with witness `[3]`,
`NbPublic = 2`, `NbSecret = 0`, `NbInternal = 1`, the returned vector is `[1, 3, 9]`: it has
three entries, not `NbPublic + NbSecret + NbInternal - 1 = 2`, and its first entry is the
constant one, not the first witness value. -/
theorem C7_returned_vector_counterexample :
    ∃ ws, ((squareSystem (env0 (ZMod 13)) Unit).Solve (env0 (ZMod 13))
        [3] [0] [0] [0] []).wires = some ws ∧
      (ws.length : Int) ≠
        (squareSystem (env0 (ZMod 13)) Unit).NbPublicVariables +
        (squareSystem (env0 (ZMod 13)) Unit).NbSecretVariables +
        (squareSystem (env0 (ZMod 13)) Unit).NbInternalVariables - 1 ∧
      ws[0]? = some 1 ∧ ws[0]? ≠ ([3] : List (ZMod 13))[0]? :=
  ⟨[1, 3, 9], by decide, by decide, by decide, by decide⟩

/-- C7, amended: on success the wire vector returned by `Solve` is the whole `values` array
of the solution, wire 0 included: it has `NbPublic + NbSecret + NbInternal` entries, its
entry 0 is the field element one, and the witness values follow from index 1. -/
theorem C7_returned_vector (env : Env F) (cs : R1CS F LE) (witness a b c : List F)
    (hintFunctions : List (HintFunction F)) (ws : List F)
    (h : (cs.Solve env witness a b c hintFunctions).result = .ok ws) :
    (∃ s, (cs.Solve env witness a b c hintFunctions).solution = some s ∧ ws = s.values) ∧
    (ws.length : Int) =
      cs.NbPublicVariables + cs.NbSecretVariables + cs.NbInternalVariables ∧
    ws[0]? = some 1 ∧
    ∀ j : Nat, j < witness.length → ws[j + 1]? = witness[j]? := by
  obtain ⟨s0, st, hi, hl, hv, hout⟩ := R1CS.Solve_ok h
  obtain ⟨_, _, l0, v0, vw, sw⟩ := R1CS.solveInit_ok hi
  obtain ⟨_, p2, _⟩ := R1CS.solveLoop_inv _ hl
  simp only at p2
  have hws : ws = st.solution.values := by
    rw [hout] at h
    simp only [Res.ok.injEq] at h
    exact h.symm
  subst hws
  refine ⟨⟨st.solution, by rw [hout], rfl⟩, by rw [← l0, p2.1], ?_, fun j hj => ?_⟩
  · rw [(p2.2.2 0 (sw 0 (Nat.zero_le _))).2]; exact v0
  · rw [(p2.2.2 (j + 1) (sw (j + 1) (by omega))).2]; exact vw j hj

/-- C7 amended, at the system `x * x = y` over `ZMod 13` with witness `x = 3`. -/
theorem C7_returned_vector_witness :
    ((squareSystem (env0 (ZMod 13)) Unit).Solve (env0 (ZMod 13)) [3] [0] [0] [0] []).result =
      .ok [1, 3, 9] ∧
    (([1, 3, 9] : List (ZMod 13)).length : Int) = 2 + 0 + 1 ∧
    ([1, 3, 9] : List (ZMod 13))[0]? = some 1 :=
  ⟨by decide,
   (C7_returned_vector (env0 (ZMod 13)) (squareSystem (env0 (ZMod 13)) Unit)
    [3] [0] [0] [0] [] [1, 3, 9] (by decide)).2.1,
   (C7_returned_vector (env0 (ZMod 13)) (squareSystem (env0 (ZMod 13)) Unit)
    [3] [0] [0] [0] [] [1, 3, 9] (by decide)).2.2.1⟩

/-- C8: on success the `values` array of the solution built by `Solve` has exactly
`NbPublic + NbSecret + NbInternal` entries, entry 0 is the field element one, and entries
`1 .. len(witness)` are, position by position, the supplied witness: solving overwrites
neither the constant wire nor an input wire. -/
theorem C8_values_frame (env : Env F) (cs : R1CS F LE) (witness a b c : List F)
    (hintFunctions : List (HintFunction F)) (ws : List F)
    (h : (cs.Solve env witness a b c hintFunctions).result = .ok ws) :
    ∃ s, (cs.Solve env witness a b c hintFunctions).solution = some s ∧
      (s.values.length : Int) =
        cs.NbPublicVariables + cs.NbSecretVariables + cs.NbInternalVariables ∧
      s.values[0]? = some 1 ∧
      ∀ j : Nat, j < witness.length → s.values[j + 1]? = witness[j]? := by
  obtain ⟨s0, st, hi, hl, hv, hout⟩ := R1CS.Solve_ok h
  obtain ⟨_, _, l0, v0, vw, sw⟩ := R1CS.solveInit_ok hi
  obtain ⟨_, p2, _⟩ := R1CS.solveLoop_inv _ hl
  simp only at p2
  refine ⟨st.solution, by rw [hout], by rw [← l0, p2.1], ?_, fun j hj => ?_⟩
  · rw [(p2.2.2 0 (sw 0 (Nat.zero_le _))).2]; exact v0
  · rw [(p2.2.2 (j + 1) (sw (j + 1) (by omega))).2]; exact vw j hj

/-- C8, at the system `x * x = y` over `ZMod 13` with witness `x = 3`. -/
theorem C8_values_frame_witness :
    ((squareSystem (env0 (ZMod 13)) Unit).Solve (env0 (ZMod 13)) [3] [0] [0] [0] []).result =
      .ok [1, 3, 9] ∧
    ∃ s, ((squareSystem (env0 (ZMod 13)) Unit).Solve (env0 (ZMod 13))
        [3] [0] [0] [0] []).solution = some s ∧
      (s.values.length : Int) = 2 + 0 + 1 ∧
      s.values[0]? = some 1 ∧
      ∀ j : Nat, j < ([3] : List (ZMod 13)).length →
        s.values[j + 1]? = ([3] : List (ZMod 13))[j]? :=
  ⟨by decide, C8_values_frame (env0 (ZMod 13)) (squareSystem (env0 (ZMod 13)) Unit)
    [3] [0] [0] [0] [] [1, 3, 9] (by decide)⟩

/-- C9, refuted as stated: in the system `x * x = y` over `ZMod 13`, the call with an empty
witness exits with the invalid-witness-size error, and the call with witness `[3]` and an
empty vector `a` exits with the invalid-input-size error; neither renders the logs. -/
theorem C9_logs_counterexample :
    ((squareSystem (env0 (ZMod 13)) Unit).Solve (env0 (ZMod 13)) [] [0] [0] [0] []).result =
      .error (.invalidWitnessSize 0 1) ∧
    ((squareSystem (env0 (ZMod 13)) Unit).Solve (env0 (ZMod 13))
      [] [0] [0] [0] []).trace.count Event.printLogs = 0 ∧
    ((squareSystem (env0 (ZMod 13)) Unit).Solve (env0 (ZMod 13)) [3] [] [0] [0] []).result =
      .error .invalidInputSize ∧
    ((squareSystem (env0 (ZMod 13)) Unit).Solve (env0 (ZMod 13))
      [3] [] [0] [0] []).trace.count Event.printLogs = 0 := by
  decide

/-- C9, amended: the logs are rendered exactly once on every exit of `Solve` that comes
after the inputs are stored (the return of the wire vector, a hint error, an unsatisfied
constraint, a panic in the loop or in the final check), and not at all on the exits before
that point (wrong witness size, wrong size of `a`, `b`, `c`, error of the construction of
the solution, panic while the solution is built or the inputs are stored). -/
theorem C9_logs (env : Env F) (cs : R1CS F LE) (witness a b c : List F)
    (hintFunctions : List (HintFunction F)) :
    ((cs.Solve env witness a b c hintFunctions).trace.count Event.printLogs =
      match cs.solveInit env witness a b c hintFunctions with
      | .ok _ => 1
      | _ => 0) ∧
    (∀ ws, (cs.Solve env witness a b c hintFunctions).result = .ok ws →
      (cs.Solve env witness a b c hintFunctions).trace.count Event.printLogs = 1) ∧
    (∀ msg, (cs.Solve env witness a b c hintFunctions).result =
        .error (.hintResolutionFailed msg) →
      (cs.Solve env witness a b c hintFunctions).trace.count Event.printLogs = 1) ∧
    (∀ d, (cs.Solve env witness a b c hintFunctions).result =
        .error (.unsatisfiedConstraint d) →
      (cs.Solve env witness a b c hintFunctions).trace.count Event.printLogs = 1) ∧
    (∀ got expected, (cs.Solve env witness a b c hintFunctions).result =
        .error (.invalidWitnessSize got expected) →
      (cs.Solve env witness a b c hintFunctions).trace.count Event.printLogs = 0) ∧
    ((cs.Solve env witness a b c hintFunctions).result = .error .invalidInputSize →
      (cs.Solve env witness a b c hintFunctions).trace.count Event.printLogs = 0) ∧
    (∀ msg, (cs.Solve env witness a b c hintFunctions).result =
        .error (.newSolution msg) →
      (cs.Solve env witness a b c hintFunctions).trace.count Event.printLogs = 0) := by
  have hcount := @R1CS.Solve_printLogs F _ _ LE env cs witness a b c hintFunctions
  have hin : ∀ e, (cs.Solve env witness a b c hintFunctions).result = .error e →
      e.inLoop = true →
      (cs.Solve env witness a b c hintFunctions).trace.count Event.printLogs = 1 := by
    intro e he hl
    obtain ⟨s0, h0⟩ := (R1CS.Solve_error_kind he).mp hl
    rw [hcount, h0]
  have hout : ∀ e, (cs.Solve env witness a b c hintFunctions).result = .error e →
      e.inLoop = false →
      (cs.Solve env witness a b c hintFunctions).trace.count Event.printLogs = 0 := by
    intro e he hl
    rw [hcount]
    cases h0 : cs.solveInit env witness a b c hintFunctions with
    | ok s0 =>
      have := (R1CS.Solve_error_kind he).mpr ⟨s0, h0⟩
      rw [hl] at this
      simp at this
    | error e1 => rfl
    | fault f => rfl
  refine ⟨hcount, ?_, fun msg h => hin _ h rfl, fun d h => hin _ h rfl,
    fun g x h => hout _ h rfl, fun h => hout _ h rfl, fun msg h => hout _ h rfl⟩
  intro ws h
  obtain ⟨s0, _, h0, _⟩ := R1CS.Solve_ok h
  rw [hcount, h0]

/-- C10: for every field value `v` and term `t`, `mulByCoeff` replaces `v` by `v` itself
when the coefficient ID of `t` is the reserved one, by `-v` for minus-one, by `0` for zero,
by `v + v` for two, and by `v * Coefficients[id]` for any other ID in range.  The function
has no error result: its only other outcome is the indexing panic of an ID out of range. -/
theorem C10_mulByCoeff (env : Env F) (hd : env.Distinct) (cs : R1CS F LE) (v : F)
    (t : Term) :
    (t.CoeffID = env.CoeffIdOne → cs.mulByCoeff env v t = some v) ∧
    (t.CoeffID = env.CoeffIdMinusOne → cs.mulByCoeff env v t = some (-v)) ∧
    (t.CoeffID = env.CoeffIdZero → cs.mulByCoeff env v t = some 0) ∧
    (t.CoeffID = env.CoeffIdTwo → cs.mulByCoeff env v t = some (v + v)) ∧
    (∀ k, t.CoeffID ≠ env.CoeffIdOne → t.CoeffID ≠ env.CoeffIdMinusOne →
      t.CoeffID ≠ env.CoeffIdZero → t.CoeffID ≠ env.CoeffIdTwo →
      cs.Coefficients[t.CoeffID]? = some k → cs.mulByCoeff env v t = some (v * k)) := by
  obtain ⟨d1, d2, d3, d4, d5, d6⟩ := hd
  refine ⟨?_, ?_, ?_, ?_, ?_⟩
  · intro e
    simp [R1CS.mulByCoeff, e]
  · intro e
    simp [R1CS.mulByCoeff, e, Ne.symm d1]
  · intro e
    simp [R1CS.mulByCoeff, e, Ne.symm d2, Ne.symm d4]
  · intro e
    simp [R1CS.mulByCoeff, e, Ne.symm d3, Ne.symm d5, Ne.symm d6]
  · intro k e1 e2 e3 e4 hk
    simp [R1CS.mulByCoeff, e1, e2, e3, e4, hk]

/-- C10, over `ZMod 13` with the reserved IDs 0, 1, 2, 3, at `v = 5`: in the coefficient
table `[0, 1, 2, -1, 10]` the ID 4 is not reserved and stands for 10. -/
theorem C10_mulByCoeff_witness :
    (env0 (ZMod 13)).Distinct ∧
    (assertSystem []).mulByCoeff (env0 (ZMod 13)) 5 ⟨4, 1⟩ = some (5 * 10) :=
  ⟨by simp [Env.Distinct, env0],
   (C10_mulByCoeff (env0 (ZMod 13)) (by simp [Env.Distinct, env0])
    (assertSystem []) 5 ⟨4, 1⟩).2.2.2.2 10 (by decide) (by decide) (by decide) (by decide)
    (by rfl)⟩

/-- C11: for a constraint with exactly one unknown term `t` (its wire is unsolved and has
no hint binding, the wires of all other terms are solved), with `A`, `B`, `C` the sums of
the solved terms of L, R, O and `k` the coefficient of `t`, `solveConstraint` stores for the
wire of `t` the value `k * (C / B - A)` when `t` is in L and `B ≠ 0`, `k * (C / A - B)` when
`t` is in R and `A ≠ 0`, and `k * (A * B - C)` when `t` is in O; the wire is marked solved
and the counter is incremented by one (`Solution.stored`).  The returned offset is 1 in the
first two cases and 0 in the third. -/
theorem C11_solve_unknown (env : Env F) (cs : R1CS F LE) (s : Solution F) (t : Term)
    (k A B C : F)
    (hlen : s.values.length = s.solved.length)
    (hun : s.solved[t.VariableID]? = some false)
    (hnh : cs.mHints.lookup t.VariableID = none)
    (hk : coeffValue env cs.Coefficients t.CoeffID = some k) :
    (∀ l1 l2 R O : LinearExpression,
      AllSolved s (l1 ++ l2) → AllSolved s R → AllSolved s O →
      sumTerms env s (l1 ++ l2) 0 = some A → sumTerms env s R 0 = some B →
      sumTerms env s O 0 = some C → B ≠ 0 →
      cs.solveConstraint env ⟨l1 ++ t :: l2, R, O⟩ s =
        (.ok 1, s.stored t.VariableID (k * (C / B - A)))) ∧
    (∀ L r1 r2 O : LinearExpression,
      AllSolved s L → AllSolved s (r1 ++ r2) → AllSolved s O →
      sumTerms env s L 0 = some A → sumTerms env s (r1 ++ r2) 0 = some B →
      sumTerms env s O 0 = some C → A ≠ 0 →
      cs.solveConstraint env ⟨L, r1 ++ t :: r2, O⟩ s =
        (.ok 1, s.stored t.VariableID (k * (C / A - B)))) ∧
    (∀ L R o1 o2 : LinearExpression,
      AllSolved s L → AllSolved s R → AllSolved s (o1 ++ o2) →
      sumTerms env s L 0 = some A → sumTerms env s R 0 = some B →
      sumTerms env s (o1 ++ o2) 0 = some C →
      cs.solveConstraint env ⟨L, R, o1 ++ t :: o2⟩ s =
        (.ok 0, s.stored t.VariableID (k * (A * B - C)))) := by
  have h2 : t.VariableID < s.solved.length := by
    rcases Nat.lt_or_ge t.VariableID s.solved.length with h | h
    · exact h
    · rw [List.getElem?_eq_none h] at hun
      simp at hun
  have h1 : t.VariableID < s.values.length := by rw [hlen]; exact h2
  refine ⟨?_, ?_, ?_⟩
  · intro l1 l2 R O hL hR hO hA hB hC hne
    unfold R1CS.solveConstraint
    rw [R1CS.walkConstraint_unknown_L hun hnh hL hR hO hA hB hC]
    simp [R1CS.solveWire, hne, R1CS.mulByCoeff_eq _ hk, Solution.set_eq_stored _ h1 h2]
  · intro L r1 r2 O hL hR hO hA hB hC hne
    unfold R1CS.solveConstraint
    rw [R1CS.walkConstraint_unknown_R hun hnh hL hR hO hA hB hC]
    simp [R1CS.solveWire, hne, R1CS.mulByCoeff_eq _ hk, Solution.set_eq_stored _ h1 h2]
  · intro L R o1 o2 hL hR hO hA hB hC
    unfold R1CS.solveConstraint
    rw [R1CS.walkConstraint_unknown_O hun hnh hL hR hO hA hB hC]
    simp [R1CS.solveWire, R1CS.mulByCoeff_eq _ hk, Solution.set_eq_stored _ h1 h2]

/-- C11, over `ZMod 13`: in the constraint `y * x = 10` with x = 3 solved and y (wire 2,
coefficient one) unknown in L, the wire y gets `1 * (10 / 3 - 0)`. -/
theorem C11_solve_unknown_witness :
    (assertSystem []).solveConstraint (env0 (ZMod 13))
        ⟨[⟨1, 2⟩], [⟨1, 1⟩], [⟨4, 0⟩]⟩ partialSolution =
      (.ok 1, partialSolution.stored 2 (1 * (10 / 3 - 0))) :=
  (C11_solve_unknown (env0 (ZMod 13)) (assertSystem []) partialSolution ⟨1, 2⟩ 1 0 3 10
    (by rfl) (by rfl) (by rfl) (by rfl)).1 [] [] [⟨1, 1⟩] [⟨4, 0⟩]
    (by simp [AllSolved]) (by simp [AllSolved, partialSolution])
    (by simp [AllSolved, partialSolution]) (by rfl) (by rfl) (by rfl) (by decide)

/-- C12: in the degenerate branch, when the unknown term `t` is in L and the sum `B` of R
is zero, or `t` is in R and the sum `A` of L is zero, `solveConstraint` stores field-zero
for the wire of `t`, marks it solved, and returns offset 0: the branch of the `switch` that
divides is not taken.  The coefficient of `t` is not applied (it need not even be in
range). -/
theorem C12_degenerate (env : Env F) (cs : R1CS F LE) (s : Solution F) (t : Term)
    (A B C : F)
    (hlen : s.values.length = s.solved.length)
    (hun : s.solved[t.VariableID]? = some false)
    (hnh : cs.mHints.lookup t.VariableID = none) :
    (∀ l1 l2 R O : LinearExpression,
      AllSolved s (l1 ++ l2) → AllSolved s R → AllSolved s O →
      sumTerms env s (l1 ++ l2) 0 = some A → sumTerms env s R 0 = some 0 →
      sumTerms env s O 0 = some C →
      cs.solveConstraint env ⟨l1 ++ t :: l2, R, O⟩ s =
        (.ok 0, s.stored t.VariableID 0)) ∧
    (∀ L r1 r2 O : LinearExpression,
      AllSolved s L → AllSolved s (r1 ++ r2) → AllSolved s O →
      sumTerms env s L 0 = some 0 → sumTerms env s (r1 ++ r2) 0 = some B →
      sumTerms env s O 0 = some C →
      cs.solveConstraint env ⟨L, r1 ++ t :: r2, O⟩ s =
        (.ok 0, s.stored t.VariableID 0)) := by
  have h2 : t.VariableID < s.solved.length := by
    rcases Nat.lt_or_ge t.VariableID s.solved.length with h | h
    · exact h
    · rw [List.getElem?_eq_none h] at hun
      simp at hun
  have h1 : t.VariableID < s.values.length := by rw [hlen]; exact h2
  refine ⟨?_, ?_⟩
  · intro l1 l2 R O hL hR hO hA hB hC
    unfold R1CS.solveConstraint
    rw [R1CS.walkConstraint_unknown_L hun hnh hL hR hO hA hB hC]
    simp [R1CS.solveWire, Solution.set_eq_stored _ h1 h2]
  · intro L r1 r2 O hL hR hO hA hB hC
    unfold R1CS.solveConstraint
    rw [R1CS.walkConstraint_unknown_R hun hnh hL hR hO hA hB hC]
    simp [R1CS.solveWire, Solution.set_eq_stored _ h1 h2]

/-- C12, over `ZMod 13`: in the constraint `y * (0 * x) = x` with x = 3 solved and y (wire
2) unknown in L, the sum of R is zero and the wire y gets zero with offset 0. -/
theorem C12_degenerate_witness :
    (assertSystem []).solveConstraint (env0 (ZMod 13))
        ⟨[⟨1, 2⟩], [⟨0, 1⟩], [⟨1, 1⟩]⟩ partialSolution =
      (.ok 0, partialSolution.stored 2 0) :=
  (C12_degenerate (env0 (ZMod 13)) (assertSystem []) partialSolution ⟨1, 2⟩ 0 0 3
    (by rfl) (by rfl) (by rfl)).1 [] [] [⟨0, 1⟩] [⟨1, 1⟩]
    (by simp [AllSolved]) (by simp [AllSolved, partialSolution])
    (by simp [AllSolved, partialSolution]) (by rfl) (by rfl) (by rfl)

/-- C13: the discipline of the debug cursor.  (1) `solveConstraint` returns offset 1 exactly
when it performed a division and 0 otherwise; (2) it divides exactly when, after the three
loops, the unknown is in L and the sum of R is not zero, or the unknown is in R and the sum
of L is not zero (so not when there is no unknown, when the unknown is in O, or when the
divisor is zero); (3) when constraint `i` is checked, the first `i` constraints having
passed, the cursor equals the number of constraints with index at most `i` that performed a
division; (4) an iteration never decreases the cursor; (5) the entry carried by an
unsatisfied-constraint error is `DebugInfoComputation[cursor]`. -/
theorem C13_cursor (env : Env F) (cs : R1CS F LE) :
    (∀ (r : R1C) (s s1 : Solution F) (offset : Nat),
      cs.solveConstraint env r s = (.ok offset, s1) →
      (offset = 1 ∧ cs.divided env r s = true) ∨
        (offset = 0 ∧ cs.divided env r s = false)) ∧
    (∀ (r : R1C) (s : Solution F) (w : Walk F),
      cs.walkConstraint env r (Walk.init s) = (.ok (), w) →
      (cs.divided env r s = true ↔ (w.loc = 1 ∧ w.b ≠ 0) ∨ (w.loc = 2 ∧ w.a ≠ 0))) ∧
    (∀ (i : Nat) (r : R1C) (st0 st st1 : LoopState F) (res : Res (SolveError LE) Unit)
      (offset : Nat) (s1 : Solution F),
      st0.debugInfoComputationOffset = 0 →
      cs.solveLoop env 0 (cs.Constraints.take i) st0 = (.ok (), st) →
      cs.Constraints[i]? = some r →
      cs.solveConstraint env r st.solution = (.ok offset, s1) →
      cs.solveStep env i r st = (res, st1) →
      st1.debugInfoComputationOffset =
        cs.divisions env 0 (cs.Constraints.take (i + 1)) st0) ∧
    (∀ (i : Nat) (r : R1C) (st st1 : LoopState F) (res : Res (SolveError LE) Unit),
      cs.solveStep env i r st = (res, st1) →
      st.debugInfoComputationOffset ≤ st1.debugInfoComputationOffset) ∧
    (∀ (i : Nat) (r : R1C) (st st1 : LoopState F) (d : LE),
      cs.solveStep env i r st = (.error (.unsatisfiedConstraint d), st1) →
      cs.DebugInfoComputation[st1.debugInfoComputationOffset]? = some d) := by
  refine ⟨?_, ?_, ?_, ?_, ?_⟩
  · intro r s s1 offset h
    have := R1CS.solveConstraint_offset h
    cases hd : cs.divided env r s
    · right; simpa [hd] using this
    · left; simpa [hd] using this
  · intro r s w h
    simp [R1CS.divided, h, Walk.divides]
  · intro i r st0 st st1 res offset s1 h0 hpre hr hsc hstep
    have hlt : i < cs.Constraints.length := by
      rcases Nat.lt_or_ge i cs.Constraints.length with h | h
      · exact h
      · rw [List.getElem?_eq_none h] at hr
        simp at hr
    have htl : (cs.Constraints.take i).length = i := by
      rw [List.length_take]; omega
    have htake : cs.Constraints.take (i + 1) = cs.Constraints.take i ++ [r] := by
      rw [List.take_succ, hr]; rfl
    rw [htake, R1CS.divisions_append _ _ hpre, htl, (R1CS.solveStep_cursor hstep).1 _ _ hsc,
      R1CS.solveLoop_cursor _ hpre, h0, R1CS.solveConstraint_offset hsc]
    simp only [R1CS.divisions, Nat.zero_add]
    cases cs.solveStep env i r st with
    | mk r1 st2 => cases r1 <;> simp
  · intro i r st st1 res h
    exact (R1CS.solveStep_cursor h).2.1
  · intro i r st st1 d h
    exact (R1CS.solveStep_cursor h).2.2.1 d rfl

/-- C13, over `ZMod 13`: on the constraint `y * x = 10` with x = 3 solved and y unknown in
L, `solveConstraint` divides by the sum 3 of R and returns offset 1. -/
theorem C13_cursor_witness :
    ((1 : Nat) = 1 ∧ (assertSystem []).divided (env0 (ZMod 13))
        ⟨[⟨1, 2⟩], [⟨1, 1⟩], [⟨4, 0⟩]⟩ partialSolution = true) ∨
    ((1 : Nat) = 0 ∧ (assertSystem []).divided (env0 (ZMod 13))
        ⟨[⟨1, 2⟩], [⟨1, 1⟩], [⟨4, 0⟩]⟩ partialSolution = false) :=
  (C13_cursor (env0 (ZMod 13)) (assertSystem [])).1 ⟨[⟨1, 2⟩], [⟨1, 1⟩], [⟨4, 0⟩]⟩
    partialSolution (partialSolution.stored 2 (1 * (10 / 3 - 0))) 1
    (by
      have h3 : (3 : ZMod 13) ≠ 0 := by decide
      simp [R1CS.solveConstraint, R1CS.walkConstraint, R1CS.walkTerms, R1CS.processTerm,
        Walk.init, partialSolution, assertSystem, env0, Solution.computeTerm, Solution.coeff,
        Walk.add, R1CS.solveWire, R1CS.mulByCoeff, Solution.set, Solution.stored,
        Side.locValue, h3])

/-- C14, refuted as stated: in the system `y * y = x` over `ZMod 13` with witness `[3]`,
when the single constraint is processed the wire y (wire 2) is the only wire among its terms
that is neither solved nor hint-bound, yet `solveConstraint` raises the fault "found more
than one wire to instantiate": the wire is on two terms. -/
theorem C14_one_unknown_counterexample :
    (∀ p ∈ twiceSystem.unknownTerms
        { values := [1, 3, 0], coefficients := [0, 1, 2, -1], solved := [true, true, false],
          nbSolved := 2, mHintsFunctions := [] }
        (R1C.terms ⟨[⟨1, 2⟩], [⟨1, 2⟩], [⟨1, 1⟩]⟩), p.1.VariableID = 2) ∧
    (twiceSystem.solveConstraint (env0 (ZMod 13)) ⟨[⟨1, 2⟩], [⟨1, 2⟩], [⟨1, 1⟩]⟩
        { values := [1, 3, 0], coefficients := [0, 1, 2, -1], solved := [true, true, false],
          nbSolved := 2, mHintsFunctions := [] }).1 = .fault .moreThanOneWire ∧
    (twiceSystem.Solve (env0 (ZMod 13)) [3] [0] [0] [0] []).result =
      .fault .moreThanOneWire := by
  decide

/-- C14, amended: if a constraint, at the moment it is processed, has at most one term
among its L, R, O terms whose wire is neither already solved nor hint-bound, then
`solveConstraint` does not raise the fault "found more than one wire to instantiate". -/
theorem C14_one_unknown (env : Env F) (cs : R1CS F LE) (r : R1C) (s : Solution F)
    (h : (cs.unknownTerms s r.terms).length ≤ 1) :
    (cs.solveConstraint env r s).1 ≠ .fault .moreThanOneWire := by
  unfold R1CS.solveConstraint
  rw [R1CS.walkConstraint_eq_walkTagged]
  cases hwc : cs.walkTagged env r.terms (Walk.init s) with
  | mk rw w =>
    have hno := R1CS.walkTagged_no_second _ hwc (R1CS.WalkInv.init cs s)
      (by simpa [Walk.init] using h)
    cases rw with
    | error e => simp
    | fault f =>
      simp only [ne_eq, Res.fault.injEq]
      intro hf
      exact hno (by rw [hf])
    | ok u =>
      simp only
      (repeat' split) <;> simp

/-- C14 amended, over `ZMod 13`: the constraint `x * x = y` of the scenario has one term on
an unsolved wire. -/
theorem C14_one_unknown_witness :
    ((squareSystem (env0 (ZMod 13)) Unit).unknownTerms partialSolution
        (R1C.terms ⟨[⟨1, 1⟩], [⟨1, 1⟩], [⟨1, 2⟩]⟩)).length ≤ 1 ∧
    ((squareSystem (env0 (ZMod 13)) Unit).solveConstraint (env0 (ZMod 13))
        ⟨[⟨1, 1⟩], [⟨1, 1⟩], [⟨1, 2⟩]⟩ partialSolution).1 ≠ .fault .moreThanOneWire :=
  ⟨by decide, C14_one_unknown (env0 (ZMod 13)) (squareSystem (env0 (ZMod 13)) Unit)
    ⟨[⟨1, 1⟩], [⟨1, 1⟩], [⟨1, 2⟩]⟩ partialSolution (by decide)⟩

/-- C15, refuted as stated: in the system `z * u = v` over `ZMod 13` with witness `[3]`,
the wires u (3) and v (4) are unsolved and without a hint binding and z (2) is bound to a
hint.  Without the hint function, `solveConstraint` returns the hint error (no fault is
raised); with it, the fault is raised but the wire z has been set by that call. -/
theorem C15_two_unknowns_counterexample :
    twoUnknownSystem.isUnknown
      { values := [1, 3, 0, 0, 0], coefficients := [0, 1, 2, -1],
        solved := [true, true, false, false, false], nbSolved := 2,
        mHintsFunctions := [] } ⟨1, 3⟩ = true ∧
    twoUnknownSystem.isUnknown
      { values := [1, 3, 0, 0, 0], coefficients := [0, 1, 2, -1],
        solved := [true, true, false, false, false], nbSolved := 2,
        mHintsFunctions := [] } ⟨1, 4⟩ = true ∧
    (twoUnknownSystem.solveConstraint (env0 (ZMod 13)) ⟨[⟨1, 2⟩], [⟨1, 3⟩], [⟨1, 4⟩]⟩
      { values := [1, 3, 0, 0, 0], coefficients := [0, 1, 2, -1],
        solved := [true, true, false, false, false], nbSolved := 2,
        mHintsFunctions := [] }).1 =
      .error (.hintResolutionFailed "missing hint function") ∧
    (twoUnknownSystem.Solve (env0 (ZMod 13)) [3] [0] [0] [0] []).result =
      .error (.hintResolutionFailed "missing hint function") ∧
    (twoUnknownSystem.Solve (env0 (ZMod 13)) [3] [0] [0] [0] [firstInputHint]).result =
      .fault .moreThanOneWire ∧
    (twoUnknownSystem.Solve (env0 (ZMod 13)) [3] [0] [0] [0]
        [firstInputHint]).solution.map (fun s => s.solved) =
      some [true, true, true, false, false] := by
  decide

/-- C15, amended: if a constraint contains terms on two distinct wires that are both
unsolved and not hint-bound when it is processed, `solveConstraint` does not return a value
and sets no wire without a hint binding; its outcome is the fault "found more than one wire
to instantiate", or an indexing fault or a hint error met earlier in the walk; and when no
term of the constraint is on an unsolved hint-bound wire and every term on a solved wire has
a value, the outcome is that fault and no wire is set. -/
theorem C15_two_unknowns (env : Env F) (cs : R1CS F LE) (r : R1C) (s : Solution F)
    (p1 p2 : Term × Side) (h1 : p1 ∈ r.terms) (h2 : p2 ∈ r.terms)
    (hne : p1.1.VariableID ≠ p2.1.VariableID)
    (hu1 : cs.isUnknown s p1.1 = true) (hu2 : cs.isUnknown s p2.1 = true) :
    (∀ offset, (cs.solveConstraint env r s).1 ≠ .ok offset) ∧
    cs.Frozen s (cs.solveConstraint env r s).2 ∧
    ((cs.solveConstraint env r s).1 = .fault .moreThanOneWire ∨
      (cs.solveConstraint env r s).1 = .fault .indexOutOfRange ∨
      ∃ msg, (cs.solveConstraint env r s).1 = .error (.hintResolutionFailed msg)) ∧
    (cs.Plain env s r.terms →
      cs.solveConstraint env r s = (.fault .moreThanOneWire, s)) := by
  have hcount : 2 ≤ (cs.unknownTerms s r.terms).length := by
    exact @two_le_length_of_mem _ _ p1 p2 (List.mem_filter.mpr ⟨h1, hu1⟩)
      (List.mem_filter.mpr ⟨h2, hu2⟩) (fun e => hne (by rw [e]))
  have hwalk : ∀ w, cs.walkTagged env r.terms (Walk.init s) ≠ (.ok (), w) := by
    intro w hw
    have := R1CS.walkTagged_ok_unknowns _ hw (R1CS.WalkInv.init cs s)
    omega
  have hsc : ∀ res s1, cs.solveConstraint env r s = (res, s1) →
      ∃ rw w, cs.walkTagged env r.terms (Walk.init s) = (rw, w) ∧ s1 = w.solution ∧
        ((∃ e, rw = .error e ∧ res = .error e) ∨ (∃ f, rw = .fault f ∧ res = .fault f)) := by
    intro res s1 hh
    unfold R1CS.solveConstraint at hh
    rw [R1CS.walkConstraint_eq_walkTagged] at hh
    cases hwc : cs.walkTagged env r.terms (Walk.init s) with
    | mk rw w =>
      rw [hwc] at hh
      cases rw with
      | ok u => exact absurd hwc (hwalk w)
      | error e =>
        simp only [Prod.mk.injEq] at hh
        exact ⟨_, _, rfl, hh.2.symm, Or.inl ⟨e, rfl, hh.1.symm⟩⟩
      | fault f =>
        simp only [Prod.mk.injEq] at hh
        exact ⟨_, _, rfl, hh.2.symm, Or.inr ⟨f, rfl, hh.1.symm⟩⟩
  cases hres : cs.solveConstraint env r s with
  | mk res s1 =>
    obtain ⟨rw, w, hwt, hs1, hk⟩ := hsc res s1 hres
    have hnot : ∀ offset, res ≠ .ok offset := by
      intro offset e
      rcases hk with ⟨_, _, hk⟩ | ⟨_, _, hk⟩ <;> rw [hk] at e <;> simp at e
    refine ⟨hnot, (R1CS.solveConstraint_inv hres).2.2 hnot, ?_, ?_⟩
    · have hkind := R1CS.walkTagged_kind _ hwt
      rcases hk with ⟨e, hrw, hr⟩ | ⟨f, hrw, hr⟩
      · rw [hrw] at hkind
        rcases hkind with hh | hh | hh | ⟨msg, hh⟩
        · simp at hh
        · simp at hh
        · simp at hh
        · simp only [Res.error.injEq] at hh
          exact Or.inr (Or.inr ⟨msg, by rw [hr, hh]⟩)
      · rw [hrw] at hkind
        rcases hkind with hh | hh | hh | ⟨msg, hh⟩
        · simp at hh
        · simp only [Res.fault.injEq] at hh
          exact Or.inr (Or.inl (by rw [hr, hh]))
        · simp only [Res.fault.injEq] at hh
          exact Or.inl (by rw [hr, hh])
        · simp at hh
    · intro hplain
      obtain ⟨q1, q2⟩ := R1CS.walkTagged_plain _ hwt rfl hplain
      rcases q2 with q2 | q2
      · rw [q2] at hwt
        exact absurd hwt (hwalk w)
      · rcases hk with ⟨e, hrw, hr⟩ | ⟨f, hrw, hr⟩
        · rw [hrw] at q2
          simp at q2
        · rw [hrw] at q2
          simp only [Res.fault.injEq] at q2
          rw [hr, q2, hs1, q1]
          rfl

/-- C15 amended, over `ZMod 13`: in the constraint `y * u = x` with x solved and y (wire 2)
and u (wire 3) unsolved, no hints, the fault is raised and the solution is unchanged. -/
theorem C15_two_unknowns_witness :
    (assertSystem []).solveConstraint (env0 (ZMod 13)) ⟨[⟨1, 2⟩], [⟨1, 3⟩], [⟨1, 1⟩]⟩
      { values := [1, 3, 0, 0], coefficients := [0, 1, 2, -1, 10],
        solved := [true, true, false, false], nbSolved := 2, mHintsFunctions := [] } =
    (.fault .moreThanOneWire,
      { values := [1, 3, 0, 0], coefficients := [0, 1, 2, -1, 10],
        solved := [true, true, false, false], nbSolved := 2, mHintsFunctions := [] }) :=
  (C15_two_unknowns (env0 (ZMod 13)) (assertSystem []) ⟨[⟨1, 2⟩], [⟨1, 3⟩], [⟨1, 1⟩]⟩
    { values := [1, 3, 0, 0], coefficients := [0, 1, 2, -1, 10],
      solved := [true, true, false, false], nbSolved := 2, mHintsFunctions := [] }
    (⟨1, 2⟩, Side.L) (⟨1, 3⟩, Side.R) (by decide) (by decide) (by decide) (by decide)
    (by decide)).2.2.2
    (by
      intro p hp
      simp only [R1C.terms, List.map_cons, List.map_nil, List.cons_append, List.nil_append,
        List.mem_cons, List.mem_singleton, List.not_mem_nil, or_false] at hp
      rcases hp with hp | hp | hp <;> subst hp
      · right; decide
      · right; decide
      · left; exact ⟨by decide, by rfl⟩)

/-- C16: when the wire of a term is unsolved and bound to a hint whose resolution succeeds,
`processTerm` stores the hint's value (the wire becomes solved) and leaves the accumulators
`a`, `b`, `c` as they are.  After the walk of a constraint, each of the sums `a`, `b`, `c`
used to solve its unknown is the sum of the values of only those terms of the side whose
wire was already solved when the term was reached (`Walk.contribution`): a wire resolved by
a hint during the walk contributes nothing. -/
theorem C16_hint_not_summed (env : Env F) (cs : R1CS F LE) :
    (∀ (w : Walk F) (t : Term) (side : Side) (hID : Nat) (hint : Hint F) (s1 : Solution F),
      w.solution.solved[t.VariableID]? = some false →
      cs.mHints.lookup t.VariableID = some hID →
      cs.Hints[hID]? = some hint →
      (w.solution.solveHint hint t.VariableID : Res (SolveError LE) (Solution F)) = .ok s1 →
      cs.processTerm env w t side = (.ok (), { w with solution := s1 }) ∧
        s1.solved[t.VariableID]? = some true ∧ w.contribution env t = 0) ∧
    (∀ (side : Side) (ts : List (Term × Side)) (w w1 : Walk F),
      cs.walkTagged env ts w = (.ok (), w1) →
      w1.acc side = w.acc side + cs.reachedSum env side ts w) ∧
    (∀ (r : R1C) (s : Solution F) (w : Walk F),
      cs.walkConstraint env r (Walk.init s) = (.ok (), w) →
      w.a = cs.reachedSum env Side.L r.terms (Walk.init s) ∧
      w.b = cs.reachedSum env Side.R r.terms (Walk.init s) ∧
      w.c = cs.reachedSum env Side.O r.terms (Walk.init s)) := by
  refine ⟨?_, ?_, ?_⟩
  · intro w t side hID hint s1 hun hb hh hsol
    refine ⟨by simp [R1CS.processTerm, hun, hb, hh, hsol], ?_, by
      simp [Walk.contribution, hun]⟩
    obtain ⟨v, hset⟩ := Solution.solveHint_ok hsol
    exact (Solution.set_spec hset hun).2.2.1
  · intro side ts w w1 h
    exact R1CS.walkTagged_acc side ts h
  · intro r s w h
    rw [R1CS.walkConstraint_eq_walkTagged] at h
    have hL := R1CS.walkTagged_acc Side.L _ h
    have hR := R1CS.walkTagged_acc Side.R _ h
    have hO := R1CS.walkTagged_acc Side.O _ h
    simp only [Walk.acc, Walk.init, zero_add] at hL hR hO
    exact ⟨hL, hR, hO⟩

/-- C16, over `ZMod 13`: in the constraint `z * 1 = x` of the system with z bound to the
hint function that returns x = 3, walking the terms solves z to 3 and leaves the sum of L
at zero. -/
theorem C16_hint_not_summed_witness :
    hintSystem.walkConstraint (env0 (ZMod 13)) ⟨[⟨1, 2⟩], [⟨1, 0⟩], [⟨1, 1⟩]⟩
        (Walk.init { values := [1, 3, 0], coefficients := [0, 1, 2, -1],
                     solved := [true, true, false], nbSolved := 2,
                     mHintsFunctions := [firstInputHint] }) =
      (.ok (), { solution := { values := [1, 3, 3], coefficients := [0, 1, 2, -1],
                               solved := [true, true, true], nbSolved := 3,
                               mHintsFunctions := [firstInputHint] },
                 loc := 0, termToCompute := ⟨0, 0⟩, a := 0, b := 1, c := 3 }) ∧
    (0 : ZMod 13) = hintSystem.reachedSum (env0 (ZMod 13)) Side.L
      (R1C.terms ⟨[⟨1, 2⟩], [⟨1, 0⟩], [⟨1, 1⟩]⟩)
      (Walk.init { values := [1, 3, 0], coefficients := [0, 1, 2, -1],
                   solved := [true, true, false], nbSolved := 2,
                   mHintsFunctions := [firstInputHint] }) :=
  ⟨by rfl, ((C16_hint_not_summed (env0 (ZMod 13)) hintSystem).2.2
    ⟨[⟨1, 2⟩], [⟨1, 0⟩], [⟨1, 1⟩]⟩
    { values := [1, 3, 0], coefficients := [0, 1, 2, -1],
      solved := [true, true, false], nbSolved := 2, mHintsFunctions := [firstInputHint] }
    { solution := { values := [1, 3, 3], coefficients := [0, 1, 2, -1],
                    solved := [true, true, true], nbSolved := 3,
                    mHintsFunctions := [firstInputHint] },
      loc := 0, termToCompute := ⟨0, 0⟩, a := 0, b := 1, c := 3 } (by rfl)).1⟩

/-- C17: for a list of hint bindings whose target wire IDs are pairwise distinct,
`initHints` builds an index whose keys are exactly the target wire IDs and that maps
`Hints[i].WireID` to `i` for every position `i`; the index depends on the hint list alone
(the previous index is discarded and nothing else of the system changes); and `ReadFrom`
rebuilds it from the decoded hint list after a successful decode. -/
theorem C17_initHints (cs : R1CS F LE)
    (hd : (cs.Hints.map (fun h => h.WireID)).Nodup) :
    (∀ k : Nat, (cs.initHints.mHints.lookup k).isSome = true ↔
      ∃ h, h ∈ cs.Hints ∧ h.WireID = k) ∧
    (∀ (i : Nat) (h : Hint F), cs.Hints[i]? = some h →
      cs.initHints.mHints.lookup h.WireID = some i) ∧
    (∀ cs1 : R1CS F LE, cs1.Hints = cs.Hints → cs1.initHints.mHints = cs.initHints.mHints) ∧
    cs.initHints = { cs with mHints := cs.initHints.mHints } ∧
    (∀ (old : R1CS F LE) (decode : R1CS F LE → R1CS F LE × Option String) (n : Int),
      decode old = (cs, none) →
      old.ReadFrom none decode n = (cs.initHints, n, none)) := by
  refine ⟨?_, ?_, ?_, rfl, ?_⟩
  · intro k
    have := initHintsFrom_lookup_isSome cs.Hints 0 [] k
    simpa [R1CS.initHints] using this
  · intro i h hi
    have := initHintsFrom_lookup_get cs.Hints 0 [] hd i h hi
    simpa [R1CS.initHints] using this
  · intro cs1 h1
    simp [R1CS.initHints, h1]
  · intro old decode n hdec
    simp [R1CS.ReadFrom, hdec]

/-- C17, over `ZMod 13`: for the hint list with targets 2 and 5 and a stale index, the
rebuilt index maps 5 to position 1. -/
theorem C17_initHints_witness :
    (([⟨2, 7, [.wire 1]⟩, ⟨5, 7, []⟩] : List (Hint (ZMod 13))).map
      (fun h => h.WireID)).Nodup ∧
    (R1CS.initHints { hintSystem with
        Hints := [⟨2, 7, [.wire 1]⟩, ⟨5, 7, []⟩], mHints := [(9, 9)] }).mHints.lookup 5 =
      some 1 :=
  ⟨by decide,
   (C17_initHints { hintSystem with
      Hints := [⟨2, 7, [.wire 1]⟩, ⟨5, 7, []⟩], mHints := [(9, 9)] } (by decide)).2.1 1
    ⟨5, 7, []⟩ (by rfl)⟩

/-- C18: `instantiateR1C` returns, for each of L, R, O, the field sum of the values
`coeff * wire_value` of the terms of the expression (zero for an empty expression), and the
result does not change when the terms are permuted within L, within R and within O.  (When
an index is out of range the outcome is the indexing fault, in every order.) -/
theorem C18_instantiateR1C (env : Env F) (s : Solution F) :
    (∀ r : R1C, R1CS.instantiateR1C env r s =
      match termValues env s r.L, termValues env s r.R, termValues env s r.O with
      | some ls, some rs, some os => some (ls.sum, rs.sum, os.sum)
      | _, _, _ => none) ∧
    (∀ (t : Term) (k v : F), coeffValue env s.coefficients t.CoeffID = some k →
      s.values[t.VariableID]? = some v → s.computeTerm env t = some (k * v)) ∧
    R1CS.instantiateR1C env ⟨[], [], []⟩ s = some (0, 0, 0) ∧
    (∀ L1 L2 R1 R2 O1 O2 : LinearExpression, L1.Perm L2 → R1.Perm R2 → O1.Perm O2 →
      R1CS.instantiateR1C env ⟨L1, R1, O1⟩ s = R1CS.instantiateR1C env ⟨L2, R2, O2⟩ s) := by
  refine ⟨?_, ?_, rfl, ?_⟩
  · intro r
    unfold R1CS.instantiateR1C
    simp only [sumTerms_eq_sum, zero_add]
    cases termValues env s r.L <;> cases termValues env s r.R <;>
      cases termValues env s r.O <;> rfl
  · intro t k v hk hv
    unfold Solution.computeTerm
    rw [Solution.coeff_eq, hk, hv]
  · intro L1 L2 R1 R2 O1 O2 hL hR hO
    unfold R1CS.instantiateR1C
    simp only [sumTerms_perm hL, sumTerms_perm hR, sumTerms_perm hO]

/-- C18, over `ZMod 13`: with x = 3, the expression `2 * x + 10 * one` and its reversal
both evaluate to 16 = 3. -/
theorem C18_instantiateR1C_witness :
    R1CS.instantiateR1C (env0 (ZMod 13)) ⟨[⟨2, 1⟩, ⟨4, 0⟩], [], []⟩ partialSolution =
      R1CS.instantiateR1C (env0 (ZMod 13)) ⟨[⟨4, 0⟩, ⟨2, 1⟩], [], []⟩ partialSolution ∧
    R1CS.instantiateR1C (env0 (ZMod 13)) ⟨[⟨2, 1⟩, ⟨4, 0⟩], [], []⟩ partialSolution =
      some (3, 0, 0) :=
  ⟨(C18_instantiateR1C (env0 (ZMod 13)) partialSolution).2.2.2 _ _ _ _ _ _
    (List.Perm.swap _ _ _) (List.Perm.refl _) (List.Perm.refl _), by decide⟩

/-- C19: whenever `Solve` returns without error, every constraint `i` is satisfied by the
returned wire values: the sums of L, R, O evaluated over the returned vector (with the
coefficient table of the system) satisfy `eval(L) * eval(R) = eval(O)`, and `a[i]`, `b[i]`,
`c[i]` are these evaluations.  The two facts it rests on are part of the statement: after
`solveConstraint` returns a value every wire the constraint mentions is solved, and an
iteration of the loop changes neither the flag nor the value of a solved wire. -/
theorem C19_soundness (env : Env F) (cs : R1CS F LE) (witness a b c : List F)
    (hintFunctions : List (HintFunction F)) (ws : List F)
    (h : (cs.Solve env witness a b c hintFunctions).result = .ok ws) :
    (∀ (i : Nat) (r : R1C), cs.Constraints[i]? = some r →
      ∃ x y z,
        R1CS.instantiateR1C env r (Solution.ofValues ws cs.Coefficients) = some (x, y, z) ∧
        x * y = z ∧
        (cs.Solve env witness a b c hintFunctions).a[i]? = some x ∧
        (cs.Solve env witness a b c hintFunctions).b[i]? = some y ∧
        (cs.Solve env witness a b c hintFunctions).c[i]? = some z) ∧
    (∀ (r : R1C) (s s1 : Solution F) (offset : Nat),
      cs.solveConstraint env r s = (.ok offset, s1) →
      ∀ p, p ∈ r.terms → s1.solved[p.1.VariableID]? = some true) ∧
    (∀ (i : Nat) (r : R1C) (st st1 : LoopState F) (res : Res (SolveError LE) Unit),
      cs.solveStep env i r st = (res, st1) →
      ∀ v : Nat, st.solution.solved[v]? = some true →
        st1.solution.solved[v]? = some true ∧
          st1.solution.values[v]? = st.solution.values[v]?) := by
  refine ⟨?_, ?_, ?_⟩
  · obtain ⟨s0, st, hi, hl, _, hout⟩ := R1CS.Solve_ok h
    have hsound := @R1CS.Sound.loop F _ _ LE env cs cs.Constraints 0 _ st [] hl rfl
      (fun j r hj => by simp at hj)
    have hco : st.solution.coefficients = cs.Coefficients :=
      (R1CS.solveLoop_coefficients _ hl).trans (R1CS.solveInit_coefficients hi)
    have hws : ws = st.solution.values := by
      rw [hout] at h
      simp only [Res.ok.injEq] at h
      exact h.symm
    intro i r hr
    obtain ⟨_, x, y, z, q1, q2, q3, q4, q5⟩ := hsound i r (by simpa using hr)
    refine ⟨x, y, z, ?_, q2, ?_, ?_, ?_⟩
    · rw [hws, ← hco, R1CS.instantiateR1C_ofValues]; exact q1
    · rw [hout]; exact q3
    · rw [hout]; exact q4
    · rw [hout]; exact q5
  · intro r s s1 offset hsc
    exact R1CS.solveConstraint_ok_solved hsc
  · intro i r st st1 res hs v hv
    exact (R1CS.solveStep_inv hs).2.1.2.2 v hv

/-- C19, at the system `x * x = y` over `ZMod 13` with witness `x = 3`: over the returned
vector `[1, 3, 9]` the constraint evaluates to `3 * 3 = 9`. -/
theorem C19_soundness_witness :
    ((squareSystem (env0 (ZMod 13)) Unit).Solve (env0 (ZMod 13)) [3] [0] [0] [0] []).result =
      .ok [1, 3, 9] ∧
    ∃ x y z,
      R1CS.instantiateR1C (env0 (ZMod 13)) ⟨[⟨1, 1⟩], [⟨1, 1⟩], [⟨1, 2⟩]⟩
        (Solution.ofValues [1, 3, 9] (squareSystem (env0 (ZMod 13)) Unit).Coefficients) =
          some (x, y, z) ∧
      x * y = z ∧
      ((squareSystem (env0 (ZMod 13)) Unit).Solve (env0 (ZMod 13))
        [3] [0] [0] [0] []).a[0]? = some x ∧
      ((squareSystem (env0 (ZMod 13)) Unit).Solve (env0 (ZMod 13))
        [3] [0] [0] [0] []).b[0]? = some y ∧
      ((squareSystem (env0 (ZMod 13)) Unit).Solve (env0 (ZMod 13))
        [3] [0] [0] [0] []).c[0]? = some z :=
  ⟨by decide, (C19_soundness (env0 (ZMod 13)) (squareSystem (env0 (ZMod 13)) Unit)
    [3] [0] [0] [0] [] [1, 3, 9] (by decide)).1 0 ⟨[⟨1, 1⟩], [⟨1, 1⟩], [⟨1, 2⟩]⟩ (by rfl)⟩

/-- C20: for a constraint with exactly one unknown term `t` whose wire occurs once (the
wires of all other terms are solved), no hint binding on that wire, and a coefficient `k`
with `k * k = 1`, the sums re-evaluated after `solveConstraint` satisfy `a * b = c` when `t`
is in O, and when `t` is in L (resp. R) and the sum of R (resp. L) is non-zero.  The last
part records that the reserved coefficients one and minus-one are such `k`. -/
theorem C20_solved_verifies (env : Env F) (cs : R1CS F LE) (s : Solution F) (t : Term)
    (k A B C : F)
    (hlen : s.values.length = s.solved.length)
    (hco : s.coefficients = cs.Coefficients)
    (hun : s.solved[t.VariableID]? = some false)
    (hnh : cs.mHints.lookup t.VariableID = none)
    (hk : coeffValue env cs.Coefficients t.CoeffID = some k)
    (hkk : k * k = 1) :
    (∀ l1 l2 R O : LinearExpression,
      AllSolved s (l1 ++ l2) → AllSolved s R → AllSolved s O →
      sumTerms env s (l1 ++ l2) 0 = some A → sumTerms env s R 0 = some B →
      sumTerms env s O 0 = some C → B ≠ 0 →
      ∃ offset s1 x y z,
        cs.solveConstraint env ⟨l1 ++ t :: l2, R, O⟩ s = (.ok offset, s1) ∧
        R1CS.instantiateR1C env ⟨l1 ++ t :: l2, R, O⟩ s1 = some (x, y, z) ∧ x * y = z) ∧
    (∀ L r1 r2 O : LinearExpression,
      AllSolved s L → AllSolved s (r1 ++ r2) → AllSolved s O →
      sumTerms env s L 0 = some A → sumTerms env s (r1 ++ r2) 0 = some B →
      sumTerms env s O 0 = some C → A ≠ 0 →
      ∃ offset s1 x y z,
        cs.solveConstraint env ⟨L, r1 ++ t :: r2, O⟩ s = (.ok offset, s1) ∧
        R1CS.instantiateR1C env ⟨L, r1 ++ t :: r2, O⟩ s1 = some (x, y, z) ∧ x * y = z) ∧
    (∀ L R o1 o2 : LinearExpression,
      AllSolved s L → AllSolved s R → AllSolved s (o1 ++ o2) →
      sumTerms env s L 0 = some A → sumTerms env s R 0 = some B →
      sumTerms env s (o1 ++ o2) 0 = some C →
      ∃ offset s1 x y z,
        cs.solveConstraint env ⟨L, R, o1 ++ t :: o2⟩ s = (.ok offset, s1) ∧
        R1CS.instantiateR1C env ⟨L, R, o1 ++ t :: o2⟩ s1 = some (x, y, z) ∧ x * y = z) ∧
    (coeffValue env cs.Coefficients env.CoeffIdOne = some 1 ∧ (1 : F) * 1 = 1 ∧
      (env.CoeffIdMinusOne ≠ env.CoeffIdOne →
        coeffValue env cs.Coefficients env.CoeffIdMinusOne = some (-1)) ∧
      (-1 : F) * (-1) = 1) := by
  have h2 : t.VariableID < s.solved.length := by
    rcases Nat.lt_or_ge t.VariableID s.solved.length with h | h
    · exact h
    · rw [List.getElem?_eq_none h] at hun
      simp at hun
  have h1 : t.VariableID < s.values.length := by rw [hlen]; exact h2
  have hks : coeffValue env s.coefficients t.CoeffID = some k := by rw [hco]; exact hk
  have hkx : ∀ x : F, k * (k * x) = x := by
    intro x
    rw [← mul_assoc, hkk, one_mul]
  refine ⟨?_, ?_, ?_, ?_⟩
  · intro l1 l2 R O hL hR hO hA hB hC hne
    refine ⟨1, s.stored t.VariableID (k * (C / B - A)), A + k * (k * (C / B - A)), B, C,
      ?_, ?_, ?_⟩
    · unfold R1CS.solveConstraint
      rw [R1CS.walkConstraint_unknown_L hun hnh hL hR hO hA hB hC]
      simp [R1CS.solveWire, hne, R1CS.mulByCoeff_eq _ hk, Solution.set_eq_stored _ h1 h2]
    · simp [R1CS.instantiateR1C, sumTerms_after_store _ l1 l2 hlen hun hks hL hA,
        sumTerms_stored _ _ _ hR hun, sumTerms_stored _ _ _ hO hun, hB, hC]
    · rw [hkx]
      field_simp
      ring
  · intro L r1 r2 O hL hR hO hA hB hC hne
    refine ⟨1, s.stored t.VariableID (k * (C / A - B)), A, B + k * (k * (C / A - B)), C,
      ?_, ?_, ?_⟩
    · unfold R1CS.solveConstraint
      rw [R1CS.walkConstraint_unknown_R hun hnh hL hR hO hA hB hC]
      simp [R1CS.solveWire, hne, R1CS.mulByCoeff_eq _ hk, Solution.set_eq_stored _ h1 h2]
    · simp [R1CS.instantiateR1C, sumTerms_after_store _ r1 r2 hlen hun hks hR hB,
        sumTerms_stored _ _ _ hL hun, sumTerms_stored _ _ _ hO hun, hA, hC]
    · rw [hkx]
      field_simp
      ring
  · intro L R o1 o2 hL hR hO hA hB hC
    refine ⟨0, s.stored t.VariableID (k * (A * B - C)), A, B, C + k * (k * (A * B - C)),
      ?_, ?_, ?_⟩
    · unfold R1CS.solveConstraint
      rw [R1CS.walkConstraint_unknown_O hun hnh hL hR hO hA hB hC]
      simp [R1CS.solveWire, R1CS.mulByCoeff_eq _ hk, Solution.set_eq_stored _ h1 h2]
    · simp [R1CS.instantiateR1C, sumTerms_after_store _ o1 o2 hlen hun hks hO hC,
        sumTerms_stored _ _ _ hL hun, sumTerms_stored _ _ _ hR hun, hA, hB]
    · rw [hkx]
      ring
  · refine ⟨by simp [coeffValue], by simp, ?_, by simp⟩
    intro hne
    simp [coeffValue, hne]

/-- C20, over `ZMod 13`: in the constraint `(-y) * x = 10` with x = 3 solved and y (wire 2,
coefficient minus one, ID 3) unknown in L, the re-evaluated sums multiply to the sum of O. -/
theorem C20_solved_verifies_witness :
    ∃ offset s1 x y z,
      (assertSystem []).solveConstraint (env0 (ZMod 13))
        ⟨[⟨3, 2⟩], [⟨1, 1⟩], [⟨4, 0⟩]⟩ partialSolution = (.ok offset, s1) ∧
      R1CS.instantiateR1C (env0 (ZMod 13)) ⟨[⟨3, 2⟩], [⟨1, 1⟩], [⟨4, 0⟩]⟩ s1 =
        some (x, y, z) ∧ x * y = z :=
  (C20_solved_verifies (env0 (ZMod 13)) (assertSystem []) partialSolution ⟨3, 2⟩ (-1) 0 3 10
    (by rfl) (by rfl) (by rfl) (by rfl) (by rfl) (by decide)).1 [] [] [⟨1, 1⟩] [⟨4, 0⟩]
    (by simp [AllSolved]) (by simp [AllSolved, partialSolution])
    (by simp [AllSolved, partialSolution]) (by rfl) (by rfl) (by rfl) (by decide)

end Gnark
